import Mathlib

/-!
# Young-generation marking visitor: live-bytes cache, slot visit and entry points

A shallow embedding of `src/heap/young-generation-marking-visitor-inl.h`.

Conventions of the embedding.

* Pointers (`MemoryChunk*`, heap objects, maps, slots) are natural-number
  addresses; `nullptr` is `0`.
* `intptr_t` byte counts are integers kept in the signed 64-bit range: the
  accumulation `entry.second += by` of the cache is reduced modulo `2^64`, written
  out as `wrapIntptr`. Sizes returned by `Parent::Visit` are passed on as they are.
* Declarations of the class that live in headers outside this file
  (`kNumEntries`, `kEntriesMask`, `base::hash`, `ALIGN_TO_ALLOCATION_ALIGNMENT`,
  `EnableConcurrentVisitation()`, the static read-only roots, `Parent::Visit`)
  are parameters of the embedding, and so are the layout of ephemeron hash tables and
  the wrapper extraction of the marking worklists.
* The state carries the calls made so far, so that statements of the form
  "this function is not called" can be made.
-/

namespace YoungGenerationMarkingVisitor

/-! ## Live-bytes cache -/

/-- A `MemoryChunk*`; the null pointer is `0`. -/
abbrev MemoryChunk := Nat

/-- One element of `live_bytes_data_`: the pair `(first, second)` of a chunk pointer and
the bytes accumulated for it. The count is a 64-bit value: every count the cache stores is
the result of `wrapIntptr`. -/
abbrev Entry := MemoryChunk × Int

/-- The header constants of the cache and the hash functor `base::hash<MemoryChunk*>`,
none of which is declared in this file. -/
structure CacheParams where
  kNumEntries : Nat
  kEntriesMask : Nat
  hash : MemoryChunk → Nat

/-- The live-bytes part of a visitor: the array `live_bytes_data_`, and the calls
`chunk->IncrementLiveBytesAtomically(amount)` issued so far, oldest first. -/
structure LiveBytes where
  live_bytes_data_ : List Entry
  flushed : List Entry
deriving DecidableEq, Repr

/-- The array of a freshly constructed visitor: `kNumEntries` value-initialised pairs. -/
def LiveBytes.fresh (p : CacheParams) : LiveBytes :=
  { live_bytes_data_ := List.replicate p.kNumEntries (0, 0), flushed := [] }

/-- The index `base::hash<MemoryChunk*>()(chunk) & kEntriesMask`. -/
def entryIndex (p : CacheParams) (chunk : MemoryChunk) : Nat :=
  p.hash chunk &&& p.kEntriesMask

/-- The value of an integer as a 64-bit `intptr_t`: its residue modulo `2^64` in the range
from `-2^63` up to, not including, `2^63`. -/
def wrapIntptr (x : Int) : Int :=
  (x + 9223372036854775808) % 18446744073709551616 - 9223372036854775808

/-- The integer is representable as a 64-bit `intptr_t`. -/
def IsIntptr (x : Int) : Prop := -9223372036854775808 ≤ x ∧ x < 9223372036854775808

/-- The member function `IncrementLiveBytesCached(chunk, by)`. Its debug-only alignment check
has no effect on the state and is left out. The statement `entry.second += by` works on a
64-bit count, so the stored sum is reduced by `wrapIntptr`. -/
def IncrementLiveBytesCached (p : CacheParams) (chunk : MemoryChunk) (by_ : Int)
    (lb : LiveBytes) : LiveBytes :=
  let hash := entryIndex p chunk
  let entry := lb.live_bytes_data_.getD hash (0, 0)
  if entry.1 ≠ 0 ∧ entry.1 ≠ chunk then
    { live_bytes_data_ := lb.live_bytes_data_.set hash (chunk, wrapIntptr (0 + by_)),
      flushed := lb.flushed ++ [(entry.1, entry.2)] }
  else
    { live_bytes_data_ := lb.live_bytes_data_.set hash (chunk, wrapIntptr (entry.2 + by_)),
      flushed := lb.flushed }

/-- The flush loop of `~YoungGenerationMarkingVisitor`, which follows `PublishWorklists()`:
every pair whose chunk is non-null is passed to `IncrementLiveBytesAtomically`; the array itself
is left as it is. -/
def FlushLiveBytes (lb : LiveBytes) : LiveBytes :=
  lb.live_bytes_data_.foldl
    (fun s pair => if pair.1 ≠ 0 then { s with flushed := s.flushed ++ [(pair.1, pair.2)] } else s)
    lb

/-- A sequence of `IncrementLiveBytesCached(chunk_i, by_i)` calls, first call first. -/
def IncrementAll (p : CacheParams) (calls : List Entry) (lb : LiveBytes) : LiveBytes :=
  calls.foldl (fun s c => IncrementLiveBytesCached p c.1 c.2 s) lb

/-- The bytes that a list of `(chunk, amount)` pairs attributes to chunk `c`. -/
def bytesFor (c : MemoryChunk) (l : List Entry) : Int :=
  (l.map (fun e => if e.1 = c then e.2 else 0)).sum

/-- Cache states reachable from the fresh cache by calls with non-null chunks. -/
inductive Reachable (p : CacheParams) : LiveBytes → Prop
  | fresh : Reachable p (LiveBytes.fresh p)
  | step {lb : LiveBytes} (chunk : MemoryChunk) (by_ : Int) :
      Reachable p lb → chunk ≠ 0 → Reachable p (IncrementLiveBytesCached p chunk by_ lb)

/-- Entries without a chunk carry no bytes. -/
def NullZero (l : List Entry) : Prop := ∀ e ∈ l, e.1 = 0 → e.2 = 0

/-- Every pair of the list that belongs to chunk `c` has a non-negative amount. -/
def NonNegFor (c : MemoryChunk) (l : List Entry) : Prop := ∀ e ∈ l, e.1 = c → 0 ≤ e.2

/-- Two calls on one chunk whose amounts add up to `2^63`, one more than `INTPTR_MAX`. -/
def overflowCalls : List Entry := [(1, 9223372036854775807), (1, 1)]

/-- A four-entry cache with the identity hash, for concrete evaluations. -/
def exampleParams : CacheParams := { kNumEntries := 4, kEntriesMask := 3, hash := fun c => c }

/-- Calls on three chunks; chunks `1` and `5` share entry `1`, so `5` evicts `1` and `1`
evicts `5` again. -/
def exampleCalls : List Entry := [(1, 8), (5, 16), (1, 24), (2, 32)]

/-! ## Heap and visitor state -/

/-- Address of a heap object. -/
abbrev HeapObject := Nat

/-- Address of a map (the type descriptor of an object). -/
abbrev Map := Nat

/-- Address of a slot. -/
abbrev Slot := Nat

/-- A `VisitorId` enumerator, by its number. -/
abbrev VisitorId := Nat

/-- The value a slot holds (`TSlot::TObject`): a small integer, a cleared weak reference, or a
strong or weak reference to a heap object. -/
inductive Tagged
  | smi (value : Int)
  | cleared
  | strong (object : HeapObject)
  | weak (object : HeapObject)
deriving DecidableEq, Repr

/-- The test `target.GetHeapObject(&heap_object)`: succeeds on strong and on weak references alike
("treat weak references as strong"), fails on the other values. -/
def Tagged.GetHeapObject : Tagged → Option HeapObject
  | Tagged.strong object => some object
  | Tagged.weak object => some object
  | Tagged.smi _ => none
  | Tagged.cleared => none

/-- Template parameter of the visitor class. -/
inductive YoungGenerationMarkingVisitorMode
  | kParallel
  | kConcurrent
deriving DecidableEq, Repr

/-- Template parameter of `VisitObjectViaSlot`. -/
inductive ObjectVisitationMode
  | kVisitDirectly
  | kPushToWorklist
deriving DecidableEq, Repr

/-- Template parameter of `VisitObjectViaSlot`. -/
inductive SlotTreatmentMode
  | kReadOnly
  | kReadWrite
deriving DecidableEq, Repr

/-- Result of `Map::ObjectFieldsFrom`. -/
inductive ObjectFields
  | kDataOnly
  | kMaybePointers
deriving DecidableEq, Repr

/-- What this file takes from its headers and from the build configuration: the cache
constants, the alignment macro, `EnableConcurrentVisitation()`, the preprocessor switches, the
static read-only roots compared against in `ShortCutStrings`, the visitor id
`kVisitShortcutCandidate`, and `Map::ObjectFieldsFrom`. -/
structure Build where
  cache : CacheParams
  ALIGN_TO_ALLOCATION_ALIGNMENT : Int → Int
  EnableConcurrentVisitation : YoungGenerationMarkingVisitorMode → Bool
  V8_MINORMS_STRING_SHORTCUTTING : Bool
  V8_STATIC_ROOTS_BOOL : Bool
  THREAD_SANITIZER : Bool
  kThinOneByteStringMap : Map
  kThinTwoByteStringMap : Map
  kConsOneByteStringMap : Map
  kConsTwoByteStringMap : Map
  kempty_string : Nat
  kVisitShortcutCandidate : VisitorId
  ObjectFieldsFrom : VisitorId → ObjectFields

/-- The object facts the visitor reads: generation, map, the map's visitor id, size, owning
chunk, and the fields of thin and cons strings. They do not change during a visit. -/
structure Heap where
  InYoungGeneration : HeapObject → Bool
  map : HeapObject → Map
  visitor_id : Map → VisitorId
  SizeFromMap : HeapObject → Map → Int
  FromHeapObject : HeapObject → MemoryChunk
  actual : HeapObject → HeapObject
  first : HeapObject → HeapObject
  second : HeapObject → Nat

/-- An embedder wrapper snapshot (`MarkingWorklists::Local::WrapperSnapshot`), by an
identifying number. -/
abbrev WrapperSnapshot := Nat

/-- Calls the visitor makes, in the order it makes them. The live-bytes event also names the
object on whose behalf `IncrementLiveBytesCached(chunk, by)` is called. The last five are the
calls of the per-category entry points: `ephemeron_table_list_local_.Push`,
`Parent::VisitJSObjectSubclass`, `pretenuring_handler_->UpdateAllocationSite`, and
`ExtractWrapper` and `PushExtractedWrapper` of the marking worklists. -/
inductive Event
  | SynchronizedHeapLoad (chunk : MemoryChunk)
  | StoreHeapObject (slot : Slot) (object : HeapObject)
  | TryMark (object : HeapObject)
  | Push (object : HeapObject)
  | IncrementLiveBytesCached (object : HeapObject) (chunk : MemoryChunk) (by_ : Int)
  | Visit (map : Map) (object : HeapObject)
  | PushEphemeronTable (table : HeapObject)
  | VisitJSObjectSubclass (map : Map) (object : HeapObject)
  | UpdateAllocationSite (map : Map) (object : HeapObject)
  | ExtractWrapper (map : Map) (object : HeapObject)
  | PushExtractedWrapper (wrapper_snapshot : WrapperSnapshot)
deriving DecidableEq, Repr

/-- The visitor together with the parts of the heap it reads and writes: slot contents, mark
bits, the local marking worklist (oldest push first), the local ephemeron table list, the
live-bytes cache, the member `shortcut_strings_`, and the calls made so far. -/
structure VisitorState where
  memory : Slot → Tagged
  marked : List HeapObject
  worklist : List HeapObject
  ephemeron_table_list_local_ : List HeapObject
  live_bytes : LiveBytes
  shortcut_strings_ : Bool
  trace : List Event

/-- Append one call to the trace. -/
def VisitorState.record (e : Event) (s : VisitorState) : VisitorState :=
  { s with trace := s.trace ++ [e] }

/-- Modelled from the spec: the mark-claim primitive `TryMark` (declared outside this file),
an atomic test-and-set of the object's mark bit; `true` means newly claimed. -/
def TryMark (heap_object : HeapObject) (s : VisitorState) : Bool × VisitorState :=
  if heap_object ∈ s.marked then
    (false, s.record (Event.TryMark heap_object))
  else
    (true, { s with marked := heap_object :: s.marked }.record (Event.TryMark heap_object))

/-- The call `marking_worklists_local_.Push(heap_object)`. -/
def Push (heap_object : HeapObject) (s : VisitorState) : VisitorState :=
  { s with worklist := s.worklist ++ [heap_object] }.record (Event.Push heap_object)

/-- The call `slot.StoreHeapObject(heap_object)`: the slot now holds a strong reference. -/
def StoreHeapObject (slot : Slot) (heap_object : HeapObject) (s : VisitorState) : VisitorState :=
  { s with memory := fun x => if x = slot then Tagged.strong heap_object else s.memory x }.record
    (Event.StoreHeapObject slot heap_object)

/-- The call `IncrementLiveBytesCached(chunk, by)` made for `heap_object`, on the visitor. -/
def IncrementLiveBytesCachedFor (B : Build) (heap_object : HeapObject) (chunk : MemoryChunk)
    (by_ : Int) (s : VisitorState) : VisitorState :=
  { s with live_bytes := IncrementLiveBytesCached B.cache chunk by_ s.live_bytes }.record
    (Event.IncrementLiveBytesCached heap_object chunk by_)

/-- The member function `ShortCutStrings(slot, &heap_object)`: the result, the possibly replaced `*heap_object`,
and the state. -/
def ShortCutStrings (B : Build) (heap : Heap) (slot : Slot) (heap_object : HeapObject)
    (s : VisitorState) : Bool × HeapObject × VisitorState :=
  if s.shortcut_strings_ && B.V8_STATIC_ROOTS_BOOL then
    let map_address := heap.map heap_object
    if map_address = B.kThinOneByteStringMap ∨ map_address = B.kThinTwoByteStringMap then
      let heap_object := heap.actual heap_object
      (false, heap_object, StoreHeapObject slot heap_object s)
    else if map_address = B.kConsOneByteStringMap ∨ map_address = B.kConsTwoByteStringMap then
      let visitor_id := heap.visitor_id (heap.map heap_object)
      if visitor_id = B.kVisitShortcutCandidate then
        if heap.second heap_object = B.kempty_string then
          let heap_object := heap.first heap_object
          let s := StoreHeapObject slot heap_object s
          if !heap.InYoungGeneration heap_object then (false, heap_object, s)
          else (true, heap_object, s)
        else (true, heap_object, s)
      else (true, heap_object, s)
    else (true, heap_object, s)
  else (true, heap_object, s)

/-- First part of `VisitObjectViaSlot`, up to the `TryMark` line: load the slot, give up on a
value that is no heap object, on an old-generation object and on a `ShortCutStrings` that returns
false. `none` stands for `return false`; `some heap_object` is the object the visit goes on
with. -/
def ResolveReferent (B : Build) (heap : Heap) (marking_mode : YoungGenerationMarkingVisitorMode)
    (slot_treatment_mode : SlotTreatmentMode) (slot : Slot) (s : VisitorState) :
    Option HeapObject × VisitorState :=
  let target := s.memory slot
  match target.GetHeapObject with
  | none => (none, s)
  | some heap_object =>
    let s :=
      if B.THREAD_SANITIZER && B.EnableConcurrentVisitation marking_mode then
        s.record (Event.SynchronizedHeapLoad (heap.FromHeapObject heap_object))
      else s
    if !heap.InYoungGeneration heap_object then (none, s)
    else if B.V8_MINORMS_STRING_SHORTCUTTING
        && decide (slot_treatment_mode = SlotTreatmentMode.kReadWrite) then
      match ShortCutStrings B heap slot heap_object s with
      | (false, _, s) => (none, s)
      | (true, heap_object, s) => (some heap_object, s)
    else (some heap_object, s)

/-- Second part of `VisitObjectViaSlot`, from the `TryMark` line on. `Visit` is
`Parent::Visit`, which returns the visited size. With `EnableConcurrentVisitation()` the
source asserts statically that `visitation_mode` is not `kVisitDirectly`. -/
def ClaimAndDispatch (B : Build) (heap : Heap)
    (Visit : Map → HeapObject → VisitorState → Int × VisitorState)
    (marking_mode : YoungGenerationMarkingVisitorMode) (visitation_mode : ObjectVisitationMode)
    (heap_object : HeapObject) (s : VisitorState) : Bool × VisitorState :=
  match TryMark heap_object s with
  | (false, s) => (true, s)
  | (true, s) =>
    if B.EnableConcurrentVisitation marking_mode then
      (true, Push heap_object s)
    else
      let map := heap.map heap_object
      let visitor_id := heap.visitor_id map
      if B.ObjectFieldsFrom visitor_id = ObjectFields.kDataOnly then
        let visited_size := heap.SizeFromMap heap_object map
        (true, IncrementLiveBytesCachedFor B heap_object (heap.FromHeapObject heap_object)
          (B.ALIGN_TO_ALLOCATION_ALIGNMENT visited_size) s)
      else if visitation_mode = ObjectVisitationMode.kVisitDirectly then
        match Visit map heap_object (s.record (Event.Visit map heap_object)) with
        | (visited_size, s) =>
          if visited_size ≠ 0 then
            (true, IncrementLiveBytesCachedFor B heap_object (heap.FromHeapObject heap_object)
              (B.ALIGN_TO_ALLOCATION_ALIGNMENT visited_size) s)
          else (true, s)
      else
        (true, Push heap_object s)

/-- The member function `VisitObjectViaSlot<visitation_mode, slot_treatment_mode>(slot)`. -/
def VisitObjectViaSlot (B : Build) (heap : Heap)
    (Visit : Map → HeapObject → VisitorState → Int × VisitorState)
    (marking_mode : YoungGenerationMarkingVisitorMode) (visitation_mode : ObjectVisitationMode)
    (slot_treatment_mode : SlotTreatmentMode) (slot : Slot) (s : VisitorState) :
    Bool × VisitorState :=
  match ResolveReferent B heap marking_mode slot_treatment_mode slot s with
  | (none, s) => (false, s)
  | (some heap_object, s) =>
    ClaimAndDispatch B heap Visit marking_mode visitation_mode heap_object s

/-- The member function `VisitObjectViaSlotInRemeberedSet(slot)`. -/
def VisitObjectViaSlotInRemeberedSet (B : Build) (heap : Heap)
    (Visit : Map → HeapObject → VisitorState → Int × VisitorState)
    (marking_mode : YoungGenerationMarkingVisitorMode) (slot : Slot) (s : VisitorState) :
    Bool × VisitorState :=
  if marking_mode = YoungGenerationMarkingVisitorMode.kParallel then
    VisitObjectViaSlot B heap Visit marking_mode ObjectVisitationMode.kVisitDirectly
      SlotTreatmentMode.kReadWrite slot s
  else
    VisitObjectViaSlot B heap Visit marking_mode ObjectVisitationMode.kPushToWorklist
      SlotTreatmentMode.kReadOnly slot s

/-- The member function `VisitPointersImpl(host, start, end)`: the slots `start`, `start + 1`, ... below `end`. -/
def VisitPointersImpl (B : Build) (heap : Heap)
    (Visit : Map → HeapObject → VisitorState → Int × VisitorState)
    (marking_mode : YoungGenerationMarkingVisitorMode) (_host : HeapObject) (start end_ : Slot)
    (s : VisitorState) : VisitorState :=
  (List.range' start (end_ - start)).foldl
    (fun s slot =>
      if marking_mode = YoungGenerationMarkingVisitorMode.kParallel then
        (VisitObjectViaSlot B heap Visit marking_mode ObjectVisitationMode.kPushToWorklist
          SlotTreatmentMode.kReadWrite slot s).2
      else
        (VisitObjectViaSlot B heap Visit marking_mode ObjectVisitationMode.kPushToWorklist
          SlotTreatmentMode.kReadOnly slot s).2)
    s

/-- Calls that claim, queue, count or traverse an object, and the calls of the per-category
entry points; loads and slot stores are not. -/
def Event.touchesMarking : Event → Bool
  | Event.SynchronizedHeapLoad _ => false
  | Event.StoreHeapObject _ _ => false
  | Event.TryMark _ => true
  | Event.Push _ => true
  | Event.IncrementLiveBytesCached _ _ _ => true
  | Event.Visit _ _ => true
  | Event.PushEphemeronTable _ => true
  | Event.VisitJSObjectSubclass _ _ => true
  | Event.UpdateAllocationSite _ _ => true
  | Event.ExtractWrapper _ _ => true
  | Event.PushExtractedWrapper _ => true

/-- The state after a successful `TryMark(heap_object)`. -/
def Claimed (heap_object : HeapObject) (s : VisitorState) : VisitorState :=
  { s with marked := heap_object :: s.marked }.record (Event.TryMark heap_object)

/-- The visit from `s` to `t` claimed, queued and counted nothing: marks, worklist and live
bytes are the same, and the calls added to the trace are loads and slot stores only. -/
def MarkingUntouched (s t : VisitorState) : Prop :=
  t.marked = s.marked ∧ t.worklist = s.worklist ∧ t.live_bytes = s.live_bytes
    ∧ ∃ evs, t.trace = s.trace ++ evs ∧ ∀ e ∈ evs, e.touchesMarking = false

/-- One `VisitObjectViaSlot` call of a visitor: its two template arguments and its slot. -/
structure SlotVisit where
  visitation_mode : ObjectVisitationMode
  slot_treatment_mode : SlotTreatmentMode
  slot : Slot
deriving DecidableEq, Repr

/-- A sequence of `VisitObjectViaSlot` calls by one visitor, first call first. -/
def VisitAll (B : Build) (heap : Heap)
    (Visit : Map → HeapObject → VisitorState → Int × VisitorState)
    (marking_mode : YoungGenerationMarkingVisitorMode) (calls : List SlotVisit)
    (s : VisitorState) : VisitorState :=
  calls.foldl
    (fun s c =>
      (VisitObjectViaSlot B heap Visit marking_mode c.visitation_mode c.slot_treatment_mode
        c.slot s).2)
    s

/-- The object an `IncrementLiveBytesCached` call was made for, if the event is such a call. -/
def Event.countedObject : Event → Option HeapObject
  | Event.IncrementLiveBytesCached object _ _ => some object
  | _ => none

/-- The objects whose size was recorded in the live-bytes cache, oldest first. -/
def countedObjects (trace : List Event) : List HeapObject :=
  trace.filterMap Event.countedObject

/-- The objects of `l` are pairwise different, unmarked in `s` and marked in `t`. -/
def NewlyClaimed (s t : VisitorState) (l : List HeapObject) : Prop :=
  l.Nodup ∧ ∀ o ∈ l, o ∉ s.marked ∧ o ∈ t.marked

/-- Going from `s` to `t`, the mark set only grew, and every object pushed to the worklist and
every object recorded in the live-bytes cache on the way was unmarked in `s` and is marked in
`t`, no object being pushed twice or recorded twice. -/
def ClaimStep (s t : VisitorState) : Prop :=
  (∀ o ∈ s.marked, o ∈ t.marked)
    ∧ (∃ pushed, t.worklist = s.worklist ++ pushed ∧ NewlyClaimed s t pushed)
    ∧ (∃ counted, countedObjects t.trace = countedObjects s.trace ++ counted
        ∧ NewlyClaimed s t counted)

/-- A build for concrete evaluations: string shortcutting compiled in, static roots, no
thread sanitizer, visitor ids below `5` data-only, sizes rounded up to a multiple of `8`. -/
def exampleBuild : Build :=
  { cache := exampleParams
    ALIGN_TO_ALLOCATION_ALIGNMENT := fun value => (value + 7) / 8 * 8
    EnableConcurrentVisitation :=
      fun mode => decide (mode = YoungGenerationMarkingVisitorMode.kConcurrent)
    V8_MINORMS_STRING_SHORTCUTTING := true
    V8_STATIC_ROOTS_BOOL := true
    THREAD_SANITIZER := false
    kThinOneByteStringMap := 100
    kThinTwoByteStringMap := 101
    kConsOneByteStringMap := 102
    kConsTwoByteStringMap := 103
    kempty_string := 900
    kVisitShortcutCandidate := 7
    ObjectFieldsFrom :=
      fun id => if id < 5 then ObjectFields.kDataOnly else ObjectFields.kMaybePointers }

/-- A heap for concrete evaluations. Object `10` is a young data-only object of 20 bytes,
`20` an old object, `30` a young thin string whose actual string is the old object `40`, `50` a
young cons string with left child `60` and the empty string as right child, `60` and `70` young
objects with pointer fields. -/
def exampleHeap : Heap :=
  { InYoungGeneration := fun o => decide (o = 10 ∨ o = 30 ∨ o = 50 ∨ o = 60 ∨ o = 70)
    map := fun o => if o = 10 then 200 else if o = 30 then 100 else if o = 50 then 102 else 201
    visitor_id := fun m => if m = 200 then 1 else if m = 100 then 6 else if m = 102 then 7 else 9
    SizeFromMap := fun o _ => if o = 10 then 20 else 48
    FromHeapObject := fun o => o / 16 + 1
    actual := fun _ => 40
    first := fun _ => 60
    second := fun _ => 900 }

/-- A visitor at the start of a pass. Slot `0` holds a small integer, `1` the data-only object,
`2` the old object, `3` the thin string, `4` the cons string, `5` a weak reference to `60`, `7`
the object `70`, every other slot a cleared weak reference. -/
def exampleState : VisitorState :=
  { memory := fun slot =>
      if slot = 0 then Tagged.smi 7 else if slot = 1 then Tagged.strong 10
      else if slot = 2 then Tagged.strong 20 else if slot = 3 then Tagged.strong 30
      else if slot = 4 then Tagged.strong 50 else if slot = 5 then Tagged.weak 60
      else if slot = 7 then Tagged.strong 70 else Tagged.cleared
    marked := []
    worklist := []
    ephemeron_table_list_local_ := []
    live_bytes := LiveBytes.fresh exampleParams
    shortcut_strings_ := true
    trace := [] }

/-- A body visitor of objects without young referents: it reports 48 bytes. -/
def exampleVisit : Map → HeapObject → VisitorState → Int × VisitorState :=
  fun _ _ s => (48, s)

/-- A body visitor for concrete evaluations: whatever the object, it visits slots `4` to `7`
as the object's body through `VisitPointersImpl` and reports 48 bytes. -/
def exampleBodyVisit : Map → HeapObject → VisitorState → Int × VisitorState :=
  fun _ host s =>
    (48, VisitPointersImpl exampleBuild exampleHeap exampleVisit
      YoungGenerationMarkingVisitorMode.kParallel host 4 8 s)

/-- Four visits by one visitor: the young object `60` directly, the data-only object `10`, slot
`4` again, and the object `70` that the body visit of `60` has pushed already. -/
def exampleVisits : List SlotVisit :=
  [{ visitation_mode := ObjectVisitationMode.kVisitDirectly,
     slot_treatment_mode := SlotTreatmentMode.kReadWrite, slot := 5 },
   { visitation_mode := ObjectVisitationMode.kPushToWorklist,
     slot_treatment_mode := SlotTreatmentMode.kReadOnly, slot := 1 },
   { visitation_mode := ObjectVisitationMode.kPushToWorklist,
     slot_treatment_mode := SlotTreatmentMode.kReadWrite, slot := 4 },
   { visitation_mode := ObjectVisitationMode.kPushToWorklist,
     slot_treatment_mode := SlotTreatmentMode.kReadOnly, slot := 7 }]

/-- The slot treatment mode `VisitPointersImpl` uses under a marking mode. -/
def rangeTreatment (marking_mode : YoungGenerationMarkingVisitorMode) : SlotTreatmentMode :=
  if marking_mode = YoungGenerationMarkingVisitorMode.kParallel then SlotTreatmentMode.kReadWrite
  else SlotTreatmentMode.kReadOnly

/-- The `VisitObjectViaSlot` calls that make up `VisitPointersImpl(host, start, end)`: one per
slot from `start` up to, not including, `end`, each with `kPushToWorklist`. -/
def rangeVisits (marking_mode : YoungGenerationMarkingVisitorMode) (start end_ : Slot) :
    List SlotVisit :=
  (List.range' start (end_ - start)).map fun slot =>
    { visitation_mode := ObjectVisitationMode.kPushToWorklist,
      slot_treatment_mode := rangeTreatment marking_mode, slot := slot }

/-- The calls a slot visit makes by itself: loads, slot stores, `TryMark`, worklist pushes and
live-bytes increments. -/
def Event.isSlotVisitCall : Event → Bool
  | Event.SynchronizedHeapLoad _ => true
  | Event.StoreHeapObject _ _ => true
  | Event.TryMark _ => true
  | Event.Push _ => true
  | Event.IncrementLiveBytesCached _ _ _ => true
  | _ => false

/-- The object has one of the two thin-string maps. -/
abbrev IsThinString (B : Build) (heap : Heap) (o : HeapObject) : Prop :=
  heap.map o = B.kThinOneByteStringMap ∨ heap.map o = B.kThinTwoByteStringMap

/-- The object is a cons string: it has one of the two cons-string maps and no thin-string
map. -/
abbrev IsConsString (B : Build) (heap : Heap) (o : HeapObject) : Prop :=
  (heap.map o = B.kConsOneByteStringMap ∨ heap.map o = B.kConsTwoByteStringMap)
    ∧ ¬ IsThinString B heap o

/-- String shortcutting is in effect for visits of the state `s`: compiled in, with static
roots, and `shortcut_strings_` set. -/
abbrev ShortcuttingInEffect (B : Build) (s : VisitorState) : Prop :=
  B.V8_MINORMS_STRING_SHORTCUTTING = true ∧ B.V8_STATIC_ROOTS_BOOL = true
    ∧ s.shortcut_strings_ = true

/-- The state in which `VisitObjectViaSlot` has loaded the heap object `o`: under the thread
sanitizer a concurrent visitor has made its synchronising load. -/
def Loaded (B : Build) (heap : Heap) (marking_mode : YoungGenerationMarkingVisitorMode)
    (o : HeapObject) (s : VisitorState) : VisitorState :=
  if B.THREAD_SANITIZER && B.EnableConcurrentVisitation marking_mode then
    s.record (Event.SynchronizedHeapLoad (heap.FromHeapObject o))
  else s
/-- The object is a collapsible string wrapper: a thin string, or a cons string that is a
shortcut candidate and has the empty string as right child. -/
abbrev IsCollapsible (B : Build) (heap : Heap) (o : HeapObject) : Prop :=
  IsThinString B heap o
    ∨ (IsConsString B heap o ∧ heap.visitor_id (heap.map o) = B.kVisitShortcutCandidate
        ∧ heap.second o = B.kempty_string)

/-- The object a collapsible wrapper refers to directly: the actual string of a thin string,
the left child of a cons string. -/
def shortcutTarget (B : Build) (heap : Heap) (o : HeapObject) : HeapObject :=
  if IsThinString B heap o then heap.actual o else heap.first o

/-- The example heap with cons strings that are no shortcut candidates: the cons string `50`
keeps its cons-string map and its empty right child, but the map's visitor id is `8`. -/
def exampleHeapPlainCons : Heap :=
  { exampleHeap with visitor_id := fun m => if m = 102 then 8 else exampleHeap.visitor_id m }

/-- The example heap with a chain of two wrappers: the left child of the cons string `50` is
the thin string `30`, whose actual string is `40`. -/
def exampleHeapChain : Heap :=
  { exampleHeap with first := fun o => if o = 50 then 30 else exampleHeap.first o }

/-! ## Per-category entry points -/

/-- What the per-category entry points take from outside this file: the parent visitor's
`Parent::VisitJSObjectSubclass`, which traverses the body and returns its size, and of the
marking worklists `SupportsExtractWrapper()` and `ExtractWrapper(map, object, snapshot)`, which
returns whether the snapshot is valid together with the snapshot it has filled in. -/
structure Collaborators where
  ParentVisitJSObjectSubclass : Map → HeapObject → VisitorState → Int × VisitorState
  SupportsExtractWrapper : Bool
  ExtractWrapper : Map → HeapObject → Bool × WrapperSnapshot

/-- The member function `VisitJSObjectSubclass(map, object)`; its debug-only check of a
positive size is left out. -/
def VisitJSObjectSubclass (C : Collaborators) (map : Map) (object : HeapObject)
    (s : VisitorState) : Int × VisitorState :=
  match C.ParentVisitJSObjectSubclass map object
      (s.record (Event.VisitJSObjectSubclass map object)) with
  | (result, s) => (result, s.record (Event.UpdateAllocationSite map object))

/-- The member function `VisitEmbedderTracingSubClassWithEmbedderTracing(map, object)`. -/
def VisitEmbedderTracingSubClassWithEmbedderTracing (C : Collaborators) (map : Map)
    (object : HeapObject) (s : VisitorState) : Int × VisitorState :=
  match VisitJSObjectSubclass C map object s with
  | (size, s) =>
    if !C.SupportsExtractWrapper then (size, s)
    else
      match C.ExtractWrapper map object with
      | (valid_snapshot, wrapper_snapshot) =>
        let s := s.record (Event.ExtractWrapper map object)
        if size ≠ 0 ∧ valid_snapshot = true then
          (size, s.record (Event.PushExtractedWrapper wrapper_snapshot))
        else (size, s)

/-- The calls `VisitEmbedderTracingSubClassWithEmbedderTracing` makes after
`VisitJSObjectSubclass` has returned `size`. -/
def wrapperCalls (C : Collaborators) (map : Map) (object : HeapObject) (size : Int) :
    List Event :=
  if C.SupportsExtractWrapper then
    if size ≠ 0 ∧ (C.ExtractWrapper map object).1 = true then
      [Event.ExtractWrapper map object,
        Event.PushExtractedWrapper (C.ExtractWrapper map object).2]
    else [Event.ExtractWrapper map object]
  else []

/-- Collaborators for concrete evaluations: the parent visitor reports 48 bytes, wrapper
extraction is supported and succeeds with snapshot `object + 1000`. -/
def exampleCollaborators : Collaborators :=
  { ParentVisitJSObjectSubclass := fun _ _ s => (48, s)
    SupportsExtractWrapper := true
    ExtractWrapper := fun _ object => (true, object + 1000) }

/-- What `VisitEphemeronHashTable` takes from `EphemeronHashTable`: the entries
`table->IterateEntries()` yields, as their internal indices in iteration order, the element
index `EntryToValueIndex(i)` of an entry's value, the slot `RawFieldOfElementAt(index)` of the
table, and `BodyDescriptor::SizeOf(map, table)`. -/
structure EphemeronHashTableLayout where
  IterateEntries : HeapObject → List Nat
  EntryToValueIndex : Nat → Nat
  RawFieldOfElementAt : HeapObject → Nat → Slot
  SizeOf : Map → HeapObject → Int

/-- Modelled from the spec: the member function `VisitPointer(host, slot)`, which the header
declares; it applies the per-slot visit of the range visitor to the one slot. -/
def VisitPointer (B : Build) (heap : Heap)
    (Visit : Map → HeapObject → VisitorState → Int × VisitorState)
    (marking_mode : YoungGenerationMarkingVisitorMode) (host : HeapObject) (slot : Slot)
    (s : VisitorState) : VisitorState :=
  VisitPointersImpl B heap Visit marking_mode host slot (slot + 1) s

/-- Modelled from the spec: the call `ephemeron_table_list_local_.Push(table)` on the local
ephemeron table list, an append-only registration list whose type is declared outside this
file. -/
def PushEphemeronTable (table : HeapObject) (s : VisitorState) : VisitorState :=
  { s with ephemeron_table_list_local_ := s.ephemeron_table_list_local_ ++ [table] }.record
    (Event.PushEphemeronTable table)

/-- The member function `VisitEphemeronHashTable(map, table)`. -/
def VisitEphemeronHashTable (B : Build) (heap : Heap) (L : EphemeronHashTableLayout)
    (Visit : Map → HeapObject → VisitorState → Int × VisitorState)
    (marking_mode : YoungGenerationMarkingVisitorMode) (map : Map) (table : HeapObject)
    (s : VisitorState) : Int × VisitorState :=
  let s := PushEphemeronTable table s
  let s := (L.IterateEntries table).foldl
    (fun s i =>
      let value_slot := L.RawFieldOfElementAt table (L.EntryToValueIndex i)
      VisitPointer B heap Visit marking_mode table value_slot s)
    s
  (L.SizeOf map table, s)

/-- The value slots of a table, in the order of `IterateEntries`. -/
def valueSlots (L : EphemeronHashTableLayout) (table : HeapObject) : List Slot :=
  (L.IterateEntries table).map fun i => L.RawFieldOfElementAt table (L.EntryToValueIndex i)

/-- The slot visits of `VisitEphemeronHashTable`: one per value slot, with `kPushToWorklist`. -/
def valueVisits (marking_mode : YoungGenerationMarkingVisitorMode)
    (L : EphemeronHashTableLayout) (table : HeapObject) : List SlotVisit :=
  (valueSlots L table).map fun slot =>
    { visitation_mode := ObjectVisitationMode.kPushToWorklist,
      slot_treatment_mode := rangeTreatment marking_mode, slot := slot }

/-- The object `x` is `o` or is reached from `o` through the fields a string shortcut follows:
the actual string of a thin string and the left child of a cons string. -/
inductive ThroughStrings (heap : Heap) (o : HeapObject) : HeapObject → Prop
  | self : ThroughStrings heap o o
  | actual {x : HeapObject} : ThroughStrings heap o x → ThroughStrings heap o (heap.actual x)
  | first {x : HeapObject} : ThroughStrings heap o x → ThroughStrings heap o (heap.first x)

/-- Every object a slot refers to in `t` is reached through string fields from the object the
same slot refers to in `s`. -/
def DerivedMemory (heap : Heap) (s t : VisitorState) : Prop :=
  ∀ vs y, (t.memory vs).GetHeapObject = some y →
    ∃ o, (s.memory vs).GetHeapObject = some o ∧ ThroughStrings heap o y

/-- Every object marked in `t` was marked in `s` or is reached through string fields from an
object that one of the slots `slots` refers to in `s`. -/
def DerivedMarks (heap : Heap) (slots : List Slot) (s t : VisitorState) : Prop :=
  ∀ y ∈ t.marked, y ∈ s.marked
    ∨ ∃ vs ∈ slots, ∃ o, (s.memory vs).GetHeapObject = some o ∧ ThroughStrings heap o y

/-- The state after `n` calls of `VisitEphemeronHashTable(map, table)` in a row. -/
def VisitEphemeronHashTableTimes (B : Build) (heap : Heap) (L : EphemeronHashTableLayout)
    (Visit : Map → HeapObject → VisitorState → Int × VisitorState)
    (marking_mode : YoungGenerationMarkingVisitorMode) (map : Map) (table : HeapObject) :
    Nat → VisitorState → VisitorState
  | 0, s => s
  | n + 1, s =>
    VisitEphemeronHashTableTimes B heap L Visit marking_mode map table n
      (VisitEphemeronHashTable B heap L Visit marking_mode map table s).2

/-- Modelled from the spec: the dispatch of `Parent::Visit` as far as ephemeron tables go. An
object whose map is a table map (`isTable`) is handed to `VisitEphemeronHashTable`, every other
object to the entry point `Other` of its category. -/
def DispatchVisit (B : Build) (heap : Heap) (L : EphemeronHashTableLayout)
    (marking_mode : YoungGenerationMarkingVisitorMode) (isTable : Map → Bool)
    (Other : Map → HeapObject → VisitorState → Int × VisitorState) :
    Map → HeapObject → VisitorState → Int × VisitorState :=
  fun map object s =>
    if isTable map then VisitEphemeronHashTable B heap L Other marking_mode map object s
    else Other map object s

/-- No table is registered twice in the local ephemeron list, and every registered table is
marked. -/
def EphemeronInvariant (s : VisitorState) : Prop :=
  s.ephemeron_table_list_local_.Nodup ∧ ∀ table ∈ s.ephemeron_table_list_local_, table ∈ s.marked

/-- A table layout for concrete evaluations: table `80` has the entries `0` and `1`, entry `i`
has its key in element `2 i` and its value in element `2 i + 1`, and element `k` of a table is
slot `k + 4`. So the value slots of `80` are `5` and `7`, and its key slots `4` and `6`. -/
def exampleLayout : EphemeronHashTableLayout :=
  { IterateEntries := fun table => if table = 80 then [0, 1] else []
    EntryToValueIndex := fun i => 2 * i + 1
    RawFieldOfElementAt := fun _ index => index + 4
    SizeOf := fun _ _ => 64 }

/-! ## Theorems: live-bytes cache -/

theorem bytesFor_nil (c : MemoryChunk) : bytesFor c [] = 0 := rfl

theorem bytesFor_cons (c : MemoryChunk) (e : Entry) (l : List Entry) :
    bytesFor c (e :: l) = (if e.1 = c then e.2 else 0) + bytesFor c l := by
  simp [bytesFor]

theorem bytesFor_append (c : MemoryChunk) (l₁ l₂ : List Entry) :
    bytesFor c (l₁ ++ l₂) = bytesFor c l₁ + bytesFor c l₂ := by
  simp [bytesFor]

theorem bytesFor_set (c : MemoryChunk) (l : List Entry) (i : Nat) (e : Entry)
    (hi : i < l.length) :
    bytesFor c (l.set i e) =
      bytesFor c l - (if (l.getD i (0, 0)).1 = c then (l.getD i (0, 0)).2 else 0)
        + (if e.1 = c then e.2 else 0) := by
  induction l generalizing i with
  | nil => simp at hi
  | cons a l ih =>
    cases i with
    | zero => simp [bytesFor_cons]; ring
    | succ i =>
      have hi2 : i < l.length := by simpa using hi
      simp only [List.set_cons_succ, bytesFor_cons, ih i hi2, List.getD_cons_succ]
      ring

theorem entryIndex_le (p : CacheParams) (chunk : MemoryChunk) :
    entryIndex p chunk ≤ p.kEntriesMask := Nat.and_le_right

theorem length_IncrementLiveBytesCached (p : CacheParams) (chunk : MemoryChunk) (by_ : Int)
    (lb : LiveBytes) :
    (IncrementLiveBytesCached p chunk by_ lb).live_bytes_data_.length
      = lb.live_bytes_data_.length := by
  unfold IncrementLiveBytesCached
  simp only []
  split <;> simp

theorem FlushLiveBytes_eq (lb : LiveBytes) :
    FlushLiveBytes lb =
      { live_bytes_data_ := lb.live_bytes_data_,
        flushed := lb.flushed ++ lb.live_bytes_data_.filter (fun pair => pair.1 ≠ 0) } := by
  unfold FlushLiveBytes
  have key : ∀ (l : List Entry) (s : LiveBytes),
      l.foldl (fun s pair =>
          if pair.1 ≠ 0 then { s with flushed := s.flushed ++ [(pair.1, pair.2)] } else s) s
        = { live_bytes_data_ := s.live_bytes_data_,
            flushed := s.flushed ++ l.filter (fun pair => pair.1 ≠ 0) } := by
    intro l
    induction l with
    | nil => intro s; simp
    | cons a l ih =>
      intro s
      rw [List.foldl_cons, ih]
      by_cases ha : a.1 = 0 <;> simp [ha]
  exact key _ lb

theorem NullZero_replicate (n : Nat) : NullZero (List.replicate n ((0, 0) : Entry)) := by
  intro e he _
  rw [List.eq_of_mem_replicate he]

theorem NullZero_getD {l : List Entry} (h : NullZero l) (i : Nat) :
    (l.getD i (0, 0)).1 = 0 → (l.getD i (0, 0)).2 = 0 := by
  intro h0
  by_cases hi : i < l.length
  · rw [List.getD_eq_getElem l (0, 0) hi] at h0 ⊢
    exact h _ (List.getElem_mem hi) h0
  · rw [List.getD_eq_default l (0, 0) (by omega)]

theorem NullZero_IncrementLiveBytesCached (p : CacheParams) (chunk : MemoryChunk) (by_ : Int)
    (lb : LiveBytes) (hchunk : chunk ≠ 0) (h : NullZero lb.live_bytes_data_) :
    NullZero (IncrementLiveBytesCached p chunk by_ lb).live_bytes_data_ := by
  unfold IncrementLiveBytesCached
  simp only []
  split
  all_goals
    intro e he h0
    rcases List.mem_or_eq_of_mem_set he with h1 | h1
    · exact h e h1 h0
    · subst h1; exact absurd h0 hchunk

theorem wrapIntptr_of_IsIntptr (x : Int) (h : IsIntptr x) : wrapIntptr x = x := by
  unfold IsIntptr at h
  unfold wrapIntptr
  omega

theorem IsIntptr_wrapIntptr (x : Int) : IsIntptr (wrapIntptr x) := by
  unfold wrapIntptr IsIntptr
  omega

theorem wrapIntptr_emod (x : Int) :
    wrapIntptr x % 18446744073709551616 = x % 18446744073709551616 := by
  unfold wrapIntptr
  omega

theorem getD_mem_of_lt (l : List Entry) (i : Nat) (hi : i < l.length) :
    l.getD i (0, 0) ∈ l := by
  rw [List.getD_eq_getElem l (0, 0) hi]
  exact List.getElem_mem hi

/-- One call changes the bytes of chunk `c` held in the flushed list and the array together by
`wrapIntptr (k + by) - k` when the call is for `c`, where `k` is the count the entry of `c` had
(`0` when `c` had no entry), and by nothing when the call is for another chunk. -/
theorem bytes_IncrementLiveBytesCached (p : CacheParams) (chunk : MemoryChunk) (by_ : Int)
    (lb : LiveBytes) (c : MemoryChunk) (hc : c ≠ 0)
    (hi : entryIndex p chunk < lb.live_bytes_data_.length)
    (h : NullZero lb.live_bytes_data_) :
    ∃ k : Int, (k = 0 ∨ (c, k) ∈ lb.live_bytes_data_)
      ∧ bytesFor c (IncrementLiveBytesCached p chunk by_ lb).flushed
          + bytesFor c (IncrementLiveBytesCached p chunk by_ lb).live_bytes_data_
        = bytesFor c lb.flushed + bytesFor c lb.live_bytes_data_
          + (if chunk = c then wrapIntptr (k + by_) - k else 0) := by
  have hz := NullZero_getD h (entryIndex p chunk)
  have hmem := getD_mem_of_lt lb.live_bytes_data_ (entryIndex p chunk) hi
  unfold IncrementLiveBytesCached
  simp only []
  split
  · rename_i hcase
    refine ⟨0, Or.inl rfl, ?_⟩
    simp only [bytesFor_append, bytesFor_cons, bytesFor_nil, bytesFor_set c _ _ _ hi, zero_add,
      add_zero, sub_zero]
    ring
  · rename_i hcase
    simp only [bytesFor_set c _ _ _ hi]
    by_cases h0 : (lb.live_bytes_data_.getD (entryIndex p chunk) (0, 0)).1 = 0
    · have hne : ¬ (0 : MemoryChunk) = c := fun h => hc h.symm
      refine ⟨0, Or.inl rfl, ?_⟩
      simp only [h0, hz h0, hne, if_false, zero_add, sub_zero]
      ring
    · have heq : (lb.live_bytes_data_.getD (entryIndex p chunk) (0, 0)).1 = chunk := by
        by_contra hne
        exact hcase ⟨h0, hne⟩
      by_cases hcc : chunk = c
      · refine ⟨(lb.live_bytes_data_.getD (entryIndex p chunk) (0, 0)).2, Or.inr ?_, ?_⟩
        · have hpair : ((c, (lb.live_bytes_data_.getD (entryIndex p chunk) (0, 0)).2) : Entry)
              = lb.live_bytes_data_.getD (entryIndex p chunk) (0, 0) :=
            Prod.ext (heq.trans hcc).symm rfl
          rw [hpair]
          exact hmem
        · rw [heq]
          simp only [hcc, if_true]
          ring
      · refine ⟨0, Or.inl rfl, ?_⟩
        rw [heq]
        simp only [hcc, if_false, sub_zero, add_zero]

theorem NonNegFor_IncrementLiveBytesCached (p : CacheParams) (chunk : MemoryChunk) (by_ : Int)
    (lb : LiveBytes) (c : MemoryChunk)
    (hi : entryIndex p chunk < lb.live_bytes_data_.length)
    (hz : NullZero lb.live_bytes_data_)
    (hd : NonNegFor c lb.live_bytes_data_) (hf : NonNegFor c lb.flushed)
    (hnew : chunk = c → ∀ k : Int, (k = 0 ∨ (c, k) ∈ lb.live_bytes_data_) →
      0 ≤ wrapIntptr (k + by_)) :
    NonNegFor c (IncrementLiveBytesCached p chunk by_ lb).live_bytes_data_
      ∧ NonNegFor c (IncrementLiveBytesCached p chunk by_ lb).flushed := by
  have hmem := getD_mem_of_lt lb.live_bytes_data_ (entryIndex p chunk) hi
  unfold IncrementLiveBytesCached
  simp only []
  split
  · rename_i hcase
    constructor
    · intro e he hec
      rcases List.mem_or_eq_of_mem_set he with h1 | h1
      · exact hd e h1 hec
      · subst h1
        exact hnew hec 0 (Or.inl rfl)
    · intro e he hec
      rcases List.mem_append.1 he with h1 | h1
      · exact hf e h1 hec
      · rw [List.mem_singleton.1 h1] at hec ⊢
        exact hd _ hmem hec
  · rename_i hcase
    refine ⟨?_, hf⟩
    intro e he hec
    rcases List.mem_or_eq_of_mem_set he with h1 | h1
    · exact hd e h1 hec
    · subst h1
      have hcc : chunk = c := hec
      by_cases h0 : (lb.live_bytes_data_.getD (entryIndex p chunk) (0, 0)).1 = chunk
      · refine hnew hcc _ (Or.inr ?_)
        have hpair : ((c, (lb.live_bytes_data_.getD (entryIndex p chunk) (0, 0)).2) : Entry)
            = lb.live_bytes_data_.getD (entryIndex p chunk) (0, 0) :=
          Prod.ext (h0.trans hcc).symm rfl
        rw [hpair]
        exact hmem
      · have hnull : (lb.live_bytes_data_.getD (entryIndex p chunk) (0, 0)).1 = 0 := by
          by_contra hne
          exact hcase ⟨hne, h0⟩
        show 0 ≤ wrapIntptr ((lb.live_bytes_data_.getD (entryIndex p chunk) (0, 0)).2 + by_)
        rw [NullZero_getD hz (entryIndex p chunk) hnull]
        exact hnew hcc 0 (Or.inl rfl)

theorem le_bytesFor_of_mem (c : MemoryChunk) (l : List Entry) (h : NonNegFor c l) :
    0 ≤ bytesFor c l ∧ ∀ k : Int, (c, k) ∈ l → k ≤ bytesFor c l := by
  induction l with
  | nil => exact ⟨le_refl _, fun k hk => by simp at hk⟩
  | cons a l ih =>
    obtain ⟨h0, hle⟩ := ih (fun e he => h e (List.mem_cons_of_mem _ he))
    have ha := h a (List.mem_cons_self _ _)
    rw [bytesFor_cons]
    constructor
    · by_cases hac : a.1 = c
      · simp only [hac, if_true]; have := ha hac; omega
      · simp only [hac, if_false]; omega
    · intro k hk
      rcases List.mem_cons.1 hk with h1 | h1
      · subst h1
        simp only [if_true]
        omega
      · have := hle k h1
        by_cases hac : a.1 = c
        · simp only [hac, if_true]; have := ha hac; omega
        · simp only [hac, if_false]; omega

theorem flushed_mono_IncrementLiveBytesCached (p : CacheParams) (chunk : MemoryChunk)
    (by_ : Int) (lb : LiveBytes) (c : MemoryChunk)
    (hi : entryIndex p chunk < lb.live_bytes_data_.length)
    (hd : NonNegFor c lb.live_bytes_data_) :
    bytesFor c lb.flushed ≤ bytesFor c (IncrementLiveBytesCached p chunk by_ lb).flushed := by
  have hmem := getD_mem_of_lt lb.live_bytes_data_ (entryIndex p chunk) hi
  unfold IncrementLiveBytesCached
  simp only []
  split
  · simp only [bytesFor_append, bytesFor_cons, bytesFor_nil, add_zero]
    by_cases hec : (lb.live_bytes_data_.getD (entryIndex p chunk) (0, 0)).1 = c
    · have := hd _ hmem hec
      simp only [hec, if_true]
      omega
    · simp only [hec, if_false]
      omega
  · exact le_refl _

/-- Over a sequence of calls, the bytes of chunk `c` in the flushed list and the array together
grow by the sum of the amounts for `c`, modulo `2^64`. -/
theorem bytes_IncrementAll_emod (p : CacheParams) (hmask : p.kEntriesMask < p.kNumEntries)
    (calls : List Entry) (hcalls : ∀ call ∈ calls, call.1 ≠ 0) (c : MemoryChunk) (hc : c ≠ 0)
    (lb : LiveBytes) (hlen : lb.live_bytes_data_.length = p.kNumEntries)
    (h : NullZero lb.live_bytes_data_) :
    (bytesFor c (IncrementAll p calls lb).flushed
          + bytesFor c (IncrementAll p calls lb).live_bytes_data_) % 18446744073709551616
      = (bytesFor c lb.flushed + bytesFor c lb.live_bytes_data_ + bytesFor c calls)
          % 18446744073709551616 := by
  induction calls generalizing lb with
  | nil => simp [IncrementAll, bytesFor_nil]
  | cons call calls ih =>
    have hcall : call.1 ≠ 0 := hcalls call (List.mem_cons_self _ _)
    have hrest : ∀ x ∈ calls, x.1 ≠ 0 := fun x hx => hcalls x (List.mem_cons_of_mem _ hx)
    have hi : entryIndex p call.1 < lb.live_bytes_data_.length := by
      have := entryIndex_le p call.1
      omega
    obtain ⟨k, _, hstep⟩ := bytes_IncrementLiveBytesCached p call.1 call.2 lb c hc hi h
    have hlen2 := length_IncrementLiveBytesCached p call.1 call.2 lb
    have hnz2 := NullZero_IncrementLiveBytesCached p call.1 call.2 lb hcall h
    have h3 := ih hrest (IncrementLiveBytesCached p call.1 call.2 lb) (by rw [hlen2, hlen]) hnz2
    have hfold : IncrementAll p (call :: calls) lb
        = IncrementAll p calls (IncrementLiveBytesCached p call.1 call.2 lb) := rfl
    rw [hfold, h3, hstep, bytesFor_cons]
    have hw := wrapIntptr_emod (k + call.2)
    by_cases hcc : call.1 = c
    · simp only [hcc, if_true]
      omega
    · simp only [hcc, if_false, add_zero, zero_add]

/-- Over a sequence of calls whose amounts for chunk `c` are non-negative and, together with
the bytes of `c` already in the array, stay below `2^63`, the bytes of `c` in the flushed list
and the array together grow by exactly the sum of the amounts for `c`. -/
theorem bytes_IncrementAll_exact (p : CacheParams) (hmask : p.kEntriesMask < p.kNumEntries)
    (calls : List Entry) (hcalls : ∀ call ∈ calls, call.1 ≠ 0) (c : MemoryChunk) (hc : c ≠ 0)
    (hpos : NonNegFor c calls)
    (lb : LiveBytes) (hlen : lb.live_bytes_data_.length = p.kNumEntries)
    (h : NullZero lb.live_bytes_data_)
    (hd : NonNegFor c lb.live_bytes_data_) (hf : NonNegFor c lb.flushed)
    (hbound : bytesFor c lb.live_bytes_data_ + bytesFor c calls < 9223372036854775808) :
    bytesFor c (IncrementAll p calls lb).flushed
        + bytesFor c (IncrementAll p calls lb).live_bytes_data_
      = bytesFor c lb.flushed + bytesFor c lb.live_bytes_data_ + bytesFor c calls := by
  induction calls generalizing lb with
  | nil => simp [IncrementAll, bytesFor_nil]
  | cons call calls ih =>
    have hcall : call.1 ≠ 0 := hcalls call (List.mem_cons_self _ _)
    have hrest : ∀ x ∈ calls, x.1 ≠ 0 := fun x hx => hcalls x (List.mem_cons_of_mem _ hx)
    have hposrest : NonNegFor c calls := fun x hx => hpos x (List.mem_cons_of_mem _ hx)
    have hposcall : call.1 = c → 0 ≤ call.2 := hpos call (List.mem_cons_self _ _)
    have hi : entryIndex p call.1 < lb.live_bytes_data_.length := by
      have := entryIndex_le p call.1
      omega
    obtain ⟨hrest0, _⟩ := le_bytesFor_of_mem c calls hposrest
    obtain ⟨hd0, hdle⟩ := le_bytesFor_of_mem c lb.live_bytes_data_ hd
    rw [bytesFor_cons] at hbound
    have hexact : call.1 = c → ∀ k : Int, (k = 0 ∨ (c, k) ∈ lb.live_bytes_data_) →
        0 ≤ k ∧ wrapIntptr (k + call.2) = k + call.2 := by
      intro hcc k hk
      have hb := hposcall hcc
      simp only [hcc, if_true] at hbound
      have hk0 : 0 ≤ k ∧ k ≤ bytesFor c lb.live_bytes_data_ := by
        rcases hk with hk | hk
        · subst hk; exact ⟨le_refl _, hd0⟩
        · exact ⟨hd (c, k) hk rfl, hdle k hk⟩
      refine ⟨hk0.1, wrapIntptr_of_IsIntptr _ ?_⟩
      unfold IsIntptr
      omega
    obtain ⟨k, hk, hstep⟩ := bytes_IncrementLiveBytesCached p call.1 call.2 lb c hc hi h
    have hmono := flushed_mono_IncrementLiveBytesCached p call.1 call.2 lb c hi hd
    have hlen2 := length_IncrementLiveBytesCached p call.1 call.2 lb
    have hnz2 := NullZero_IncrementLiveBytesCached p call.1 call.2 lb hcall h
    obtain ⟨hd2, hf2⟩ := NonNegFor_IncrementLiveBytesCached p call.1 call.2 lb c hi h hd hf
      (by
        intro hcc k hk
        obtain ⟨h1, h2⟩ := hexact hcc k hk
        rw [h2]
        have := hposcall hcc
        omega)
    have hstep2 : bytesFor c (IncrementLiveBytesCached p call.1 call.2 lb).flushed
          + bytesFor c (IncrementLiveBytesCached p call.1 call.2 lb).live_bytes_data_
        = bytesFor c lb.flushed + bytesFor c lb.live_bytes_data_
          + (if call.1 = c then call.2 else 0) := by
      rw [hstep]
      by_cases hcc : call.1 = c
      · simp only [hcc, if_true]
        rw [(hexact hcc k hk).2]
        ring
      · simp only [hcc, if_false]
    have h3 := ih hrest hposrest (IncrementLiveBytesCached p call.1 call.2 lb)
      (by rw [hlen2, hlen]) hnz2 hd2 hf2 (by omega)
    have hfold : IncrementAll p (call :: calls) lb
        = IncrementAll p calls (IncrementLiveBytesCached p call.1 call.2 lb) := rfl
    rw [hfold, h3, hstep2, bytesFor_cons]
    ring

theorem flushed_nonnull_IncrementLiveBytesCached (p : CacheParams) (chunk : MemoryChunk)
    (by_ : Int) (lb : LiveBytes) (h : ∀ e ∈ lb.flushed, e.1 ≠ 0) :
    ∀ e ∈ (IncrementLiveBytesCached p chunk by_ lb).flushed, e.1 ≠ 0 := by
  unfold IncrementLiveBytesCached
  simp only []
  split
  · rename_i hcase
    intro e he
    rcases List.mem_append.1 he with h1 | h1
    · exact h e h1
    · rw [List.mem_singleton.1 h1]; exact hcase.1
  · exact h

theorem flushed_nonnull_IncrementAll (p : CacheParams) (calls : List Entry) (lb : LiveBytes)
    (h : ∀ e ∈ lb.flushed, e.1 ≠ 0) :
    ∀ e ∈ (IncrementAll p calls lb).flushed, e.1 ≠ 0 := by
  induction calls generalizing lb with
  | nil => exact h
  | cons call calls ih =>
    exact ih _ (flushed_nonnull_IncrementLiveBytesCached p call.1 call.2 lb h)

theorem bytesFor_null_of_nonnull (l : List Entry) (h : ∀ e ∈ l, e.1 ≠ 0) : bytesFor 0 l = 0 := by
  induction l with
  | nil => rfl
  | cons a l ih =>
    rw [bytesFor_cons, ih (fun e he => h e (List.mem_cons_of_mem _ he))]
    simp [h a (List.mem_cons_self _ _)]

theorem bytesFor_filter_nonnull (c : MemoryChunk) (hc : c ≠ 0) (l : List Entry) :
    bytesFor c (l.filter (fun pair => pair.1 ≠ 0)) = bytesFor c l := by
  induction l with
  | nil => rfl
  | cons a l ih =>
    rw [List.filter_cons]
    by_cases ha : a.1 = 0
    · have hne : ¬ a.1 = c := fun h => hc (h.symm.trans ha)
      have hd : decide (a.1 ≠ 0) = false := by simp [ha]
      rw [hd]
      simp only [Bool.false_eq_true, if_false, bytesFor_cons, ih, hne, zero_add]
    · have hd : decide (a.1 ≠ 0) = true := by simp [ha]
      rw [hd]
      simp only [if_true, bytesFor_cons, ih]

theorem bytesFor_fresh (p : CacheParams) (c : MemoryChunk) :
    bytesFor c (LiveBytes.fresh p).live_bytes_data_ = 0 := by
  apply (show ∀ n : Nat, bytesFor c (List.replicate n ((0, 0) : Entry)) = 0 from ?_)
  intro n
  induction n with
  | zero => rfl
  | succ n ih => rw [List.replicate_succ, bytesFor_cons, ih]; simp

theorem NonNegFor_fresh (p : CacheParams) (c : MemoryChunk) :
    NonNegFor c (LiveBytes.fresh p).live_bytes_data_ := by
  intro e he _
  rw [List.eq_of_mem_replicate he]

/-- C1 (live-bytes conservation, as the code has it). Start from a freshly constructed visitor,
make any finite sequence of `IncrementLiveBytesCached(chunk_i, by_i)` calls with non-null chunks,
then run the destructor's flush loop. For every hash function and every chunk `c`, the bytes
passed to `IncrementLiveBytesAtomically` on `c`, over all eviction flushes and the teardown
flush, agree modulo `2^64` with the sum of the `by_i` of the calls with `chunk_i = c`; and they
are exactly that sum when the `by_i` for `c` are non-negative and their sum is below `2^63`. -/
theorem live_bytes_conservation (p : CacheParams) (hmask : p.kEntriesMask < p.kNumEntries)
    (calls : List Entry) (hcalls : ∀ call ∈ calls, call.1 ≠ 0) (c : MemoryChunk) :
    bytesFor c (FlushLiveBytes (IncrementAll p calls (LiveBytes.fresh p))).flushed
          % 18446744073709551616
        = bytesFor c calls % 18446744073709551616
      ∧ ((∀ call ∈ calls, call.1 = c → 0 ≤ call.2) →
          bytesFor c calls < 9223372036854775808 →
          bytesFor c (FlushLiveBytes (IncrementAll p calls (LiveBytes.fresh p))).flushed
            = bytesFor c calls) := by
  by_cases hc : c = 0
  · subst hc
    have hzero : bytesFor 0
        (FlushLiveBytes (IncrementAll p calls (LiveBytes.fresh p))).flushed = 0 := by
      apply bytesFor_null_of_nonnull
      rw [FlushLiveBytes_eq]
      intro e he
      rcases List.mem_append.1 he with h1 | h1
      · exact flushed_nonnull_IncrementAll p calls (LiveBytes.fresh p)
          (by simp [LiveBytes.fresh]) e h1
      · simpa using (List.mem_filter.1 h1).2
    rw [hzero, bytesFor_null_of_nonnull calls hcalls]
    exact ⟨rfl, fun _ _ => rfl⟩
  · have hflush : bytesFor c (FlushLiveBytes (IncrementAll p calls (LiveBytes.fresh p))).flushed
        = bytesFor c (IncrementAll p calls (LiveBytes.fresh p)).flushed
          + bytesFor c (IncrementAll p calls (LiveBytes.fresh p)).live_bytes_data_ := by
      rw [FlushLiveBytes_eq]
      simp only [bytesFor_append, bytesFor_filter_nonnull c hc]
    have hfl0 : bytesFor c (LiveBytes.fresh p).flushed = 0 := rfl
    have hlen : (LiveBytes.fresh p).live_bytes_data_.length = p.kNumEntries := by
      simp [LiveBytes.fresh]
    constructor
    · rw [hflush, bytes_IncrementAll_emod p hmask calls hcalls c hc (LiveBytes.fresh p) hlen
        (NullZero_replicate _), bytesFor_fresh, hfl0]
      simp only [zero_add]
    · intro hpos hbound
      rw [hflush, bytes_IncrementAll_exact p hmask calls hcalls c hc hpos (LiveBytes.fresh p) hlen
        (NullZero_replicate _) (NonNegFor_fresh p c) (fun e he _ => by simp [LiveBytes.fresh] at he)
        (by rw [bytesFor_fresh]; omega), bytesFor_fresh, hfl0]
      simp only [zero_add]

/-- Witness of `live_bytes_conservation`: four calls on a four-entry cache, two evictions; the
bytes flushed for chunk `1` are exactly `8 + 24`. -/
theorem live_bytes_conservation_witness :
    exampleParams.kEntriesMask < exampleParams.kNumEntries
      ∧ (∀ call ∈ exampleCalls, call.1 ≠ 0)
      ∧ bytesFor 1 (FlushLiveBytes
            (IncrementAll exampleParams exampleCalls (LiveBytes.fresh exampleParams))).flushed
          = bytesFor 1 exampleCalls :=
  ⟨by decide, by decide,
    (live_bytes_conservation exampleParams (by decide) exampleCalls (by decide) 1).2
      (by decide) (by decide)⟩

/-- C1 as stated fails on the code: after the calls `(1, INTPTR_MAX)` and `(1, 1)` on a fresh
visitor, the bytes flushed for chunk `1` are `-2^63`, and the sum of the amounts is `2^63`. -/
theorem live_bytes_overflow_counterexample :
    (∀ call ∈ overflowCalls, call.1 ≠ 0 ∧ IsIntptr call.2)
      ∧ bytesFor 1 (FlushLiveBytes
            (IncrementAll exampleParams overflowCalls (LiveBytes.fresh exampleParams))).flushed
          = -9223372036854775808
      ∧ bytesFor 1 overflowCalls = 9223372036854775808
      ∧ bytesFor 1 (FlushLiveBytes
            (IncrementAll exampleParams overflowCalls (LiveBytes.fresh exampleParams))).flushed
          ≠ bytesFor 1 overflowCalls := by
  refine ⟨?_, by decide, by decide, by decide⟩
  unfold IsIntptr
  decide

theorem Reachable_length (p : CacheParams) (lb : LiveBytes) (h : Reachable p lb) :
    lb.live_bytes_data_.length = p.kNumEntries := by
  induction h with
  | fresh => simp [LiveBytes.fresh]
  | step chunk by_ _ _ ih => rw [length_IncrementLiveBytesCached, ih]

theorem Reachable_NullZero (p : CacheParams) (lb : LiveBytes) (h : Reachable p lb) :
    NullZero lb.live_bytes_data_ := by
  induction h with
  | fresh => exact NullZero_replicate _
  | step chunk by_ _ hc ih => exact NullZero_IncrementLiveBytesCached p chunk by_ _ hc ih

theorem IsIntptr_IncrementLiveBytesCached (p : CacheParams) (chunk : MemoryChunk) (by_ : Int)
    (lb : LiveBytes) (h : ∀ e ∈ lb.live_bytes_data_, IsIntptr e.2) :
    ∀ e ∈ (IncrementLiveBytesCached p chunk by_ lb).live_bytes_data_, IsIntptr e.2 := by
  unfold IncrementLiveBytesCached
  simp only []
  split
  all_goals
    intro e he
    rcases List.mem_or_eq_of_mem_set he with h1 | h1
    · exact h e h1
    · subst h1; exact IsIntptr_wrapIntptr _

theorem Reachable_IsIntptr (p : CacheParams) (lb : LiveBytes) (h : Reachable p lb) :
    ∀ e ∈ lb.live_bytes_data_, IsIntptr e.2 := by
  induction h with
  | fresh =>
    intro e he
    rw [List.eq_of_mem_replicate he]
    unfold IsIntptr
    decide
  | step chunk by_ _ _ ih => exact IsIntptr_IncrementLiveBytesCached p chunk by_ _ ih

/-- C2 (cache insert cases, as the code has them). In a cache state reachable from the empty
cache, `IncrementLiveBytesCached(chunk, by)` (with a non-null chunk, or any chunk) acts on the
entry at index `hash(chunk) & kEntriesMask`: holding another non-null chunk `d` with count `n`,
it flushes `(d, n)` once and leaves `(chunk, by)`; holding `chunk` with count `n`, it flushes
nothing and leaves `(chunk, n + by)`; empty, it flushes nothing and leaves `(chunk, by)`. The
count left is the 64-bit value `wrapIntptr` of the stated one, and is the stated one itself
whenever that is representable as `intptr_t`. Counts held by the cache are representable, all
other entries and the size of the array are unchanged. -/
theorem cache_insert_cases (p : CacheParams) (hmask : p.kEntriesMask < p.kNumEntries)
    (lb : LiveBytes) (hreach : Reachable p lb) (chunk : MemoryChunk) (by_ : Int) :
    (∀ d n, lb.live_bytes_data_[entryIndex p chunk]? = some (d, n) → d ≠ 0 → d ≠ chunk →
        (IncrementLiveBytesCached p chunk by_ lb).flushed = lb.flushed ++ [(d, n)]
          ∧ (IncrementLiveBytesCached p chunk by_ lb).live_bytes_data_[entryIndex p chunk]?
              = some (chunk, wrapIntptr by_)
          ∧ (IsIntptr by_ →
              (IncrementLiveBytesCached p chunk by_ lb).live_bytes_data_[entryIndex p chunk]?
                = some (chunk, by_)))
      ∧ (∀ n, lb.live_bytes_data_[entryIndex p chunk]? = some (chunk, n) →
          (IncrementLiveBytesCached p chunk by_ lb).flushed = lb.flushed
            ∧ (IncrementLiveBytesCached p chunk by_ lb).live_bytes_data_[entryIndex p chunk]?
                = some (chunk, wrapIntptr (n + by_))
            ∧ (IsIntptr (n + by_) →
                (IncrementLiveBytesCached p chunk by_ lb).live_bytes_data_[entryIndex p chunk]?
                  = some (chunk, n + by_)))
      ∧ (∀ n, lb.live_bytes_data_[entryIndex p chunk]? = some (0, n) →
          (IncrementLiveBytesCached p chunk by_ lb).flushed = lb.flushed
            ∧ (IncrementLiveBytesCached p chunk by_ lb).live_bytes_data_[entryIndex p chunk]?
                = some (chunk, wrapIntptr by_)
            ∧ (IsIntptr by_ →
                (IncrementLiveBytesCached p chunk by_ lb).live_bytes_data_[entryIndex p chunk]?
                  = some (chunk, by_)))
      ∧ (∀ (j : Nat) (d : MemoryChunk) (n : Int),
          lb.live_bytes_data_[j]? = some (d, n) → IsIntptr n)
      ∧ (∀ j, j ≠ entryIndex p chunk →
          (IncrementLiveBytesCached p chunk by_ lb).live_bytes_data_[j]?
            = lb.live_bytes_data_[j]?)
      ∧ (IncrementLiveBytesCached p chunk by_ lb).live_bytes_data_.length
          = lb.live_bytes_data_.length
      ∧ entryIndex p chunk < lb.live_bytes_data_.length := by
  have hlen := Reachable_length p lb hreach
  have hnz := Reachable_NullZero p lb hreach
  have hi : entryIndex p chunk < lb.live_bytes_data_.length := by
    have := entryIndex_le p chunk
    omega
  have hget : ∀ e, lb.live_bytes_data_[entryIndex p chunk]? = some e →
      lb.live_bytes_data_.getD (entryIndex p chunk) (0, 0) = e := by
    intro e he
    simp [List.getD_eq_getElem?_getD, he]
  have hevict : ∀ d n, lb.live_bytes_data_[entryIndex p chunk]? = some (d, n) → d ≠ 0 →
      d ≠ chunk →
      (IncrementLiveBytesCached p chunk by_ lb).flushed = lb.flushed ++ [(d, n)]
        ∧ (IncrementLiveBytesCached p chunk by_ lb).live_bytes_data_[entryIndex p chunk]?
            = some (chunk, wrapIntptr by_) := by
    intro d n he hd hdc
    unfold IncrementLiveBytesCached
    simp only [hget _ he]
    rw [if_pos ⟨hd, hdc⟩]
    simp [List.getElem?_set_self hi]
  have hsame : ∀ n, lb.live_bytes_data_[entryIndex p chunk]? = some (chunk, n) →
      (IncrementLiveBytesCached p chunk by_ lb).flushed = lb.flushed
        ∧ (IncrementLiveBytesCached p chunk by_ lb).live_bytes_data_[entryIndex p chunk]?
            = some (chunk, wrapIntptr (n + by_)) := by
    intro n he
    unfold IncrementLiveBytesCached
    simp only [hget _ he]
    rw [if_neg (fun h => h.2 rfl)]
    simp [List.getElem?_set_self hi]
  have hempty : ∀ n, lb.live_bytes_data_[entryIndex p chunk]? = some (0, n) →
      (IncrementLiveBytesCached p chunk by_ lb).flushed = lb.flushed
        ∧ (IncrementLiveBytesCached p chunk by_ lb).live_bytes_data_[entryIndex p chunk]?
            = some (chunk, wrapIntptr by_) := by
    intro n he
    have hn : n = 0 := by
      have := NullZero_getD hnz (entryIndex p chunk)
      rw [hget _ he] at this
      exact this rfl
    unfold IncrementLiveBytesCached
    simp only [hget _ he]
    rw [if_neg (fun h => h.1 rfl)]
    simp [List.getElem?_set_self hi, hn]
  refine ⟨?_, ?_, ?_, ?_, ?_, length_IncrementLiveBytesCached p chunk by_ lb, hi⟩
  · intro d n he hd hdc
    obtain ⟨h1, h2⟩ := hevict d n he hd hdc
    refine ⟨h1, h2, fun hrep => ?_⟩
    rw [h2, wrapIntptr_of_IsIntptr by_ hrep]
  · intro n he
    obtain ⟨h1, h2⟩ := hsame n he
    refine ⟨h1, h2, fun hrep => ?_⟩
    rw [h2, wrapIntptr_of_IsIntptr (n + by_) hrep]
  · intro n he
    obtain ⟨h1, h2⟩ := hempty n he
    refine ⟨h1, h2, fun hrep => ?_⟩
    rw [h2, wrapIntptr_of_IsIntptr by_ hrep]
  · intro j d n he
    obtain ⟨hj, hje⟩ := List.getElem?_eq_some.1 he
    have hmem : lb.live_bytes_data_[j] ∈ lb.live_bytes_data_ := List.getElem_mem hj
    rw [hje] at hmem
    exact Reachable_IsIntptr p lb hreach (d, n) hmem
  · intro j hj
    unfold IncrementLiveBytesCached
    simp only []
    split <;> simp [List.getElem?_set, Ne.symm hj]

/-- Witness of `cache_insert_cases`: chunk `5` arrives at a cache whose entry `1` holds
chunk `1` and evicts it; chunk `1` arrives again at that cache and its count becomes `8 + 24`. -/
theorem cache_insert_cases_witness :
    (IncrementLiveBytesCached exampleParams 5 16
        (IncrementLiveBytesCached exampleParams 1 8 (LiveBytes.fresh exampleParams))).flushed
        = [(1, 8)]
      ∧ (IncrementLiveBytesCached exampleParams 1 24
          (IncrementLiveBytesCached exampleParams 1 8
            (LiveBytes.fresh exampleParams))).live_bytes_data_[entryIndex exampleParams 1]?
          = some (1, 8 + 24) :=
  ⟨((cache_insert_cases exampleParams (by decide)
      (IncrementLiveBytesCached exampleParams 1 8 (LiveBytes.fresh exampleParams))
      (Reachable.step 1 8 Reachable.fresh (by decide)) 5 16).1 1 8
      (by decide) (by decide) (by decide)).1,
    ((cache_insert_cases exampleParams (by decide)
      (IncrementLiveBytesCached exampleParams 1 8 (LiveBytes.fresh exampleParams))
      (Reachable.step 1 8 Reachable.fresh (by decide)) 1 24).2.1 8 (by decide)).2.2
      (by unfold IsIntptr; decide)⟩

/-- C2 as stated fails on the code: the state after the call `(1, INTPTR_MAX)` on a fresh
cache is reachable and holds `(1, INTPTR_MAX)` in entry `1`; the call `(1, 1)` then leaves
`(1, -2^63)` there, not `(1, INTPTR_MAX + 1)`. -/
theorem cache_insert_overflow_counterexample :
    Reachable exampleParams
        (IncrementLiveBytesCached exampleParams 1 9223372036854775807
          (LiveBytes.fresh exampleParams))
      ∧ (IncrementLiveBytesCached exampleParams 1 9223372036854775807
          (LiveBytes.fresh exampleParams)).live_bytes_data_[entryIndex exampleParams 1]?
            = some (1, 9223372036854775807)
      ∧ (IncrementLiveBytesCached exampleParams 1 1
          (IncrementLiveBytesCached exampleParams 1 9223372036854775807
            (LiveBytes.fresh exampleParams))).live_bytes_data_[entryIndex exampleParams 1]?
            = some (1, -9223372036854775808)
      ∧ (IncrementLiveBytesCached exampleParams 1 1
          (IncrementLiveBytesCached exampleParams 1 9223372036854775807
            (LiveBytes.fresh exampleParams))).live_bytes_data_[entryIndex exampleParams 1]?
            ≠ some (1, 9223372036854775807 + 1) :=
  ⟨Reachable.step 1 9223372036854775807 Reachable.fresh (by decide), by decide, by decide,
    by decide⟩

/-! ## Theorems: slot visit -/

@[simp] theorem record_memory (e : Event) (s : VisitorState) :
    (s.record e).memory = s.memory := rfl

@[simp] theorem record_marked (e : Event) (s : VisitorState) :
    (s.record e).marked = s.marked := rfl

@[simp] theorem record_worklist (e : Event) (s : VisitorState) :
    (s.record e).worklist = s.worklist := rfl

@[simp] theorem record_live_bytes (e : Event) (s : VisitorState) :
    (s.record e).live_bytes = s.live_bytes := rfl

@[simp] theorem record_shortcut_strings_ (e : Event) (s : VisitorState) :
    (s.record e).shortcut_strings_ = s.shortcut_strings_ := rfl

@[simp] theorem record_ephemeron (e : Event) (s : VisitorState) :
    (s.record e).ephemeron_table_list_local_ = s.ephemeron_table_list_local_ := rfl

@[simp] theorem record_trace (e : Event) (s : VisitorState) :
    (s.record e).trace = s.trace ++ [e] := rfl

/-- What `ShortCutStrings` returns and which object it continues with depend on the state only
through `shortcut_strings_`. -/
theorem ShortCutStrings_congr (B : Build) (heap : Heap) (slot : Slot) (o : HeapObject)
    (s t : VisitorState) (h : s.shortcut_strings_ = t.shortcut_strings_) :
    (ShortCutStrings B heap slot o s).1 = (ShortCutStrings B heap slot o t).1
      ∧ (ShortCutStrings B heap slot o s).2.1 = (ShortCutStrings B heap slot o t).2.1 := by
  simp only [ShortCutStrings, h]
  repeat' split
  all_goals simp

/-- The state after `ShortCutStrings`: marks, worklist and live bytes are as before, and the
trace grew by slot stores only. -/
theorem ShortCutStrings_state (B : Build) (heap : Heap) (slot : Slot) (o : HeapObject)
    (s : VisitorState) :
    (ShortCutStrings B heap slot o s).2.2.marked = s.marked
      ∧ (ShortCutStrings B heap slot o s).2.2.worklist = s.worklist
      ∧ (ShortCutStrings B heap slot o s).2.2.live_bytes = s.live_bytes
      ∧ (ShortCutStrings B heap slot o s).2.2.shortcut_strings_ = s.shortcut_strings_
      ∧ (ShortCutStrings B heap slot o s).2.2.ephemeron_table_list_local_
          = s.ephemeron_table_list_local_
      ∧ ∃ evs, (ShortCutStrings B heap slot o s).2.2.trace = s.trace ++ evs
          ∧ ∀ e ∈ evs, e.touchesMarking = false := by
  simp only [ShortCutStrings]
  repeat' split
  all_goals
    first
    | exact ⟨rfl, rfl, rfl, rfl, rfl, [Event.StoreHeapObject slot _], rfl,
        fun e he => by rw [List.mem_singleton.1 he]; rfl⟩
    | exact ⟨rfl, rfl, rfl, rfl, rfl, [], (List.append_nil _).symm,
        fun e he => absurd he (List.not_mem_nil e)⟩

/-- When the object `ShortCutStrings` continues with is old although the object it was given is
young, it returns false. -/
theorem ShortCutStrings_false_of_old (B : Build) (heap : Heap) (slot : Slot) (o : HeapObject)
    (s : VisitorState) (hyoung : heap.InYoungGeneration o = true)
    (hold : heap.InYoungGeneration (ShortCutStrings B heap slot o s).2.1 = false) :
    (ShortCutStrings B heap slot o s).1 = false := by
  simp only [ShortCutStrings] at hold ⊢
  repeat' split
  all_goals simp_all

/-- C3 (absent reference). When the value loaded from the slot is no heap object reference (a
cleared weak reference or a small integer), `VisitObjectViaSlot` returns false and leaves the
whole state as it was, in every marking, visitation and slot treatment mode and for every
`Parent::Visit`: no `TryMark`, no push, no cache change, no store, no inline visit. -/
theorem absent_reference_no_effect (B : Build) (heap : Heap)
    (Visit : Map → HeapObject → VisitorState → Int × VisitorState)
    (marking_mode : YoungGenerationMarkingVisitorMode) (visitation_mode : ObjectVisitationMode)
    (slot_treatment_mode : SlotTreatmentMode) (slot : Slot) (s : VisitorState)
    (h : (s.memory slot).GetHeapObject = none) :
    VisitObjectViaSlot B heap Visit marking_mode visitation_mode slot_treatment_mode slot s
      = (false, s) := by
  simp [VisitObjectViaSlot, ResolveReferent, h]

/-- Witness of `absent_reference_no_effect`: slot `6` holds a cleared weak reference. -/
theorem absent_reference_no_effect_witness :
    VisitObjectViaSlot exampleBuild exampleHeap exampleVisit
        YoungGenerationMarkingVisitorMode.kParallel ObjectVisitationMode.kVisitDirectly
        SlotTreatmentMode.kReadWrite 6 exampleState
      = (false, exampleState) :=
  absent_reference_no_effect exampleBuild exampleHeap exampleVisit
    YoungGenerationMarkingVisitorMode.kParallel ObjectVisitationMode.kVisitDirectly
    SlotTreatmentMode.kReadWrite 6 exampleState (by decide)

/-- The state after the first part of the visit: marks, worklist and live bytes are as before,
and the trace grew by loads and slot stores only. -/
theorem ResolveReferent_state (B : Build) (heap : Heap)
    (marking_mode : YoungGenerationMarkingVisitorMode) (slot_treatment_mode : SlotTreatmentMode)
    (slot : Slot) (s : VisitorState) :
    (ResolveReferent B heap marking_mode slot_treatment_mode slot s).2.marked = s.marked
      ∧ (ResolveReferent B heap marking_mode slot_treatment_mode slot s).2.worklist = s.worklist
      ∧ (ResolveReferent B heap marking_mode slot_treatment_mode slot s).2.live_bytes
          = s.live_bytes
      ∧ (ResolveReferent B heap marking_mode slot_treatment_mode slot s).2.shortcut_strings_
          = s.shortcut_strings_
      ∧ (ResolveReferent B heap marking_mode slot_treatment_mode slot s).2.ephemeron_table_list_local_
          = s.ephemeron_table_list_local_
      ∧ ∃ evs, (ResolveReferent B heap marking_mode slot_treatment_mode slot s).2.trace
            = s.trace ++ evs
          ∧ ∀ e ∈ evs, e.touchesMarking = false := by
  unfold ResolveReferent
  simp only []
  cases hget : (s.memory slot).GetHeapObject with
  | none => exact ⟨rfl, rfl, rfl, rfl, rfl, [], (List.append_nil _).symm,
      fun e he => absurd he (List.not_mem_nil e)⟩
  | some o =>
    simp only []
    -- the state after the optional synchronising load
    have hs1 : ∀ s1 : VisitorState,
        s1 = (if (B.THREAD_SANITIZER && B.EnableConcurrentVisitation marking_mode) = true then
                s.record (Event.SynchronizedHeapLoad (heap.FromHeapObject o)) else s) →
        s1.marked = s.marked ∧ s1.worklist = s.worklist ∧ s1.live_bytes = s.live_bytes
          ∧ s1.shortcut_strings_ = s.shortcut_strings_
          ∧ s1.ephemeron_table_list_local_ = s.ephemeron_table_list_local_
          ∧ ∃ evs, s1.trace = s.trace ++ evs ∧ ∀ e ∈ evs, e.touchesMarking = false := by
      intro s1 h1
      subst h1
      split
      · exact ⟨rfl, rfl, rfl, rfl, rfl, [Event.SynchronizedHeapLoad _], rfl,
          fun e he => by rw [List.mem_singleton.1 he]; rfl⟩
      · exact ⟨rfl, rfl, rfl, rfl, rfl, [], (List.append_nil _).symm,
          fun e he => absurd he (List.not_mem_nil e)⟩
    generalize hs1def : (if (B.THREAD_SANITIZER && B.EnableConcurrentVisitation marking_mode) = true
        then s.record (Event.SynchronizedHeapLoad (heap.FromHeapObject o)) else s) = s1
    obtain ⟨a1, a2, a3, a4, a5, evs, a6, a7⟩ := hs1 s1 hs1def.symm
    have hsc := ShortCutStrings_state B heap slot o s1
    obtain ⟨b1, b2, b3, b4, b5, evs2, b6, b7⟩ := hsc
    have hboth : ∀ t : VisitorState, t = s1 ∨ t = (ShortCutStrings B heap slot o s1).2.2 →
        t.marked = s.marked ∧ t.worklist = s.worklist ∧ t.live_bytes = s.live_bytes
          ∧ t.shortcut_strings_ = s.shortcut_strings_
          ∧ t.ephemeron_table_list_local_ = s.ephemeron_table_list_local_
          ∧ ∃ evs, t.trace = s.trace ++ evs ∧ ∀ e ∈ evs, e.touchesMarking = false := by
      intro t ht
      rcases ht with rfl | rfl
      · exact ⟨a1, a2, a3, a4, a5, evs, a6, a7⟩
      · refine ⟨b1.trans a1, b2.trans a2, b3.trans a3, b4.trans a4, b5.trans a5, evs ++ evs2, ?_, ?_⟩
        · rw [b6, a6, List.append_assoc]
        · intro e he
          rcases List.mem_append.1 he with h | h
          · exact a7 e h
          · exact b7 e h
    split
    · exact hboth _ (Or.inl rfl)
    · split
      · split
        · rename_i heq
          have : (ShortCutStrings B heap slot o s1).2.2 = _ := congrArg (fun x => x.2.2) heq
          exact hboth _ (Or.inr this.symm)
        · rename_i heq
          have : (ShortCutStrings B heap slot o s1).2.2 = _ := congrArg (fun x => x.2.2) heq
          exact hboth _ (Or.inr this.symm)
      · exact hboth _ (Or.inl rfl)

theorem ResolveReferent_untouched (B : Build) (heap : Heap)
    (marking_mode : YoungGenerationMarkingVisitorMode) (slot_treatment_mode : SlotTreatmentMode)
    (slot : Slot) (s : VisitorState) :
    MarkingUntouched s (ResolveReferent B heap marking_mode slot_treatment_mode slot s).2 := by
  obtain ⟨h1, h2, h3, _, _, h6⟩ :=
    ResolveReferent_state B heap marking_mode slot_treatment_mode slot s
  exact ⟨h1, h2, h3, h6⟩

theorem VisitObjectViaSlot_of_none (B : Build) (heap : Heap)
    (Visit : Map → HeapObject → VisitorState → Int × VisitorState)
    (marking_mode : YoungGenerationMarkingVisitorMode) (visitation_mode : ObjectVisitationMode)
    (slot_treatment_mode : SlotTreatmentMode) (slot : Slot) (s : VisitorState)
    (h : (ResolveReferent B heap marking_mode slot_treatment_mode slot s).1 = none) :
    VisitObjectViaSlot B heap Visit marking_mode visitation_mode slot_treatment_mode slot s
      = (false, (ResolveReferent B heap marking_mode slot_treatment_mode slot s).2) := by
  unfold VisitObjectViaSlot
  rcases hr : ResolveReferent B heap marking_mode slot_treatment_mode slot s with ⟨r, s1⟩
  rw [hr] at h
  simp only at h
  subst h
  rfl

theorem VisitObjectViaSlot_of_some (B : Build) (heap : Heap)
    (Visit : Map → HeapObject → VisitorState → Int × VisitorState)
    (marking_mode : YoungGenerationMarkingVisitorMode) (visitation_mode : ObjectVisitationMode)
    (slot_treatment_mode : SlotTreatmentMode) (slot : Slot) (s : VisitorState)
    (heap_object : HeapObject)
    (h : (ResolveReferent B heap marking_mode slot_treatment_mode slot s).1 = some heap_object) :
    VisitObjectViaSlot B heap Visit marking_mode visitation_mode slot_treatment_mode slot s
      = ClaimAndDispatch B heap Visit marking_mode visitation_mode heap_object
          (ResolveReferent B heap marking_mode slot_treatment_mode slot s).2 := by
  unfold VisitObjectViaSlot
  rcases hr : ResolveReferent B heap marking_mode slot_treatment_mode slot s with ⟨r, s1⟩
  rw [hr] at h
  simp only at h
  subst h
  rfl

/-- On an old-generation referent the first part of the visit gives up without a store. -/
theorem ResolveReferent_old (B : Build) (heap : Heap)
    (marking_mode : YoungGenerationMarkingVisitorMode) (slot_treatment_mode : SlotTreatmentMode)
    (slot : Slot) (s : VisitorState) (o : HeapObject)
    (h : (s.memory slot).GetHeapObject = some o) (hold : heap.InYoungGeneration o = false) :
    (ResolveReferent B heap marking_mode slot_treatment_mode slot s).1 = none
      ∧ (ResolveReferent B heap marking_mode slot_treatment_mode slot s).2.memory = s.memory := by
  unfold ResolveReferent
  simp only [h, hold, Bool.not_false, if_true]
  refine ⟨trivial, ?_⟩
  split <;> rfl

/-- On a young referent that `ShortCutStrings` replaces by an old object the first part of the
visit gives up. -/
theorem ResolveReferent_shortcut_old (B : Build) (heap : Heap)
    (marking_mode : YoungGenerationMarkingVisitorMode) (slot : Slot) (s : VisitorState)
    (o : HeapObject) (h : (s.memory slot).GetHeapObject = some o)
    (hyoung : heap.InYoungGeneration o = true)
    (hB : B.V8_MINORMS_STRING_SHORTCUTTING = true)
    (hold : heap.InYoungGeneration (ShortCutStrings B heap slot o s).2.1 = false) :
    (ResolveReferent B heap marking_mode SlotTreatmentMode.kReadWrite slot s).1 = none := by
  unfold ResolveReferent
  simp only [h, hyoung, hB]
  generalize hs1 : (if (B.THREAD_SANITIZER && B.EnableConcurrentVisitation marking_mode) = true
      then s.record (Event.SynchronizedHeapLoad (heap.FromHeapObject o)) else s) = s1
  have hsh : s1.shortcut_strings_ = s.shortcut_strings_ := by
    rw [← hs1]; split <;> rfl
  have hc := ShortCutStrings_congr B heap slot o s1 s hsh
  have hf : (ShortCutStrings B heap slot o s1).1 = false := by
    apply ShortCutStrings_false_of_old B heap slot o s1 hyoung
    rw [hc.2]; exact hold
  rcases hsc : ShortCutStrings B heap slot o s1 with ⟨b, o', s2⟩
  rw [hsc] at hf
  simp only at hf
  subst hf
  simp

/-- C4 (old-generation referent). When the slot refers to a heap object outside the young
generation, `VisitObjectViaSlot` returns false, stores nothing, and claims, queues and counts
nothing (marks, worklist and live-bytes cache unchanged, no `TryMark` call), in every mode.
Likewise when `ShortCutStrings` replaces a young referent by an old-generation object: nothing
is marked, pushed or counted. -/
theorem old_generation_referent_untouched (B : Build) (heap : Heap)
    (Visit : Map → HeapObject → VisitorState → Int × VisitorState)
    (marking_mode : YoungGenerationMarkingVisitorMode) (visitation_mode : ObjectVisitationMode)
    (slot_treatment_mode : SlotTreatmentMode) (slot : Slot) (s : VisitorState) (o : HeapObject)
    (h : (s.memory slot).GetHeapObject = some o) :
    (heap.InYoungGeneration o = false →
        (VisitObjectViaSlot B heap Visit marking_mode visitation_mode slot_treatment_mode
            slot s).1 = false
          ∧ (VisitObjectViaSlot B heap Visit marking_mode visitation_mode slot_treatment_mode
              slot s).2.memory = s.memory
          ∧ MarkingUntouched s (VisitObjectViaSlot B heap Visit marking_mode visitation_mode
              slot_treatment_mode slot s).2)
      ∧ (heap.InYoungGeneration o = true → B.V8_MINORMS_STRING_SHORTCUTTING = true →
          slot_treatment_mode = SlotTreatmentMode.kReadWrite →
          heap.InYoungGeneration (ShortCutStrings B heap slot o s).2.1 = false →
          (VisitObjectViaSlot B heap Visit marking_mode visitation_mode slot_treatment_mode
              slot s).1 = false
            ∧ MarkingUntouched s (VisitObjectViaSlot B heap Visit marking_mode visitation_mode
                slot_treatment_mode slot s).2) := by
  constructor
  · intro hold
    obtain ⟨h1, h2⟩ := ResolveReferent_old B heap marking_mode slot_treatment_mode slot s o h hold
    rw [VisitObjectViaSlot_of_none B heap Visit marking_mode visitation_mode slot_treatment_mode
      slot s h1]
    exact ⟨rfl, h2, ResolveReferent_untouched B heap marking_mode slot_treatment_mode slot s⟩
  · intro hyoung hB htm hold
    subst htm
    have h1 := ResolveReferent_shortcut_old B heap marking_mode slot s o h hyoung hB hold
    rw [VisitObjectViaSlot_of_none B heap Visit marking_mode visitation_mode
      SlotTreatmentMode.kReadWrite slot s h1]
    exact ⟨rfl, ResolveReferent_untouched B heap marking_mode SlotTreatmentMode.kReadWrite slot s⟩

/-- Witness of `old_generation_referent_untouched`: slot `2` holds the old object `20`, and
slot `3` holds the young thin string `30`, which the shortcut replaces by the old object `40`. -/
theorem old_generation_referent_untouched_witness :
    (VisitObjectViaSlot exampleBuild exampleHeap exampleVisit
        YoungGenerationMarkingVisitorMode.kParallel ObjectVisitationMode.kVisitDirectly
        SlotTreatmentMode.kReadWrite 2 exampleState).1 = false
      ∧ MarkingUntouched exampleState
          (VisitObjectViaSlot exampleBuild exampleHeap exampleVisit
            YoungGenerationMarkingVisitorMode.kParallel ObjectVisitationMode.kVisitDirectly
            SlotTreatmentMode.kReadWrite 3 exampleState).2 :=
  ⟨((old_generation_referent_untouched exampleBuild exampleHeap exampleVisit
        YoungGenerationMarkingVisitorMode.kParallel ObjectVisitationMode.kVisitDirectly
        SlotTreatmentMode.kReadWrite 2 exampleState 20 (by decide)).1 (by decide)).1,
    ((old_generation_referent_untouched exampleBuild exampleHeap exampleVisit
        YoungGenerationMarkingVisitorMode.kParallel ObjectVisitationMode.kVisitDirectly
        SlotTreatmentMode.kReadWrite 3 exampleState 30 (by decide)).2 (by decide) (by decide) rfl
        (by decide)).2⟩

theorem ClaimAndDispatch_marked (B : Build) (heap : Heap)
    (Visit : Map → HeapObject → VisitorState → Int × VisitorState)
    (marking_mode : YoungGenerationMarkingVisitorMode) (visitation_mode : ObjectVisitationMode)
    (o : HeapObject) (s : VisitorState) (hm : o ∈ s.marked) :
    ClaimAndDispatch B heap Visit marking_mode visitation_mode o s
      = (true, s.record (Event.TryMark o)) := by
  simp [ClaimAndDispatch, TryMark, hm]

/-- The second part of the visit on an object that is not marked yet, branch by branch. -/
theorem ClaimAndDispatch_unmarked (B : Build) (heap : Heap)
    (Visit : Map → HeapObject → VisitorState → Int × VisitorState)
    (marking_mode : YoungGenerationMarkingVisitorMode) (visitation_mode : ObjectVisitationMode)
    (o : HeapObject) (s : VisitorState) (hm : o ∉ s.marked) :
    ClaimAndDispatch B heap Visit marking_mode visitation_mode o s
      = if B.EnableConcurrentVisitation marking_mode then
          (true, Push o (Claimed o s))
        else if B.ObjectFieldsFrom (heap.visitor_id (heap.map o)) = ObjectFields.kDataOnly then
          (true, IncrementLiveBytesCachedFor B o (heap.FromHeapObject o)
            (B.ALIGN_TO_ALLOCATION_ALIGNMENT (heap.SizeFromMap o (heap.map o))) (Claimed o s))
        else if visitation_mode = ObjectVisitationMode.kVisitDirectly then
          (true,
            if (Visit (heap.map o) o
                ((Claimed o s).record (Event.Visit (heap.map o) o))).1 ≠ 0 then
              IncrementLiveBytesCachedFor B o (heap.FromHeapObject o)
                (B.ALIGN_TO_ALLOCATION_ALIGNMENT
                  (Visit (heap.map o) o
                    ((Claimed o s).record (Event.Visit (heap.map o) o))).1)
                (Visit (heap.map o) o
                  ((Claimed o s).record (Event.Visit (heap.map o) o))).2
            else
              (Visit (heap.map o) o
                ((Claimed o s).record (Event.Visit (heap.map o) o))).2)
        else
          (true, Push o (Claimed o s)) := by
  simp only [ClaimAndDispatch, TryMark, hm, if_false, Claimed]
  split
  · rfl
  · split
    · rfl
    · split
      · split <;> rfl
      · rfl

theorem ClaimAndDispatch_fst (B : Build) (heap : Heap)
    (Visit : Map → HeapObject → VisitorState → Int × VisitorState)
    (marking_mode : YoungGenerationMarkingVisitorMode) (visitation_mode : ObjectVisitationMode)
    (o : HeapObject) (s : VisitorState) :
    (ClaimAndDispatch B heap Visit marking_mode visitation_mode o s).1 = true := by
  by_cases hm : o ∈ s.marked
  · rw [ClaimAndDispatch_marked B heap Visit marking_mode visitation_mode o s hm]
  · rw [ClaimAndDispatch_unmarked B heap Visit marking_mode visitation_mode o s hm]
    split_ifs <;> rfl

theorem ClaimAndDispatch_memory (B : Build) (heap : Heap)
    (Visit : Map → HeapObject → VisitorState → Int × VisitorState)
    (marking_mode : YoungGenerationMarkingVisitorMode) (visitation_mode : ObjectVisitationMode)
    (o : HeapObject) (s : VisitorState) (slot : Slot)
    (hVisit : ∀ m x t, (Visit m x t).2.memory slot = t.memory slot) :
    (ClaimAndDispatch B heap Visit marking_mode visitation_mode o s).2.memory slot
      = s.memory slot := by
  by_cases hm : o ∈ s.marked
  · rw [ClaimAndDispatch_marked B heap Visit marking_mode visitation_mode o s hm]
    rfl
  · rw [ClaimAndDispatch_unmarked B heap Visit marking_mode visitation_mode o s hm]
    split_ifs
    · rfl
    · rfl
    · show (Visit _ _ _).2.memory slot = _
      rw [hVisit]; rfl
    · rw [hVisit]; rfl
    · rfl

@[simp] theorem StoreHeapObject_memory_self (slot : Slot) (o : HeapObject) (s : VisitorState) :
    (StoreHeapObject slot o s).memory slot = Tagged.strong o := by
  simp [StoreHeapObject]

/-- After `ShortCutStrings` on a young referent of the slot, and with thin strings referring to
old objects: if it returned true, the slot refers to the object the visit continues with, which is
young; if it returned false, the slot refers to an old object. -/
theorem ShortCutStrings_slot (B : Build) (heap : Heap) (slot : Slot) (o : HeapObject)
    (s : VisitorState)
    (hthin : ∀ x, heap.map x = B.kThinOneByteStringMap ∨ heap.map x = B.kThinTwoByteStringMap →
      heap.InYoungGeneration (heap.actual x) = false)
    (hslot : (s.memory slot).GetHeapObject = some o) (hyoung : heap.InYoungGeneration o = true) :
    ((ShortCutStrings B heap slot o s).1 = true →
        ((ShortCutStrings B heap slot o s).2.2.memory slot).GetHeapObject
            = some (ShortCutStrings B heap slot o s).2.1
          ∧ heap.InYoungGeneration (ShortCutStrings B heap slot o s).2.1 = true)
      ∧ ((ShortCutStrings B heap slot o s).1 = false →
          ∀ x, ((ShortCutStrings B heap slot o s).2.2.memory slot).GetHeapObject = some x →
            heap.InYoungGeneration x = false) := by
  simp only [ShortCutStrings]
  repeat' split
  all_goals simp_all [Tagged.GetHeapObject]

theorem ResolveReferent_result (x : Bool × HeapObject × VisitorState) :
    (match x with
      | (false, _, s) => ((none : Option HeapObject), s)
      | (true, heap_object, s) => (some heap_object, s))
      = (if x.1 then some x.2.1 else none, x.2.2) := by
  rcases x with ⟨b, o, s⟩
  cases b <;> rfl

/-- The first part of the visit yields an object exactly when, afterwards, the slot refers to a
young heap object; thin strings are assumed to refer to old objects. -/
theorem ResolveReferent_isSome_iff (B : Build) (heap : Heap)
    (marking_mode : YoungGenerationMarkingVisitorMode) (slot_treatment_mode : SlotTreatmentMode)
    (slot : Slot) (s : VisitorState)
    (hthin : ∀ x, heap.map x = B.kThinOneByteStringMap ∨ heap.map x = B.kThinTwoByteStringMap →
      heap.InYoungGeneration (heap.actual x) = false) :
    (∀ o, (ResolveReferent B heap marking_mode slot_treatment_mode slot s).1 = some o →
        ((ResolveReferent B heap marking_mode slot_treatment_mode slot s).2.memory
            slot).GetHeapObject = some o
          ∧ heap.InYoungGeneration o = true)
      ∧ ((ResolveReferent B heap marking_mode slot_treatment_mode slot s).1 = none →
          ∀ o, ((ResolveReferent B heap marking_mode slot_treatment_mode slot s).2.memory
              slot).GetHeapObject = some o → heap.InYoungGeneration o = false) := by
  unfold ResolveReferent
  simp only [ResolveReferent_result]
  cases hget : (s.memory slot).GetHeapObject with
  | none => simp [hget]
  | some o =>
    simp only []
    generalize hs1 : (if (B.THREAD_SANITIZER && B.EnableConcurrentVisitation marking_mode) = true
        then s.record (Event.SynchronizedHeapLoad (heap.FromHeapObject o)) else s) = s1
    have hmem : s1.memory = s.memory := by
      rw [← hs1]; split <;> rfl
    have hslot : (s1.memory slot).GetHeapObject = some o := by rw [hmem]; exact hget
    by_cases hyoung : heap.InYoungGeneration o = true
    · simp only [hyoung, Bool.not_true, Bool.false_eq_true, if_false]
      split
      · have hsc := ShortCutStrings_slot B heap slot o s1 hthin hslot hyoung
        cases hb : (ShortCutStrings B heap slot o s1).1 with
        | true =>
          obtain ⟨h1, h2⟩ := hsc.1 hb
          simp [h1, h2]
        | false =>
          have h2 := hsc.2 hb
          simpa using h2
      · simp [hslot, hyoung]
    · have hold : heap.InYoungGeneration o = false := by simpa using hyoung
      simp [hold, hslot]

/-- Whether the first part of the visit yields an object does not depend on the mark bits. -/
theorem ResolveReferent_marked_irrelevant (B : Build) (heap : Heap)
    (marking_mode : YoungGenerationMarkingVisitorMode) (slot_treatment_mode : SlotTreatmentMode)
    (slot : Slot) (s : VisitorState) (marked : List HeapObject) :
    (ResolveReferent B heap marking_mode slot_treatment_mode slot { s with marked := marked }).1
      = (ResolveReferent B heap marking_mode slot_treatment_mode slot s).1 := by
  unfold ResolveReferent
  simp only [ResolveReferent_result]
  cases (s.memory slot).GetHeapObject with
  | none => rfl
  | some o =>
    simp only []
    split
    · rfl
    · split
      · have hc := ShortCutStrings_congr B heap slot o
          (if (B.THREAD_SANITIZER && B.EnableConcurrentVisitation marking_mode) = true then
            ({ s with marked := marked } : VisitorState).record
              (Event.SynchronizedHeapLoad (heap.FromHeapObject o))
           else { s with marked := marked })
          (if (B.THREAD_SANITIZER && B.EnableConcurrentVisitation marking_mode) = true then
            s.record (Event.SynchronizedHeapLoad (heap.FromHeapObject o)) else s)
          (by split <;> rfl)
        simp only [hc.1, hc.2]
      · rfl

theorem VisitObjectViaSlot_fst (B : Build) (heap : Heap)
    (Visit : Map → HeapObject → VisitorState → Int × VisitorState)
    (marking_mode : YoungGenerationMarkingVisitorMode) (visitation_mode : ObjectVisitationMode)
    (slot_treatment_mode : SlotTreatmentMode) (slot : Slot) (s : VisitorState) :
    (VisitObjectViaSlot B heap Visit marking_mode visitation_mode slot_treatment_mode slot s).1
      = (ResolveReferent B heap marking_mode slot_treatment_mode slot s).1.isSome := by
  cases hr : (ResolveReferent B heap marking_mode slot_treatment_mode slot s).1 with
  | none =>
    rw [VisitObjectViaSlot_of_none B heap Visit marking_mode visitation_mode slot_treatment_mode
      slot s hr]
    rfl
  | some o =>
    rw [VisitObjectViaSlot_of_some B heap Visit marking_mode visitation_mode slot_treatment_mode
      slot s o hr, ClaimAndDispatch_fst]
    rfl

theorem VisitObjectViaSlot_true_iff (B : Build) (heap : Heap)
    (Visit : Map → HeapObject → VisitorState → Int × VisitorState)
    (marking_mode : YoungGenerationMarkingVisitorMode) (visitation_mode : ObjectVisitationMode)
    (slot_treatment_mode : SlotTreatmentMode) (slot : Slot) (s : VisitorState)
    (hthin : ∀ x, heap.map x = B.kThinOneByteStringMap ∨ heap.map x = B.kThinTwoByteStringMap →
      heap.InYoungGeneration (heap.actual x) = false)
    (hVisit : ∀ m x t, (Visit m x t).2.memory slot = t.memory slot) :
    (VisitObjectViaSlot B heap Visit marking_mode visitation_mode slot_treatment_mode slot s).1
        = true
      ↔ ∃ o, ((VisitObjectViaSlot B heap Visit marking_mode visitation_mode slot_treatment_mode
            slot s).2.memory slot).GetHeapObject = some o
          ∧ heap.InYoungGeneration o = true := by
  obtain ⟨hsome, hnone⟩ :=
    ResolveReferent_isSome_iff B heap marking_mode slot_treatment_mode slot s hthin
  cases hr : (ResolveReferent B heap marking_mode slot_treatment_mode slot s).1 with
  | none =>
    rw [VisitObjectViaSlot_of_none B heap Visit marking_mode visitation_mode slot_treatment_mode
      slot s hr]
    constructor
    · intro h; exact absurd h (by simp)
    · rintro ⟨o, h1, h2⟩
      have := hnone hr o h1
      rw [this] at h2
      exact absurd h2 (by simp)
  | some o =>
    rw [VisitObjectViaSlot_of_some B heap Visit marking_mode visitation_mode slot_treatment_mode
      slot s o hr, ClaimAndDispatch_fst,
      ClaimAndDispatch_memory B heap Visit marking_mode visitation_mode o _ slot hVisit]
    exact ⟨fun _ => ⟨o, hsome o hr⟩, fun _ => rfl⟩

theorem VisitObjectViaSlot_true_iff_resolved (B : Build) (heap : Heap)
    (Visit : Map → HeapObject → VisitorState → Int × VisitorState)
    (marking_mode : YoungGenerationMarkingVisitorMode) (visitation_mode : ObjectVisitationMode)
    (slot_treatment_mode : SlotTreatmentMode) (slot : Slot) (s : VisitorState)
    (hthin : ∀ x, heap.map x = B.kThinOneByteStringMap ∨ heap.map x = B.kThinTwoByteStringMap →
      heap.InYoungGeneration (heap.actual x) = false) :
    (VisitObjectViaSlot B heap Visit marking_mode visitation_mode slot_treatment_mode slot s).1
        = true
      ↔ ∃ o, ((ResolveReferent B heap marking_mode slot_treatment_mode slot s).2.memory
            slot).GetHeapObject = some o
          ∧ heap.InYoungGeneration o = true := by
  obtain ⟨hsome, hnone⟩ :=
    ResolveReferent_isSome_iff B heap marking_mode slot_treatment_mode slot s hthin
  rw [VisitObjectViaSlot_fst]
  cases hr : (ResolveReferent B heap marking_mode slot_treatment_mode slot s).1 with
  | none =>
    constructor
    · intro h; exact absurd h (by simp)
    · rintro ⟨o, h1, h2⟩
      have := hnone hr o h1
      rw [this] at h2
      exact absurd h2 (by simp)
  | some o => exact ⟨fun _ => ⟨o, hsome o hr⟩, fun _ => rfl⟩

/-- C5 (slot-visit result). Assume every thin string's actual string lies outside the young
generation. Then `VisitObjectViaSlot`, and so `VisitObjectViaSlotInRemeberedSet`, returns true
if and only if the slot, read after the shortcut step of the visit, refers to a heap object in
the young generation; when `Parent::Visit` does not write the slot this is the slot as the visit
leaves it. The result does not depend on the mark bits, so it is the same whether `TryMark`
succeeds or fails, and it is false for a present old-generation referent. -/
theorem slot_visit_result (B : Build) (heap : Heap)
    (Visit : Map → HeapObject → VisitorState → Int × VisitorState)
    (marking_mode : YoungGenerationMarkingVisitorMode) (visitation_mode : ObjectVisitationMode)
    (slot_treatment_mode : SlotTreatmentMode) (slot : Slot) (s : VisitorState)
    (hthin : ∀ x, heap.map x = B.kThinOneByteStringMap ∨ heap.map x = B.kThinTwoByteStringMap →
      heap.InYoungGeneration (heap.actual x) = false) :
    ((VisitObjectViaSlot B heap Visit marking_mode visitation_mode slot_treatment_mode slot s).1
          = true
        ↔ ∃ o, ((ResolveReferent B heap marking_mode slot_treatment_mode slot s).2.memory
              slot).GetHeapObject = some o
            ∧ heap.InYoungGeneration o = true)
      ∧ ((VisitObjectViaSlotInRemeberedSet B heap Visit marking_mode slot s).1 = true
        ↔ ∃ o, ((ResolveReferent B heap marking_mode
              (if marking_mode = YoungGenerationMarkingVisitorMode.kParallel then
                SlotTreatmentMode.kReadWrite else SlotTreatmentMode.kReadOnly)
              slot s).2.memory slot).GetHeapObject = some o
            ∧ heap.InYoungGeneration o = true)
      ∧ ((∀ m x t, (Visit m x t).2.memory slot = t.memory slot) →
          ((VisitObjectViaSlot B heap Visit marking_mode visitation_mode slot_treatment_mode
                slot s).1 = true
            ↔ ∃ o, ((VisitObjectViaSlot B heap Visit marking_mode visitation_mode
                  slot_treatment_mode slot s).2.memory slot).GetHeapObject = some o
                ∧ heap.InYoungGeneration o = true))
      ∧ (∀ marked : List HeapObject,
          (VisitObjectViaSlot B heap Visit marking_mode visitation_mode slot_treatment_mode slot
              { s with marked := marked }).1
            = (VisitObjectViaSlot B heap Visit marking_mode visitation_mode slot_treatment_mode
                slot s).1)
      ∧ (∀ o, (s.memory slot).GetHeapObject = some o → heap.InYoungGeneration o = false →
          (VisitObjectViaSlot B heap Visit marking_mode visitation_mode slot_treatment_mode
              slot s).1 = false) := by
  refine ⟨VisitObjectViaSlot_true_iff_resolved B heap Visit marking_mode visitation_mode
    slot_treatment_mode slot s hthin, ?_, ?_, ?_, ?_⟩
  · unfold VisitObjectViaSlotInRemeberedSet
    split
    · exact VisitObjectViaSlot_true_iff_resolved B heap Visit marking_mode _ _ slot s hthin
    · exact VisitObjectViaSlot_true_iff_resolved B heap Visit marking_mode _ _ slot s hthin
  · intro hVisit
    exact VisitObjectViaSlot_true_iff B heap Visit marking_mode visitation_mode
      slot_treatment_mode slot s hthin hVisit
  · intro marked
    rw [VisitObjectViaSlot_fst, VisitObjectViaSlot_fst, ResolveReferent_marked_irrelevant]
  · intro o h hold
    rw [VisitObjectViaSlot_fst,
      (ResolveReferent_old B heap marking_mode slot_treatment_mode slot s o h hold).1]
    rfl

/-- Witness of `slot_visit_result`: slot `4` holds the cons string `50`, which the visit
replaces by its young left child `60`; the visit returns true. -/
theorem slot_visit_result_witness :
    (VisitObjectViaSlotInRemeberedSet exampleBuild exampleHeap exampleVisit
        YoungGenerationMarkingVisitorMode.kParallel 4 exampleState).1 = true :=
  (slot_visit_result exampleBuild exampleHeap exampleVisit
    YoungGenerationMarkingVisitorMode.kParallel ObjectVisitationMode.kVisitDirectly
    SlotTreatmentMode.kReadWrite 4 exampleState (fun _ _ => rfl)).2.1.2
      ⟨60, by decide, by decide⟩

/-- The object the first part of the visit yields is in the young generation: it is the young
referent itself or the left child of a cons string, checked to be young. -/
theorem ResolveReferent_young (B : Build) (heap : Heap)
    (marking_mode : YoungGenerationMarkingVisitorMode) (slot_treatment_mode : SlotTreatmentMode)
    (slot : Slot) (s : VisitorState) (o : HeapObject)
    (hres : (ResolveReferent B heap marking_mode slot_treatment_mode slot s).1 = some o) :
    heap.InYoungGeneration o = true := by
  unfold ResolveReferent at hres
  simp only [ResolveReferent_result] at hres
  cases hget : (s.memory slot).GetHeapObject with
  | none => simp [hget] at hres
  | some x =>
    simp only [hget] at hres
    by_cases hyoung : heap.InYoungGeneration x = true
    · simp only [hyoung, Bool.not_true, Bool.false_eq_true, if_false] at hres
      split at hres
      · generalize (if (B.THREAD_SANITIZER && B.EnableConcurrentVisitation marking_mode) = true
            then s.record (Event.SynchronizedHeapLoad (heap.FromHeapObject x)) else s) = s1
          at hres
        simp only [ShortCutStrings] at hres
        repeat' split at hres
        all_goals simp_all
      · simp only [Option.some.injEq] at hres
        rw [← hres]; exact hyoung
    · have hold : heap.InYoungGeneration x = false := by simpa using hyoung
      simp [hold] at hres

/-- C7 (concurrent-mode dispatch). With `EnableConcurrentVisitation()` true, when the visit
reaches `TryMark` with the young referent `o` and `o` is not marked yet, `VisitObjectViaSlot`
returns true, marks `o` and pushes it to the local worklist exactly once, whatever its
visitor id; the live-bytes cache is unchanged, and `Parent::Visit` is not called: the calls
made after the first part of the visit are `TryMark(o)` and `Push(o)` and nothing else, for
every `Parent::Visit`. -/
theorem concurrent_dispatch (B : Build) (heap : Heap)
    (Visit : Map → HeapObject → VisitorState → Int × VisitorState)
    (marking_mode : YoungGenerationMarkingVisitorMode) (visitation_mode : ObjectVisitationMode)
    (slot_treatment_mode : SlotTreatmentMode) (slot : Slot) (s : VisitorState) (o : HeapObject)
    (hconc : B.EnableConcurrentVisitation marking_mode = true)
    (hres : (ResolveReferent B heap marking_mode slot_treatment_mode slot s).1 = some o)
    (hm : o ∉ s.marked) :
    VisitObjectViaSlot B heap Visit marking_mode visitation_mode slot_treatment_mode slot s
        = (true, Push o (Claimed o
            (ResolveReferent B heap marking_mode slot_treatment_mode slot s).2))
      ∧ heap.InYoungGeneration o = true
      ∧ (VisitObjectViaSlot B heap Visit marking_mode visitation_mode slot_treatment_mode
          slot s).2.worklist = s.worklist ++ [o]
      ∧ (VisitObjectViaSlot B heap Visit marking_mode visitation_mode slot_treatment_mode
          slot s).2.live_bytes = s.live_bytes
      ∧ (VisitObjectViaSlot B heap Visit marking_mode visitation_mode slot_treatment_mode
          slot s).2.marked = o :: s.marked
      ∧ (VisitObjectViaSlot B heap Visit marking_mode visitation_mode slot_treatment_mode
          slot s).2.trace
          = (ResolveReferent B heap marking_mode slot_treatment_mode slot s).2.trace
              ++ [Event.TryMark o, Event.Push o] := by
  obtain ⟨h1, h2, h3, _, _, _⟩ :=
    ResolveReferent_state B heap marking_mode slot_treatment_mode slot s
  have hm1 : o ∉ (ResolveReferent B heap marking_mode slot_treatment_mode slot s).2.marked := by
    rw [h1]; exact hm
  have hyoung := ResolveReferent_young B heap marking_mode slot_treatment_mode slot s o hres
  have heq : VisitObjectViaSlot B heap Visit marking_mode visitation_mode slot_treatment_mode
      slot s = (true, Push o (Claimed o
        (ResolveReferent B heap marking_mode slot_treatment_mode slot s).2)) := by
    rw [VisitObjectViaSlot_of_some B heap Visit marking_mode visitation_mode slot_treatment_mode
      slot s o hres, ClaimAndDispatch_unmarked B heap Visit marking_mode visitation_mode o _ hm1]
    simp only [hconc, if_true]
  rw [heq]
  refine ⟨rfl, hyoung, ?_, ?_, ?_, ?_⟩
  · simp [Push, Claimed, h2]
  · simp [Push, Claimed, h3]
  · simp [Push, Claimed, h1]
  · simp [Push, Claimed]

/-- Witness of `concurrent_dispatch`: slot `5` holds a weak reference to the young object
`60`, which the concurrent visitor pushes. -/
theorem concurrent_dispatch_witness :
    (VisitObjectViaSlot exampleBuild exampleHeap exampleVisit
        YoungGenerationMarkingVisitorMode.kConcurrent ObjectVisitationMode.kPushToWorklist
        SlotTreatmentMode.kReadOnly 5 exampleState).2.worklist = exampleState.worklist ++ [60] :=
  (concurrent_dispatch exampleBuild exampleHeap exampleVisit
    YoungGenerationMarkingVisitorMode.kConcurrent ObjectVisitationMode.kPushToWorklist
    SlotTreatmentMode.kReadOnly 5 exampleState 60 (by decide) (by decide) (by decide)).2.2.1

/-- C9 (lost claim). In every mode, when the visit reaches `TryMark` with the young, possibly
rewritten referent `o` and `o` is marked already, `VisitObjectViaSlot` returns true and does
no further work: the only call after the first part of the visit is the failed `TryMark(o)`;
worklist, live-bytes cache and mark bits are as before, and `Parent::Visit` is not called. -/
theorem lost_claim (B : Build) (heap : Heap)
    (Visit : Map → HeapObject → VisitorState → Int × VisitorState)
    (marking_mode : YoungGenerationMarkingVisitorMode) (visitation_mode : ObjectVisitationMode)
    (slot_treatment_mode : SlotTreatmentMode) (slot : Slot) (s : VisitorState) (o : HeapObject)
    (hres : (ResolveReferent B heap marking_mode slot_treatment_mode slot s).1 = some o)
    (hm : o ∈ s.marked) :
    VisitObjectViaSlot B heap Visit marking_mode visitation_mode slot_treatment_mode slot s
        = (true, (ResolveReferent B heap marking_mode slot_treatment_mode slot s).2.record
            (Event.TryMark o))
      ∧ heap.InYoungGeneration o = true
      ∧ (VisitObjectViaSlot B heap Visit marking_mode visitation_mode slot_treatment_mode
          slot s).2.worklist = s.worklist
      ∧ (VisitObjectViaSlot B heap Visit marking_mode visitation_mode slot_treatment_mode
          slot s).2.live_bytes = s.live_bytes
      ∧ (VisitObjectViaSlot B heap Visit marking_mode visitation_mode slot_treatment_mode
          slot s).2.marked = s.marked := by
  obtain ⟨h1, h2, h3, _, _, _⟩ :=
    ResolveReferent_state B heap marking_mode slot_treatment_mode slot s
  have hm1 : o ∈ (ResolveReferent B heap marking_mode slot_treatment_mode slot s).2.marked := by
    rw [h1]; exact hm
  have hyoung := ResolveReferent_young B heap marking_mode slot_treatment_mode slot s o hres
  have heq : VisitObjectViaSlot B heap Visit marking_mode visitation_mode slot_treatment_mode
      slot s = (true, (ResolveReferent B heap marking_mode slot_treatment_mode slot s).2.record
        (Event.TryMark o)) := by
    rw [VisitObjectViaSlot_of_some B heap Visit marking_mode visitation_mode slot_treatment_mode
      slot s o hres, ClaimAndDispatch_marked B heap Visit marking_mode visitation_mode o _ hm1]
  rw [heq]
  exact ⟨rfl, hyoung, h2, h3, h1⟩

/-- Witness of `lost_claim`: the young object `60` of slot `5` is marked already. -/
theorem lost_claim_witness :
    (VisitObjectViaSlot exampleBuild exampleHeap exampleVisit
        YoungGenerationMarkingVisitorMode.kParallel ObjectVisitationMode.kVisitDirectly
        SlotTreatmentMode.kReadWrite 5 { exampleState with marked := [60] }).2.worklist = [] :=
  (lost_claim exampleBuild exampleHeap exampleVisit
    YoungGenerationMarkingVisitorMode.kParallel ObjectVisitationMode.kVisitDirectly
    SlotTreatmentMode.kReadWrite 5 { exampleState with marked := [60] } 60
    (by decide) (by decide)).2.2.1

/-- C8 (non-concurrent dispatch of objects that need traversal). With
`EnableConcurrentVisitation()` false, when the visit reaches `TryMark` with the young
referent `o`, `o` is not marked yet and its visitor id is not data-only: under `kVisitDirectly`
the visit marks `o`, calls `Parent::Visit(map, o)` once, on a state in which `o` has not been
pushed, and afterwards adds `ALIGN_TO_ALLOCATION_ALIGNMENT(visited_size)` to the live-bytes
cache for the chunk of `o` exactly when `visited_size` is nonzero, pushing nothing itself;
under `kPushToWorklist` it marks `o`, pushes it exactly once, leaves the live-bytes cache
unchanged and does not call `Parent::Visit`. -/
theorem non_concurrent_dispatch (B : Build) (heap : Heap)
    (Visit : Map → HeapObject → VisitorState → Int × VisitorState)
    (marking_mode : YoungGenerationMarkingVisitorMode) (visitation_mode : ObjectVisitationMode)
    (slot_treatment_mode : SlotTreatmentMode) (slot : Slot) (s : VisitorState) (o : HeapObject)
    (hconc : B.EnableConcurrentVisitation marking_mode = false)
    (hres : (ResolveReferent B heap marking_mode slot_treatment_mode slot s).1 = some o)
    (hm : o ∉ s.marked)
    (hfields : B.ObjectFieldsFrom (heap.visitor_id (heap.map o)) ≠ ObjectFields.kDataOnly) :
    (visitation_mode = ObjectVisitationMode.kVisitDirectly →
        ∀ v, v = Visit (heap.map o) o
            ((Claimed o (ResolveReferent B heap marking_mode slot_treatment_mode slot s).2).record
              (Event.Visit (heap.map o) o)) →
          VisitObjectViaSlot B heap Visit marking_mode visitation_mode slot_treatment_mode slot s
              = (true,
                  if v.1 ≠ 0 then
                    IncrementLiveBytesCachedFor B o (heap.FromHeapObject o)
                      (B.ALIGN_TO_ALLOCATION_ALIGNMENT v.1) v.2
                  else v.2)
            ∧ ((Claimed o (ResolveReferent B heap marking_mode slot_treatment_mode slot
                  s).2).record (Event.Visit (heap.map o) o)).worklist = s.worklist
            ∧ (VisitObjectViaSlot B heap Visit marking_mode visitation_mode slot_treatment_mode
                slot s).2.worklist = v.2.worklist
            ∧ (VisitObjectViaSlot B heap Visit marking_mode visitation_mode slot_treatment_mode
                slot s).2.live_bytes
                = if v.1 ≠ 0 then
                    IncrementLiveBytesCached B.cache (heap.FromHeapObject o)
                      (B.ALIGN_TO_ALLOCATION_ALIGNMENT v.1) v.2.live_bytes
                  else v.2.live_bytes)
      ∧ (visitation_mode = ObjectVisitationMode.kPushToWorklist →
          VisitObjectViaSlot B heap Visit marking_mode visitation_mode slot_treatment_mode slot s
              = (true, Push o (Claimed o
                  (ResolveReferent B heap marking_mode slot_treatment_mode slot s).2))
            ∧ (VisitObjectViaSlot B heap Visit marking_mode visitation_mode slot_treatment_mode
                slot s).2.worklist = s.worklist ++ [o]
            ∧ (VisitObjectViaSlot B heap Visit marking_mode visitation_mode slot_treatment_mode
                slot s).2.live_bytes = s.live_bytes
            ∧ (VisitObjectViaSlot B heap Visit marking_mode visitation_mode slot_treatment_mode
                slot s).2.trace
                = (ResolveReferent B heap marking_mode slot_treatment_mode slot s).2.trace
                    ++ [Event.TryMark o, Event.Push o]) := by
  obtain ⟨h1, h2, h3, _, _, _⟩ :=
    ResolveReferent_state B heap marking_mode slot_treatment_mode slot s
  have hm1 : o ∉ (ResolveReferent B heap marking_mode slot_treatment_mode slot s).2.marked := by
    rw [h1]; exact hm
  have hV := VisitObjectViaSlot_of_some B heap Visit marking_mode visitation_mode
    slot_treatment_mode slot s o hres
  rw [ClaimAndDispatch_unmarked B heap Visit marking_mode visitation_mode o _ hm1] at hV
  simp only [hconc, Bool.false_eq_true, if_false, hfields] at hV
  constructor
  · intro hvm v hv
    subst hvm
    simp only [if_true] at hV
    rw [← hv] at hV
    rw [hV]
    refine ⟨rfl, ?_, ?_, ?_⟩
    · simp [Claimed, h2]
    · show (if v.1 ≠ 0 then _ else v.2).worklist = _
      split <;> rfl
    · show (if v.1 ≠ 0 then _ else v.2).live_bytes = _
      split <;> rfl
  · intro hvm
    subst hvm
    simp only [reduceCtorEq, if_false] at hV
    rw [hV]
    refine ⟨rfl, ?_, ?_, ?_⟩
    · simp [Push, Claimed, h2]
    · simp [Push, Claimed, h3]
    · simp [Push, Claimed]

/-- Witness of `non_concurrent_dispatch`: the young object `60` of slot `5` has pointer fields;
visited directly it is counted with 48 bytes and not pushed, and under `kPushToWorklist` it is
pushed. -/
theorem non_concurrent_dispatch_witness :
    (VisitObjectViaSlot exampleBuild exampleHeap exampleVisit
        YoungGenerationMarkingVisitorMode.kParallel ObjectVisitationMode.kVisitDirectly
        SlotTreatmentMode.kReadWrite 5 exampleState).2.worklist = []
      ∧ (VisitObjectViaSlot exampleBuild exampleHeap exampleVisit
          YoungGenerationMarkingVisitorMode.kParallel ObjectVisitationMode.kPushToWorklist
          SlotTreatmentMode.kReadOnly 5 exampleState).2.worklist = [] ++ [60] :=
  ⟨((non_concurrent_dispatch exampleBuild exampleHeap exampleVisit
        YoungGenerationMarkingVisitorMode.kParallel ObjectVisitationMode.kVisitDirectly
        SlotTreatmentMode.kReadWrite 5 exampleState 60 (by decide) (by decide) (by decide)
        (by decide)).1 rfl _ rfl).2.2.1,
    ((non_concurrent_dispatch exampleBuild exampleHeap exampleVisit
        YoungGenerationMarkingVisitorMode.kParallel ObjectVisitationMode.kPushToWorklist
        SlotTreatmentMode.kReadOnly 5 exampleState 60 (by decide) (by decide) (by decide)
        (by decide)).2 rfl).2.1⟩

/-- C6, as the code has it (data-only objects). When the visit reaches `TryMark` with the
young referent `o`, `o` is not marked yet and its visitor id is data-only: with
`EnableConcurrentVisitation()` false, `VisitObjectViaSlot` adds
`ALIGN_TO_ALLOCATION_ALIGNMENT(SizeFromMap)` to the live-bytes cache for the chunk of `o` and
pushes nothing; with `EnableConcurrentVisitation()` true it pushes `o` to the worklist and
leaves the live-bytes cache unchanged. -/
theorem data_only_dispatch (B : Build) (heap : Heap)
    (Visit : Map → HeapObject → VisitorState → Int × VisitorState)
    (marking_mode : YoungGenerationMarkingVisitorMode) (visitation_mode : ObjectVisitationMode)
    (slot_treatment_mode : SlotTreatmentMode) (slot : Slot) (s : VisitorState) (o : HeapObject)
    (hres : (ResolveReferent B heap marking_mode slot_treatment_mode slot s).1 = some o)
    (hm : o ∉ s.marked)
    (hfields : B.ObjectFieldsFrom (heap.visitor_id (heap.map o)) = ObjectFields.kDataOnly) :
    (B.EnableConcurrentVisitation marking_mode = false →
        VisitObjectViaSlot B heap Visit marking_mode visitation_mode slot_treatment_mode slot s
            = (true, IncrementLiveBytesCachedFor B o (heap.FromHeapObject o)
                (B.ALIGN_TO_ALLOCATION_ALIGNMENT (heap.SizeFromMap o (heap.map o)))
                (Claimed o (ResolveReferent B heap marking_mode slot_treatment_mode slot s).2))
          ∧ (VisitObjectViaSlot B heap Visit marking_mode visitation_mode slot_treatment_mode
              slot s).2.worklist = s.worklist
          ∧ (VisitObjectViaSlot B heap Visit marking_mode visitation_mode slot_treatment_mode
              slot s).2.live_bytes
              = IncrementLiveBytesCached B.cache (heap.FromHeapObject o)
                  (B.ALIGN_TO_ALLOCATION_ALIGNMENT (heap.SizeFromMap o (heap.map o)))
                  s.live_bytes)
      ∧ (B.EnableConcurrentVisitation marking_mode = true →
          VisitObjectViaSlot B heap Visit marking_mode visitation_mode slot_treatment_mode slot s
              = (true, Push o (Claimed o
                  (ResolveReferent B heap marking_mode slot_treatment_mode slot s).2))
            ∧ (VisitObjectViaSlot B heap Visit marking_mode visitation_mode slot_treatment_mode
                slot s).2.worklist = s.worklist ++ [o]
            ∧ (VisitObjectViaSlot B heap Visit marking_mode visitation_mode slot_treatment_mode
                slot s).2.live_bytes = s.live_bytes) := by
  obtain ⟨h1, h2, h3, _, _, _⟩ :=
    ResolveReferent_state B heap marking_mode slot_treatment_mode slot s
  have hm1 : o ∉ (ResolveReferent B heap marking_mode slot_treatment_mode slot s).2.marked := by
    rw [h1]; exact hm
  have hV := VisitObjectViaSlot_of_some B heap Visit marking_mode visitation_mode
    slot_treatment_mode slot s o hres
  rw [ClaimAndDispatch_unmarked B heap Visit marking_mode visitation_mode o _ hm1] at hV
  constructor
  · intro hconc
    simp only [hconc, Bool.false_eq_true, if_false, hfields, if_true] at hV
    rw [hV]
    refine ⟨rfl, ?_, ?_⟩
    · simp [IncrementLiveBytesCachedFor, Claimed, h2]
    · simp [IncrementLiveBytesCachedFor, Claimed, h3]
  · intro hconc
    simp only [hconc, if_true] at hV
    rw [hV]
    refine ⟨rfl, ?_, ?_⟩
    · simp [Push, Claimed, h2]
    · simp [Push, Claimed, h3]

/-- Witness of `data_only_dispatch`: the data-only object `10` of slot `1`, 20 bytes long, is
counted with 24 bytes by the non-concurrent visitor and not pushed. -/
theorem data_only_dispatch_witness :
    (VisitObjectViaSlot exampleBuild exampleHeap exampleVisit
        YoungGenerationMarkingVisitorMode.kParallel ObjectVisitationMode.kPushToWorklist
        SlotTreatmentMode.kReadOnly 1 exampleState).2.worklist = exampleState.worklist :=
  ((data_only_dispatch exampleBuild exampleHeap exampleVisit
      YoungGenerationMarkingVisitorMode.kParallel ObjectVisitationMode.kPushToWorklist
      SlotTreatmentMode.kReadOnly 1 exampleState 10 (by decide) (by decide) (by decide)).1
    (by decide)).2.1

/-- C6 as stated fails in concurrent-visitation mode: slot `1` refers to the young, unmarked,
data-only object `10`, and the concurrent visitor pushes it to the worklist and records nothing
in the live-bytes cache. -/
theorem data_only_concurrent_counterexample :
    exampleBuild.EnableConcurrentVisitation YoungGenerationMarkingVisitorMode.kConcurrent = true
      ∧ (exampleState.memory 1).GetHeapObject = some 10
      ∧ exampleHeap.InYoungGeneration 10 = true
      ∧ 10 ∉ exampleState.marked
      ∧ exampleBuild.ObjectFieldsFrom (exampleHeap.visitor_id (exampleHeap.map 10))
          = ObjectFields.kDataOnly
      ∧ (VisitObjectViaSlot exampleBuild exampleHeap exampleVisit
          YoungGenerationMarkingVisitorMode.kConcurrent ObjectVisitationMode.kPushToWorklist
          SlotTreatmentMode.kReadOnly 1 exampleState).2.worklist = [10]
      ∧ (VisitObjectViaSlot exampleBuild exampleHeap exampleVisit
          YoungGenerationMarkingVisitorMode.kConcurrent ObjectVisitationMode.kPushToWorklist
          SlotTreatmentMode.kReadOnly 1 exampleState).2.live_bytes = exampleState.live_bytes := by
  decide

/-! ## Theorems: exactly-once claiming -/

theorem NewlyClaimed_nil (s t : VisitorState) : NewlyClaimed s t [] :=
  ⟨List.nodup_nil, fun o ho => absurd ho (List.not_mem_nil o)⟩

theorem ClaimStep_refl (s : VisitorState) : ClaimStep s s :=
  ⟨fun _ h => h, ⟨[], (List.append_nil _).symm, NewlyClaimed_nil s s⟩,
    ⟨[], (List.append_nil _).symm, NewlyClaimed_nil s s⟩⟩

/-- A step that keeps marks and worklist and adds no live-bytes call. -/
theorem ClaimStep_of_same (s t : VisitorState) (hm : t.marked = s.marked)
    (hw : t.worklist = s.worklist) (hc : countedObjects t.trace = countedObjects s.trace) :
    ClaimStep s t :=
  ⟨fun o h => by rw [hm]; exact h, ⟨[], by rw [hw, List.append_nil], NewlyClaimed_nil s t⟩,
    ⟨[], by rw [hc, List.append_nil], NewlyClaimed_nil s t⟩⟩

theorem NewlyClaimed_append (s t u : VisitorState) (l₁ l₂ : List HeapObject)
    (hst : ∀ o ∈ s.marked, o ∈ t.marked) (htu : ∀ o ∈ t.marked, o ∈ u.marked)
    (h₁ : NewlyClaimed s t l₁) (h₂ : NewlyClaimed t u l₂) : NewlyClaimed s u (l₁ ++ l₂) := by
  refine ⟨List.nodup_append.2 ⟨h₁.1, h₂.1, ?_⟩, ?_⟩
  · intro o ho1 ho2
    exact (h₂.2 o ho2).1 (h₁.2 o ho1).2
  · intro o ho
    rcases List.mem_append.1 ho with h | h
    · exact ⟨(h₁.2 o h).1, htu o (h₁.2 o h).2⟩
    · exact ⟨fun hs => (h₂.2 o h).1 (hst o hs), (h₂.2 o h).2⟩

theorem ClaimStep_trans {s t u : VisitorState} (hst : ClaimStep s t) (htu : ClaimStep t u) :
    ClaimStep s u := by
  obtain ⟨m1, ⟨p1, hp1, np1⟩, ⟨c1, hc1, nc1⟩⟩ := hst
  obtain ⟨m2, ⟨p2, hp2, np2⟩, ⟨c2, hc2, nc2⟩⟩ := htu
  refine ⟨fun o h => m2 o (m1 o h), ⟨p1 ++ p2, ?_, NewlyClaimed_append s t u p1 p2 m1 m2 np1 np2⟩,
    ⟨c1 ++ c2, ?_, NewlyClaimed_append s t u c1 c2 m1 m2 nc1 nc2⟩⟩
  · rw [hp2, hp1, List.append_assoc]
  · rw [hc2, hc1, List.append_assoc]

theorem countedObjects_append (l₁ l₂ : List Event) :
    countedObjects (l₁ ++ l₂) = countedObjects l₁ ++ countedObjects l₂ := by
  simp [countedObjects]

theorem countedObjects_of_untouched (evs : List Event)
    (h : ∀ e ∈ evs, e.touchesMarking = false) : countedObjects evs = [] := by
  induction evs with
  | nil => rfl
  | cons e evs ih =>
    have he := h e (List.mem_cons_self _ _)
    have hrest := ih (fun x hx => h x (List.mem_cons_of_mem _ hx))
    cases e <;> simp_all [countedObjects, Event.countedObject, Event.touchesMarking]

theorem ClaimStep_ResolveReferent (B : Build) (heap : Heap)
    (marking_mode : YoungGenerationMarkingVisitorMode) (slot_treatment_mode : SlotTreatmentMode)
    (slot : Slot) (s : VisitorState) :
    ClaimStep s (ResolveReferent B heap marking_mode slot_treatment_mode slot s).2 := by
  obtain ⟨h1, h2, _, _, _, evs, h6, h7⟩ :=
    ResolveReferent_state B heap marking_mode slot_treatment_mode slot s
  apply ClaimStep_of_same _ _ h1 h2
  rw [h6, countedObjects_append, countedObjects_of_untouched evs h7, List.append_nil]

theorem NewlyClaimed_singleton (s t : VisitorState) (o : HeapObject) (hs : o ∉ s.marked)
    (ht : o ∈ t.marked) : NewlyClaimed s t [o] :=
  ⟨List.nodup_singleton o, fun x hx => by rw [List.mem_singleton.1 hx]; exact ⟨hs, ht⟩⟩

theorem ClaimStep_push (o : HeapObject) (s : VisitorState) (hm : o ∉ s.marked) :
    ClaimStep s (Push o (Claimed o s)) := by
  refine ⟨fun x hx => List.mem_cons_of_mem _ hx, ⟨[o], rfl, ?_⟩, ⟨[], ?_, NewlyClaimed_nil _ _⟩⟩
  · exact NewlyClaimed_singleton _ _ o hm (List.mem_cons_self _ _)
  · simp [Push, Claimed, countedObjects, Event.countedObject]

theorem ClaimStep_count (B : Build) (o : HeapObject) (chunk : MemoryChunk) (by_ : Int)
    (s : VisitorState) (hm : o ∉ s.marked) :
    ClaimStep s (IncrementLiveBytesCachedFor B o chunk by_ (Claimed o s)) := by
  refine ⟨fun x hx => List.mem_cons_of_mem _ hx, ⟨[], ?_, NewlyClaimed_nil _ _⟩, ⟨[o], ?_, ?_⟩⟩
  · simp [IncrementLiveBytesCachedFor, Claimed]
  · simp [IncrementLiveBytesCachedFor, Claimed, countedObjects, Event.countedObject]
  · exact NewlyClaimed_singleton _ _ o hm (List.mem_cons_self _ _)

/-- Direct visitation: `TryMark`, then `Parent::Visit`, then the live-bytes call if the visited
size is nonzero. -/
theorem ClaimStep_direct (B : Build) (o : HeapObject) (chunk : MemoryChunk) (map : Map)
    (Visit : Map → HeapObject → VisitorState → Int × VisitorState)
    (hVisit : ∀ m x t, ClaimStep t (Visit m x t).2)
    (align : Int → Int) (s : VisitorState) (hm : o ∉ s.marked) :
    ClaimStep s
      (if (Visit map o ((Claimed o s).record (Event.Visit map o))).1 ≠ 0 then
        IncrementLiveBytesCachedFor B o chunk
          (align (Visit map o ((Claimed o s).record (Event.Visit map o))).1)
          (Visit map o ((Claimed o s).record (Event.Visit map o))).2
      else (Visit map o ((Claimed o s).record (Event.Visit map o))).2) := by
  have hv := hVisit map o ((Claimed o s).record (Event.Visit map o))
  generalize Visit map o ((Claimed o s).record (Event.Visit map o)) = v at hv ⊢
  obtain ⟨m1, ⟨p1, hp1, np1⟩, ⟨c1, hc1, nc1⟩⟩ := hv
  have hmarked0 : ((Claimed o s).record (Event.Visit map o)).marked = o :: s.marked := rfl
  have hgrow : ∀ x ∈ s.marked, x ∈ v.2.marked := fun x hx =>
    m1 x (by rw [hmarked0]; exact List.mem_cons_of_mem _ hx)
  have ho : o ∈ v.2.marked := m1 o (by rw [hmarked0]; exact List.mem_cons_self _ _)
  have hnot : ∀ x, x ∉ ((Claimed o s).record (Event.Visit map o)).marked → x ∉ s.marked :=
    fun x hx hxs => hx (by rw [hmarked0]; exact List.mem_cons_of_mem _ hxs)
  have hp : NewlyClaimed s v.2 p1 := ⟨np1.1, fun x hx => ⟨hnot x (np1.2 x hx).1, (np1.2 x hx).2⟩⟩
  have hc : NewlyClaimed s v.2 c1 := ⟨nc1.1, fun x hx => ⟨hnot x (nc1.2 x hx).1, (nc1.2 x hx).2⟩⟩
  have hcount0 : countedObjects ((Claimed o s).record (Event.Visit map o)).trace
      = countedObjects s.trace := by
    simp [Claimed, countedObjects, Event.countedObject]
  have hwl0 : ((Claimed o s).record (Event.Visit map o)).worklist = s.worklist := rfl
  split
  · refine ⟨hgrow, ⟨p1, ?_, hp⟩, ⟨c1 ++ [o], ?_, ?_⟩⟩
    · show v.2.worklist = _
      rw [hp1, hwl0]
    · show countedObjects (v.2.trace ++ [Event.IncrementLiveBytesCached o chunk (align v.1)]) = _
      rw [countedObjects_append, hc1, hcount0, List.append_assoc]
      rfl
    · refine ⟨List.nodup_append.2 ⟨hc.1, List.nodup_singleton o, ?_⟩, ?_⟩
      · intro x hx1 hx2
        rw [List.mem_singleton.1 hx2] at hx1
        exact (nc1.2 o hx1).1 (by rw [hmarked0]; exact List.mem_cons_self _ _)
      · intro x hx
        rcases List.mem_append.1 hx with h | h
        · exact hc.2 x h
        · rw [List.mem_singleton.1 h]; exact ⟨hm, ho⟩
  · refine ⟨hgrow, ⟨p1, ?_, hp⟩, ⟨c1, ?_, hc⟩⟩
    · rw [hp1, hwl0]
    · rw [hc1, hcount0]

theorem ClaimStep_ClaimAndDispatch (B : Build) (heap : Heap)
    (Visit : Map → HeapObject → VisitorState → Int × VisitorState)
    (hVisit : ∀ m x t, ClaimStep t (Visit m x t).2)
    (marking_mode : YoungGenerationMarkingVisitorMode) (visitation_mode : ObjectVisitationMode)
    (o : HeapObject) (s : VisitorState) :
    ClaimStep s (ClaimAndDispatch B heap Visit marking_mode visitation_mode o s).2 := by
  by_cases hm : o ∈ s.marked
  · rw [ClaimAndDispatch_marked B heap Visit marking_mode visitation_mode o s hm]
    exact ClaimStep_of_same s (s.record (Event.TryMark o)) rfl rfl
      (by simp [countedObjects, Event.countedObject])
  · rw [ClaimAndDispatch_unmarked B heap Visit marking_mode visitation_mode o s hm]
    split
    · exact ClaimStep_push o s hm
    · split
      · exact ClaimStep_count B o _ _ s hm
      · split
        · exact ClaimStep_direct B o _ _ Visit hVisit B.ALIGN_TO_ALLOCATION_ALIGNMENT s hm
        · exact ClaimStep_push o s hm

theorem ClaimStep_VisitObjectViaSlot (B : Build) (heap : Heap)
    (Visit : Map → HeapObject → VisitorState → Int × VisitorState)
    (hVisit : ∀ m x t, ClaimStep t (Visit m x t).2)
    (marking_mode : YoungGenerationMarkingVisitorMode) (visitation_mode : ObjectVisitationMode)
    (slot_treatment_mode : SlotTreatmentMode) (slot : Slot) (s : VisitorState) :
    ClaimStep s
      (VisitObjectViaSlot B heap Visit marking_mode visitation_mode slot_treatment_mode
        slot s).2 := by
  have h1 := ClaimStep_ResolveReferent B heap marking_mode slot_treatment_mode slot s
  cases hr : (ResolveReferent B heap marking_mode slot_treatment_mode slot s).1 with
  | none =>
    rw [VisitObjectViaSlot_of_none B heap Visit marking_mode visitation_mode slot_treatment_mode
      slot s hr]
    exact h1
  | some o =>
    rw [VisitObjectViaSlot_of_some B heap Visit marking_mode visitation_mode slot_treatment_mode
      slot s o hr]
    exact ClaimStep_trans h1
      (ClaimStep_ClaimAndDispatch B heap Visit hVisit marking_mode visitation_mode o _)

theorem ClaimStep_VisitAll (B : Build) (heap : Heap)
    (Visit : Map → HeapObject → VisitorState → Int × VisitorState)
    (hVisit : ∀ m x t, ClaimStep t (Visit m x t).2)
    (marking_mode : YoungGenerationMarkingVisitorMode) (calls : List SlotVisit)
    (s : VisitorState) :
    ClaimStep s (VisitAll B heap Visit marking_mode calls s) := by
  induction calls generalizing s with
  | nil => exact ClaimStep_refl s
  | cons c calls ih =>
    exact ClaimStep_trans
      (ClaimStep_VisitObjectViaSlot B heap Visit hVisit marking_mode c.visitation_mode
        c.slot_treatment_mode c.slot s)
      (ih _)

theorem ClaimStep_VisitPointersImpl (B : Build) (heap : Heap)
    (Visit : Map → HeapObject → VisitorState → Int × VisitorState)
    (hVisit : ∀ m x t, ClaimStep t (Visit m x t).2)
    (marking_mode : YoungGenerationMarkingVisitorMode) (host : HeapObject) (start end_ : Slot)
    (s : VisitorState) :
    ClaimStep s (VisitPointersImpl B heap Visit marking_mode host start end_ s) := by
  unfold VisitPointersImpl
  generalize List.range' start (end_ - start) = slots
  induction slots generalizing s with
  | nil => exact ClaimStep_refl s
  | cons slot slots ih =>
    rw [List.foldl_cons]
    refine ClaimStep_trans ?_ (ih _)
    split
    · exact ClaimStep_VisitObjectViaSlot B heap Visit hVisit marking_mode _ _ slot s
    · exact ClaimStep_VisitObjectViaSlot B heap Visit hVisit marking_mode _ _ slot s

/-- C10 (exactly once per visitor). Model `TryMark` as test-and-set on the mark set, and let
`Parent::Visit` itself respect the discipline stated here. Then for every `VisitObjectViaSlot`
call, in any mode and on any state, the mark set only grows and every object the call pushes
to the worklist or records in the live-bytes cache was unmarked before the call and is marked
after it. Hence, over every sequence of calls by one visitor, the same holds from the first
state to the last, and a visitor started with an empty worklist and no recorded object ends
with no object pushed twice and no object's size recorded twice. -/
theorem exactly_once_per_visitor (B : Build) (heap : Heap)
    (Visit : Map → HeapObject → VisitorState → Int × VisitorState)
    (hVisit : ∀ m x t, ClaimStep t (Visit m x t).2)
    (marking_mode : YoungGenerationMarkingVisitorMode) (calls : List SlotVisit)
    (s : VisitorState) :
    (∀ (c : SlotVisit) (t : VisitorState),
        ClaimStep t (VisitObjectViaSlot B heap Visit marking_mode c.visitation_mode
          c.slot_treatment_mode c.slot t).2)
      ∧ ClaimStep s (VisitAll B heap Visit marking_mode calls s)
      ∧ (∀ o ∈ s.marked, o ∈ (VisitAll B heap Visit marking_mode calls s).marked)
      ∧ (s.worklist = [] →
          (VisitAll B heap Visit marking_mode calls s).worklist.Nodup
            ∧ ∀ o ∈ (VisitAll B heap Visit marking_mode calls s).worklist,
                o ∉ s.marked ∧ o ∈ (VisitAll B heap Visit marking_mode calls s).marked)
      ∧ (countedObjects s.trace = [] →
          (countedObjects (VisitAll B heap Visit marking_mode calls s).trace).Nodup
            ∧ ∀ o ∈ countedObjects (VisitAll B heap Visit marking_mode calls s).trace,
                o ∉ s.marked ∧ o ∈ (VisitAll B heap Visit marking_mode calls s).marked) := by
  have hall := ClaimStep_VisitAll B heap Visit hVisit marking_mode calls s
  refine ⟨fun c t => ClaimStep_VisitObjectViaSlot B heap Visit hVisit marking_mode _ _ _ t,
    hall, hall.1, ?_, ?_⟩
  · intro hw
    obtain ⟨_, ⟨pushed, hp, np⟩, _⟩ := hall
    rw [hw, List.nil_append] at hp
    rw [hp]
    exact np
  · intro hc
    obtain ⟨_, _, ⟨counted, hcn, nc⟩⟩ := hall
    rw [hc, List.nil_append] at hcn
    rw [hcn]
    exact nc

/-- Witness of `exactly_once_per_visitor`: four visits with a `Parent::Visit` that traverses a
body through `VisitPointersImpl`; they push `70` once and record `60` and `10` once each. -/
theorem exactly_once_per_visitor_witness :
    (VisitAll exampleBuild exampleHeap exampleBodyVisit
        YoungGenerationMarkingVisitorMode.kParallel exampleVisits exampleState).worklist.Nodup
      ∧ (countedObjects (VisitAll exampleBuild exampleHeap exampleBodyVisit
          YoungGenerationMarkingVisitorMode.kParallel exampleVisits exampleState).trace).Nodup :=
  ⟨((exactly_once_per_visitor exampleBuild exampleHeap exampleBodyVisit
        (fun _ host t => ClaimStep_VisitPointersImpl exampleBuild exampleHeap exampleVisit
          (fun _ _ u => ClaimStep_refl u) YoungGenerationMarkingVisitorMode.kParallel host 4 8 t)
        YoungGenerationMarkingVisitorMode.kParallel exampleVisits exampleState).2.2.2.1 rfl).1,
    ((exactly_once_per_visitor exampleBuild exampleHeap exampleBodyVisit
        (fun _ host t => ClaimStep_VisitPointersImpl exampleBuild exampleHeap exampleVisit
          (fun _ _ u => ClaimStep_refl u) YoungGenerationMarkingVisitorMode.kParallel host 4 8 t)
        YoungGenerationMarkingVisitorMode.kParallel exampleVisits exampleState).2.2.2.2 rfl).1⟩

theorem IncrementLiveBytesCached_data (p : CacheParams) (chunk : MemoryChunk) (by_ : Int)
    (lb : LiveBytes) :
    ∃ n, (IncrementLiveBytesCached p chunk by_ lb).live_bytes_data_
      = lb.live_bytes_data_.set (entryIndex p chunk) (chunk, n) := by
  unfold IncrementLiveBytesCached
  simp only []
  split
  · exact ⟨_, rfl⟩
  · exact ⟨_, rfl⟩

theorem Reachable_index (p : CacheParams) (lb : LiveBytes) (h : Reachable p lb) :
    ∀ i c n, lb.live_bytes_data_[i]? = some (c, n) → c ≠ 0 → i = entryIndex p c := by
  induction h with
  | fresh =>
    intro i c n hi hc
    simp only [LiveBytes.fresh, List.getElem?_replicate] at hi
    split at hi
    · simp only [Option.some.injEq, Prod.mk.injEq] at hi
      exact absurd hi.1.symm hc
    · exact absurd hi (by simp)
  | step chunk by_ _ _ ih =>
    intro i c n hi hc
    obtain ⟨m, hm⟩ := IncrementLiveBytesCached_data p chunk by_ _
    rw [hm, List.getElem?_set] at hi
    split at hi
    · rename_i heq
      split at hi
      · simp only [Option.some.injEq, Prod.mk.injEq] at hi
        rw [← heq, ← hi.1]
      · exact absurd hi (by simp)
    · exact ih i c n hi hc

/-- C19 (direct-mapped cache invariant). In every live-bytes cache state reachable from the
empty cache by `IncrementLiveBytesCached` calls with non-null chunks, an entry without a chunk
has count 0, an entry with the non-null chunk `c` sits at index `hash(c) & kEntriesMask`, and so
no chunk occupies two entries at once. -/
theorem direct_mapped_invariant (p : CacheParams) (lb : LiveBytes) (hreach : Reachable p lb) :
    (∀ (i : Nat) (n : Int), lb.live_bytes_data_[i]? = some (0, n) → n = 0)
      ∧ (∀ (i : Nat) (c : MemoryChunk) (n : Int),
          lb.live_bytes_data_[i]? = some (c, n) → c ≠ 0 → i = entryIndex p c)
      ∧ (∀ (i j : Nat) (c : MemoryChunk) (n m : Int), lb.live_bytes_data_[i]? = some (c, n) →
          lb.live_bytes_data_[j]? = some (c, m) → c ≠ 0 → i = j) := by
  have hidx := Reachable_index p lb hreach
  refine ⟨?_, hidx, ?_⟩
  · intro i n hi
    obtain ⟨hlt, hget⟩ := List.getElem?_eq_some.1 hi
    have hmem : ((0 : MemoryChunk), n) ∈ lb.live_bytes_data_ := by
      rw [← hget]; exact List.getElem_mem hlt
    exact Reachable_NullZero p lb hreach _ hmem rfl
  · intro i j c n m hi hj hc
    rw [hidx i c n hi hc, hidx j c m hj hc]

/-- Witness of `direct_mapped_invariant`: after the four example calls, entry `1` holds
chunk `1` with 24 bytes, and `1` is the index of chunk `1`. -/
theorem direct_mapped_invariant_witness :
    (IncrementAll exampleParams exampleCalls
        (LiveBytes.fresh exampleParams)).live_bytes_data_[1]? = some (1, 24)
      ∧ 1 = entryIndex exampleParams 1 :=
  ⟨by decide,
    (direct_mapped_invariant exampleParams
      (IncrementAll exampleParams exampleCalls (LiveBytes.fresh exampleParams))
      (Reachable.step 2 32 (Reachable.step 1 24 (Reachable.step 5 16
        (Reachable.step 1 8 Reachable.fresh (by decide)) (by decide)) (by decide))
        (by decide))).2.1 1 1 24 (by decide) (by decide)⟩

/-! ## Theorems: range traversal -/

theorem isSlotVisitCall_of_untouched (e : Event) (h : e.touchesMarking = false) :
    e.isSlotVisitCall = true := by
  cases e <;> simp_all [Event.touchesMarking, Event.isSlotVisitCall]

/-- With `kPushToWorklist` the second part of the visit does not use `Parent::Visit`. -/
theorem ClaimAndDispatch_push_irrelevant (B : Build) (heap : Heap)
    (Visit Visit' : Map → HeapObject → VisitorState → Int × VisitorState)
    (marking_mode : YoungGenerationMarkingVisitorMode) (o : HeapObject) (s : VisitorState) :
    ClaimAndDispatch B heap Visit marking_mode ObjectVisitationMode.kPushToWorklist o s
      = ClaimAndDispatch B heap Visit' marking_mode ObjectVisitationMode.kPushToWorklist o s := by
  by_cases hm : o ∈ s.marked
  · rw [ClaimAndDispatch_marked B heap Visit _ _ o s hm,
      ClaimAndDispatch_marked B heap Visit' _ _ o s hm]
  · rw [ClaimAndDispatch_unmarked B heap Visit _ _ o s hm,
      ClaimAndDispatch_unmarked B heap Visit' _ _ o s hm]
    simp

theorem VisitObjectViaSlot_push_irrelevant (B : Build) (heap : Heap)
    (Visit Visit' : Map → HeapObject → VisitorState → Int × VisitorState)
    (marking_mode : YoungGenerationMarkingVisitorMode)
    (slot_treatment_mode : SlotTreatmentMode) (slot : Slot) (s : VisitorState) :
    VisitObjectViaSlot B heap Visit marking_mode ObjectVisitationMode.kPushToWorklist
        slot_treatment_mode slot s
      = VisitObjectViaSlot B heap Visit' marking_mode ObjectVisitationMode.kPushToWorklist
          slot_treatment_mode slot s := by
  cases hr : (ResolveReferent B heap marking_mode slot_treatment_mode slot s).1 with
  | none =>
    rw [VisitObjectViaSlot_of_none B heap Visit _ _ _ slot s hr,
      VisitObjectViaSlot_of_none B heap Visit' _ _ _ slot s hr]
  | some o =>
    rw [VisitObjectViaSlot_of_some B heap Visit _ _ _ slot s o hr,
      VisitObjectViaSlot_of_some B heap Visit' _ _ _ slot s o hr,
      ClaimAndDispatch_push_irrelevant B heap Visit Visit']

/-- The calls the second part of the visit adds under `kPushToWorklist`, and the fields it
leaves alone. -/
theorem ClaimAndDispatch_push_effects (B : Build) (heap : Heap)
    (Visit : Map → HeapObject → VisitorState → Int × VisitorState)
    (marking_mode : YoungGenerationMarkingVisitorMode) (o : HeapObject) (s : VisitorState) :
    (ClaimAndDispatch B heap Visit marking_mode ObjectVisitationMode.kPushToWorklist o s).2.memory
        = s.memory
      ∧ (ClaimAndDispatch B heap Visit marking_mode ObjectVisitationMode.kPushToWorklist o
          s).2.ephemeron_table_list_local_ = s.ephemeron_table_list_local_
      ∧ (ClaimAndDispatch B heap Visit marking_mode ObjectVisitationMode.kPushToWorklist o
          s).2.shortcut_strings_ = s.shortcut_strings_
      ∧ (∀ x ∈ (ClaimAndDispatch B heap Visit marking_mode ObjectVisitationMode.kPushToWorklist o
          s).2.marked, x ∈ s.marked ∨ x = o)
      ∧ ∃ evs, (ClaimAndDispatch B heap Visit marking_mode ObjectVisitationMode.kPushToWorklist o
            s).2.trace = s.trace ++ evs
          ∧ ∀ e ∈ evs, e.isSlotVisitCall = true := by
  by_cases hm : o ∈ s.marked
  · rw [ClaimAndDispatch_marked B heap Visit _ _ o s hm]
    exact ⟨rfl, rfl, rfl, fun x hx => Or.inl hx, [Event.TryMark o], rfl,
      fun e he => by rw [List.mem_singleton.1 he]; rfl⟩
  · rw [ClaimAndDispatch_unmarked B heap Visit _ _ o s hm]
    have hmk : ∀ x ∈ o :: s.marked, x ∈ s.marked ∨ x = o := fun x hx => by
      rcases List.mem_cons.1 hx with h | h
      · exact Or.inr h
      · exact Or.inl h
    have hpush : ∀ e ∈ [Event.TryMark o, Event.Push o], e.isSlotVisitCall = true := by
      intro e he
      simp only [List.mem_cons, List.mem_singleton, List.not_mem_nil, or_false] at he
      rcases he with h | h <;> rw [h] <;> rfl
    split
    · exact ⟨rfl, rfl, rfl, hmk, [Event.TryMark o, Event.Push o], by simp [Push, Claimed], hpush⟩
    · split
      · refine ⟨rfl, rfl, rfl, hmk,
          [Event.TryMark o, Event.IncrementLiveBytesCached o (heap.FromHeapObject o)
            (B.ALIGN_TO_ALLOCATION_ALIGNMENT (heap.SizeFromMap o (heap.map o)))],
          by simp [IncrementLiveBytesCachedFor, Claimed], ?_⟩
        intro e he
        simp only [List.mem_cons, List.mem_singleton, List.not_mem_nil, or_false] at he
        rcases he with h | h <;> rw [h] <;> rfl
      · simp only [reduceCtorEq, if_false]
        exact ⟨rfl, rfl, rfl, hmk, [Event.TryMark o, Event.Push o], by simp [Push, Claimed],
          hpush⟩

theorem ShortCutStrings_memory_other (B : Build) (heap : Heap) (slot : Slot) (o : HeapObject)
    (s : VisitorState) (x : Slot) (hx : x ≠ slot) :
    (ShortCutStrings B heap slot o s).2.2.memory x = s.memory x := by
  simp only [ShortCutStrings]
  repeat' split
  all_goals simp [StoreHeapObject, hx]

/-- The first part of the visit writes no slot other than the visited one. -/
theorem ResolveReferent_memory_other (B : Build) (heap : Heap)
    (marking_mode : YoungGenerationMarkingVisitorMode) (slot_treatment_mode : SlotTreatmentMode)
    (slot : Slot) (s : VisitorState) (x : Slot) (hx : x ≠ slot) :
    (ResolveReferent B heap marking_mode slot_treatment_mode slot s).2.memory x
      = s.memory x := by
  unfold ResolveReferent
  simp only [ResolveReferent_result]
  cases (s.memory slot).GetHeapObject with
  | none => rfl
  | some o =>
    simp only []
    generalize hs1 : (if (B.THREAD_SANITIZER && B.EnableConcurrentVisitation marking_mode) = true
        then s.record (Event.SynchronizedHeapLoad (heap.FromHeapObject o)) else s) = s1
    have hmem : s1.memory = s.memory := by
      rw [← hs1]; split <;> rfl
    split
    · rw [hmem]
    · split
      · show (ShortCutStrings B heap slot o s1).2.2.memory x = _
        rw [ShortCutStrings_memory_other B heap slot o s1 x hx, hmem]
      · rw [hmem]

/-- A slot visit with `kPushToWorklist`: it writes no other slot, leaves the ephemeron list
and `shortcut_strings_` alone, marks at most the object it continues with, and makes only the
calls of a slot visit. -/
theorem VisitObjectViaSlot_push_effects (B : Build) (heap : Heap)
    (Visit : Map → HeapObject → VisitorState → Int × VisitorState)
    (marking_mode : YoungGenerationMarkingVisitorMode)
    (slot_treatment_mode : SlotTreatmentMode) (slot : Slot) (s : VisitorState) :
    (∀ x, x ≠ slot →
        (VisitObjectViaSlot B heap Visit marking_mode ObjectVisitationMode.kPushToWorklist
          slot_treatment_mode slot s).2.memory x = s.memory x)
      ∧ (VisitObjectViaSlot B heap Visit marking_mode ObjectVisitationMode.kPushToWorklist
          slot_treatment_mode slot s).2.ephemeron_table_list_local_
          = s.ephemeron_table_list_local_
      ∧ (VisitObjectViaSlot B heap Visit marking_mode ObjectVisitationMode.kPushToWorklist
          slot_treatment_mode slot s).2.shortcut_strings_ = s.shortcut_strings_
      ∧ (∀ x ∈ (VisitObjectViaSlot B heap Visit marking_mode ObjectVisitationMode.kPushToWorklist
          slot_treatment_mode slot s).2.marked,
          x ∈ s.marked
            ∨ (ResolveReferent B heap marking_mode slot_treatment_mode slot s).1 = some x)
      ∧ ∃ evs, (VisitObjectViaSlot B heap Visit marking_mode ObjectVisitationMode.kPushToWorklist
            slot_treatment_mode slot s).2.trace = s.trace ++ evs
          ∧ ∀ e ∈ evs, e.isSlotVisitCall = true := by
  obtain ⟨h1, _, _, h4, h5, evs, h6, h7⟩ :=
    ResolveReferent_state B heap marking_mode slot_treatment_mode slot s
  have hmem := ResolveReferent_memory_other B heap marking_mode slot_treatment_mode slot s
  have h7' : ∀ e ∈ evs, e.isSlotVisitCall = true :=
    fun e he => isSlotVisitCall_of_untouched e (h7 e he)
  cases hr : (ResolveReferent B heap marking_mode slot_treatment_mode slot s).1 with
  | none =>
    rw [VisitObjectViaSlot_of_none B heap Visit _ _ _ slot s hr]
    exact ⟨hmem, h5, h4, fun x hx => Or.inl (h1 ▸ hx), evs, h6, h7'⟩
  | some o =>
    rw [VisitObjectViaSlot_of_some B heap Visit _ _ _ slot s o hr]
    obtain ⟨c1, c2, c3, c4, evs2, c5, c6⟩ := ClaimAndDispatch_push_effects B heap Visit
      marking_mode o (ResolveReferent B heap marking_mode slot_treatment_mode slot s).2
    refine ⟨fun x hx => by rw [c1]; exact hmem x hx, c2.trans h5, c3.trans h4, ?_,
      evs ++ evs2, by rw [c5, h6, List.append_assoc], ?_⟩
    · intro x hx
      rcases c4 x hx with h | h
      · exact Or.inl (h1 ▸ h)
      · exact Or.inr (by rw [h])
    · intro e he
      rcases List.mem_append.1 he with h | h
      · exact h7' e h
      · exact c6 e h

theorem VisitAll_append (B : Build) (heap : Heap)
    (Visit : Map → HeapObject → VisitorState → Int × VisitorState)
    (marking_mode : YoungGenerationMarkingVisitorMode) (l₁ l₂ : List SlotVisit)
    (s : VisitorState) :
    VisitAll B heap Visit marking_mode (l₁ ++ l₂) s
      = VisitAll B heap Visit marking_mode l₂ (VisitAll B heap Visit marking_mode l₁ s) := by
  simp [VisitAll, List.foldl_append]

theorem VisitAll_cons (B : Build) (heap : Heap)
    (Visit : Map → HeapObject → VisitorState → Int × VisitorState)
    (marking_mode : YoungGenerationMarkingVisitorMode) (c : SlotVisit) (l : List SlotVisit)
    (s : VisitorState) :
    VisitAll B heap Visit marking_mode (c :: l) s
      = VisitAll B heap Visit marking_mode l
          (VisitObjectViaSlot B heap Visit marking_mode c.visitation_mode c.slot_treatment_mode
            c.slot s).2 := rfl

theorem VisitPointersImpl_eq_VisitAll (B : Build) (heap : Heap)
    (Visit : Map → HeapObject → VisitorState → Int × VisitorState)
    (marking_mode : YoungGenerationMarkingVisitorMode) (host : HeapObject) (start end_ : Slot)
    (s : VisitorState) :
    VisitPointersImpl B heap Visit marking_mode host start end_ s
      = VisitAll B heap Visit marking_mode (rangeVisits marking_mode start end_) s := by
  unfold VisitPointersImpl VisitAll rangeVisits rangeTreatment
  rw [List.foldl_map]
  congr 1
  funext t slot
  split <;> rfl

theorem rangeVisits_split (marking_mode : YoungGenerationMarkingVisitorMode)
    (start mid end_ : Slot) (h₁ : start ≤ mid) (h₂ : mid ≤ end_) :
    rangeVisits marking_mode start end_
      = rangeVisits marking_mode start mid ++ rangeVisits marking_mode mid end_ := by
  unfold rangeVisits
  rw [← List.map_append]
  congr 1
  have h := List.range'_append_1 start (mid - start) (end_ - mid)
  have e1 : start + (mid - start) = mid :=
    (show ∀ a b : Nat, a ≤ b → a + (b - a) = b by intro a b h; omega) start mid h₁
  have e2 : end_ - mid + (mid - start) = end_ - start :=
    (show ∀ a b c : Nat, a ≤ b → b ≤ c → c - b + (b - a) = c - a by intro a b c h h'; omega)
      start mid end_ h₁ h₂
  rw [e1, e2] at h
  exact h.symm

theorem VisitAll_push_irrelevant (B : Build) (heap : Heap)
    (Visit Visit' : Map → HeapObject → VisitorState → Int × VisitorState)
    (marking_mode : YoungGenerationMarkingVisitorMode) (calls : List SlotVisit)
    (hcalls : ∀ c ∈ calls, c.visitation_mode = ObjectVisitationMode.kPushToWorklist)
    (s : VisitorState) :
    VisitAll B heap Visit marking_mode calls s = VisitAll B heap Visit' marking_mode calls s := by
  induction calls generalizing s with
  | nil => rfl
  | cons c calls ih =>
    rw [VisitAll_cons, VisitAll_cons, hcalls c (List.mem_cons_self _ _),
      VisitObjectViaSlot_push_irrelevant B heap Visit Visit',
      ih (fun x hx => hcalls x (List.mem_cons_of_mem _ hx))]

/-- A sequence of slot visits with `kPushToWorklist` makes only the calls of a slot visit and
leaves the ephemeron list alone. -/
theorem VisitAll_push_effects (B : Build) (heap : Heap)
    (Visit : Map → HeapObject → VisitorState → Int × VisitorState)
    (marking_mode : YoungGenerationMarkingVisitorMode) (calls : List SlotVisit)
    (hcalls : ∀ c ∈ calls, c.visitation_mode = ObjectVisitationMode.kPushToWorklist)
    (s : VisitorState) :
    (VisitAll B heap Visit marking_mode calls s).ephemeron_table_list_local_
        = s.ephemeron_table_list_local_
      ∧ ∃ evs, (VisitAll B heap Visit marking_mode calls s).trace = s.trace ++ evs
          ∧ ∀ e ∈ evs, e.isSlotVisitCall = true := by
  induction calls generalizing s with
  | nil => exact ⟨rfl, [], (List.append_nil _).symm, fun e he => absurd he (List.not_mem_nil e)⟩
  | cons c calls ih =>
    rw [VisitAll_cons, hcalls c (List.mem_cons_self _ _)]
    obtain ⟨_, a2, _, _, evs, a5, a6⟩ := VisitObjectViaSlot_push_effects B heap Visit
      marking_mode c.slot_treatment_mode c.slot s
    obtain ⟨b1, evs2, b2, b3⟩ := ih (fun x hx => hcalls x (List.mem_cons_of_mem _ hx))
      (VisitObjectViaSlot B heap Visit marking_mode ObjectVisitationMode.kPushToWorklist
        c.slot_treatment_mode c.slot s).2
    refine ⟨b1.trans a2, evs ++ evs2, by rw [b2, a5, List.append_assoc], ?_⟩
    intro e he
    rcases List.mem_append.1 he with h | h
    · exact a6 e h
    · exact b3 e h

theorem rangeVisits_push (marking_mode : YoungGenerationMarkingVisitorMode) (start end_ : Slot) :
    ∀ c ∈ rangeVisits marking_mode start end_,
      c.visitation_mode = ObjectVisitationMode.kPushToWorklist := by
  intro c hc
  simp only [rangeVisits, List.mem_map] at hc
  obtain ⟨_, _, rfl⟩ := hc
  rfl

/-- C18 (range traversal). The function `VisitPointersImpl(host, start, end)` is the sequence
of per-slot visits of the slots `start ≤ s < end`, each slot once and in ascending order, all
with `kPushToWorklist`; it does nothing when `start ≥ end`; it does not depend on `host`;
visiting `[start, end)` equals visiting `[start, mid)` and then `[mid, end)`; and it never calls
`Parent::Visit`: the result is the same for every `Parent::Visit`, and the calls it adds are
those of slot visits. -/
theorem range_traversal (B : Build) (heap : Heap)
    (Visit : Map → HeapObject → VisitorState → Int × VisitorState)
    (marking_mode : YoungGenerationMarkingVisitorMode) (host : HeapObject) (start end_ : Slot)
    (s : VisitorState) :
    VisitPointersImpl B heap Visit marking_mode host start end_ s
        = VisitAll B heap Visit marking_mode (rangeVisits marking_mode start end_) s
      ∧ (∀ c ∈ rangeVisits marking_mode start end_,
          c.visitation_mode = ObjectVisitationMode.kPushToWorklist)
      ∧ (∀ x, x ∈ (rangeVisits marking_mode start end_).map SlotVisit.slot
          ↔ start ≤ x ∧ x < end_)
      ∧ ((rangeVisits marking_mode start end_).map SlotVisit.slot).Pairwise (fun a b => a < b)
      ∧ (end_ ≤ start → VisitPointersImpl B heap Visit marking_mode host start end_ s = s)
      ∧ (∀ host', VisitPointersImpl B heap Visit marking_mode host' start end_ s
          = VisitPointersImpl B heap Visit marking_mode host start end_ s)
      ∧ (∀ mid, start ≤ mid → mid ≤ end_ →
          VisitPointersImpl B heap Visit marking_mode host start end_ s
            = VisitPointersImpl B heap Visit marking_mode host mid end_
                (VisitPointersImpl B heap Visit marking_mode host start mid s))
      ∧ (∀ Visit', VisitPointersImpl B heap Visit' marking_mode host start end_ s
          = VisitPointersImpl B heap Visit marking_mode host start end_ s)
      ∧ ∃ evs, (VisitPointersImpl B heap Visit marking_mode host start end_ s).trace
            = s.trace ++ evs
          ∧ ∀ e ∈ evs, e.isSlotVisitCall = true ∧ ∀ m o, e ≠ Event.Visit m o := by
  have hslots : (rangeVisits marking_mode start end_).map SlotVisit.slot
      = List.range' start (end_ - start) := by
    simp [rangeVisits, List.map_map, Function.comp_def]
  refine ⟨VisitPointersImpl_eq_VisitAll B heap Visit marking_mode host start end_ s,
    rangeVisits_push marking_mode start end_, ?_, ?_, ?_, ?_, ?_, ?_, ?_⟩
  · intro x
    rw [hslots, List.mem_range'_1]
    exact (show ∀ a b y : Nat, (a ≤ y ∧ y < a + (b - a)) ↔ (a ≤ y ∧ y < b) by
      intro a b y; omega) start end_ x
  · rw [hslots]
    exact List.pairwise_lt_range' start (end_ - start)
  · intro h
    have h0 : end_ - start = 0 := Nat.sub_eq_zero_of_le h
    simp [VisitPointersImpl, h0]
  · intro host'
    rfl
  · intro mid h₁ h₂
    rw [VisitPointersImpl_eq_VisitAll, VisitPointersImpl_eq_VisitAll,
      VisitPointersImpl_eq_VisitAll, rangeVisits_split marking_mode start mid end_ h₁ h₂,
      VisitAll_append]
  · intro Visit'
    rw [VisitPointersImpl_eq_VisitAll, VisitPointersImpl_eq_VisitAll]
    exact VisitAll_push_irrelevant B heap Visit' Visit marking_mode _
      (rangeVisits_push marking_mode start end_) s
  · rw [VisitPointersImpl_eq_VisitAll]
    obtain ⟨_, evs, h1, h2⟩ := VisitAll_push_effects B heap Visit marking_mode _
      (rangeVisits_push marking_mode start end_) s
    refine ⟨evs, h1, fun e he => ⟨h2 e he, ?_⟩⟩
    intro m o heq
    have := h2 e he
    rw [heq] at this
    exact absurd this (by simp [Event.isSlotVisitCall])

/-- Witness of `range_traversal`: visiting slots `1` to `7` equals visiting `1` to `3` and
then `4` to `7`. -/
theorem range_traversal_witness :
    VisitPointersImpl exampleBuild exampleHeap exampleVisit
        YoungGenerationMarkingVisitorMode.kParallel 60 1 8 exampleState
      = VisitPointersImpl exampleBuild exampleHeap exampleVisit
          YoungGenerationMarkingVisitorMode.kParallel 60 4 8
          (VisitPointersImpl exampleBuild exampleHeap exampleVisit
            YoungGenerationMarkingVisitorMode.kParallel 60 1 4 exampleState) :=
  (range_traversal exampleBuild exampleHeap exampleVisit
    YoungGenerationMarkingVisitorMode.kParallel 60 1 8 exampleState).2.2.2.2.2.2.1 4
    (by decide) (by decide)

/-! ## Theorems: string shortcuts -/

theorem Loaded_fields (B : Build) (heap : Heap)
    (marking_mode : YoungGenerationMarkingVisitorMode) (o : HeapObject) (s : VisitorState) :
    (Loaded B heap marking_mode o s).memory = s.memory
      ∧ (Loaded B heap marking_mode o s).shortcut_strings_ = s.shortcut_strings_ := by
  unfold Loaded
  split <;> exact ⟨rfl, rfl⟩

/-- The first part of the visit on a young referent, written with `ShortCutStrings`. -/
theorem ResolveReferent_young_eq (B : Build) (heap : Heap)
    (marking_mode : YoungGenerationMarkingVisitorMode) (slot_treatment_mode : SlotTreatmentMode)
    (slot : Slot) (s : VisitorState) (o : HeapObject)
    (h : (s.memory slot).GetHeapObject = some o) (hyoung : heap.InYoungGeneration o = true) :
    ResolveReferent B heap marking_mode slot_treatment_mode slot s
      = if B.V8_MINORMS_STRING_SHORTCUTTING = true
            ∧ slot_treatment_mode = SlotTreatmentMode.kReadWrite then
          (if (ShortCutStrings B heap slot o (Loaded B heap marking_mode o s)).1 then
              some (ShortCutStrings B heap slot o (Loaded B heap marking_mode o s)).2.1
            else none,
            (ShortCutStrings B heap slot o (Loaded B heap marking_mode o s)).2.2)
        else (some o, Loaded B heap marking_mode o s) := by
  unfold ResolveReferent
  simp only [ResolveReferent_result, h, hyoung, Loaded, Bool.not_true, Bool.false_eq_true,
    if_false, Bool.and_eq_true, decide_eq_true_eq]

/-- Where `ShortCutStrings` does not apply it returns true and changes nothing. -/
theorem ShortCutStrings_noop (B : Build) (heap : Heap) (slot : Slot) (o : HeapObject)
    (s : VisitorState)
    (hcond : s.shortcut_strings_ = false
      ∨ (¬ IsThinString B heap o
          ∧ ¬ (heap.map o = B.kConsOneByteStringMap ∨ heap.map o = B.kConsTwoByteStringMap))
      ∨ (IsConsString B heap o
          ∧ (heap.visitor_id (heap.map o) ≠ B.kVisitShortcutCandidate
              ∨ heap.second o ≠ B.kempty_string))) :
    ShortCutStrings B heap slot o s = (true, o, s) := by
  simp only [ShortCutStrings]
  repeat' split
  all_goals simp_all [IsThinString, IsConsString]

theorem ResolveReferent_readonly_memory (B : Build) (heap : Heap)
    (marking_mode : YoungGenerationMarkingVisitorMode) (slot : Slot) (s : VisitorState) :
    (ResolveReferent B heap marking_mode SlotTreatmentMode.kReadOnly slot s).2.memory
      = s.memory := by
  cases hget : (s.memory slot).GetHeapObject with
  | none => simp [ResolveReferent, hget]
  | some o =>
    by_cases hyoung : heap.InYoungGeneration o = true
    · rw [ResolveReferent_young_eq B heap marking_mode _ slot s o hget hyoung]
      simp only [reduceCtorEq, and_false, if_false]
      exact (Loaded_fields B heap marking_mode o s).1
    · have hold : heap.InYoungGeneration o = false := by simpa using hyoung
      exact (ResolveReferent_old B heap marking_mode _ slot s o hget hold).2

/-- C20 (shortcut is a no-op when it does not apply). Suppose that whenever the slot refers
to a young object, `shortcut_strings_` is false, or the object's map is none of the four thin and
cons string maps, or the object is a cons string that is no shortcut candidate or whose right
child is not the empty string. Then `VisitObjectViaSlot` with `kReadWrite` stores nothing to the
slot and is equal, in its return value and in the whole resulting state, to the visit with
`kReadOnly`. -/
theorem shortcut_noop (B : Build) (heap : Heap)
    (Visit : Map → HeapObject → VisitorState → Int × VisitorState)
    (marking_mode : YoungGenerationMarkingVisitorMode) (visitation_mode : ObjectVisitationMode)
    (slot : Slot) (s : VisitorState)
    (hcond : ∀ o, (s.memory slot).GetHeapObject = some o → heap.InYoungGeneration o = true →
      s.shortcut_strings_ = false
        ∨ (¬ IsThinString B heap o
            ∧ ¬ (heap.map o = B.kConsOneByteStringMap ∨ heap.map o = B.kConsTwoByteStringMap))
        ∨ (IsConsString B heap o
            ∧ (heap.visitor_id (heap.map o) ≠ B.kVisitShortcutCandidate
                ∨ heap.second o ≠ B.kempty_string))) :
    VisitObjectViaSlot B heap Visit marking_mode visitation_mode SlotTreatmentMode.kReadWrite
        slot s
        = VisitObjectViaSlot B heap Visit marking_mode visitation_mode
            SlotTreatmentMode.kReadOnly slot s
      ∧ ResolveReferent B heap marking_mode SlotTreatmentMode.kReadWrite slot s
          = ResolveReferent B heap marking_mode SlotTreatmentMode.kReadOnly slot s
      ∧ (ResolveReferent B heap marking_mode SlotTreatmentMode.kReadWrite slot s).2.memory
          = s.memory
      ∧ (visitation_mode = ObjectVisitationMode.kPushToWorklist →
          (VisitObjectViaSlot B heap Visit marking_mode visitation_mode
            SlotTreatmentMode.kReadWrite slot s).2.memory = s.memory) := by
  have hres : ResolveReferent B heap marking_mode SlotTreatmentMode.kReadWrite slot s
      = ResolveReferent B heap marking_mode SlotTreatmentMode.kReadOnly slot s := by
    cases hget : (s.memory slot).GetHeapObject with
    | none => simp [ResolveReferent, hget]
    | some o =>
      by_cases hyoung : heap.InYoungGeneration o = true
      · rw [ResolveReferent_young_eq B heap marking_mode _ slot s o hget hyoung,
          ResolveReferent_young_eq B heap marking_mode _ slot s o hget hyoung]
        have hsc := ShortCutStrings_noop B heap slot o (Loaded B heap marking_mode o s)
          (by rw [(Loaded_fields B heap marking_mode o s).2]; exact hcond o hget hyoung)
        simp only [hsc, and_true, reduceCtorEq, and_false, if_false, if_true]
        split <;> rfl
      · have hold : heap.InYoungGeneration o = false := by simpa using hyoung
        simp [ResolveReferent, hget, hold]
  have hV : VisitObjectViaSlot B heap Visit marking_mode visitation_mode
      SlotTreatmentMode.kReadWrite slot s
      = VisitObjectViaSlot B heap Visit marking_mode visitation_mode
          SlotTreatmentMode.kReadOnly slot s := by
    unfold VisitObjectViaSlot
    rw [hres]
  have hmem := ResolveReferent_readonly_memory B heap marking_mode slot s
  refine ⟨hV, hres, by rw [hres]; exact hmem, ?_⟩
  intro hvm
  subst hvm
  rw [hV]
  cases hr : (ResolveReferent B heap marking_mode SlotTreatmentMode.kReadOnly slot s).1 with
  | none =>
    rw [VisitObjectViaSlot_of_none B heap Visit _ _ _ slot s hr]
    exact hmem
  | some o =>
    rw [VisitObjectViaSlot_of_some B heap Visit _ _ _ slot s o hr,
      (ClaimAndDispatch_push_effects B heap Visit marking_mode o _).1]
    exact hmem

/-- Witness of `shortcut_noop`: slot `5` refers to the young object `60`, whose map is no
string map. -/
theorem shortcut_noop_witness :
    VisitObjectViaSlot exampleBuild exampleHeap exampleVisit
        YoungGenerationMarkingVisitorMode.kParallel ObjectVisitationMode.kVisitDirectly
        SlotTreatmentMode.kReadWrite 5 exampleState
      = VisitObjectViaSlot exampleBuild exampleHeap exampleVisit
          YoungGenerationMarkingVisitorMode.kParallel ObjectVisitationMode.kVisitDirectly
          SlotTreatmentMode.kReadOnly 5 exampleState :=
  (shortcut_noop exampleBuild exampleHeap exampleVisit
    YoungGenerationMarkingVisitorMode.kParallel ObjectVisitationMode.kVisitDirectly 5
    exampleState
    (fun o h _ => by
      have h60 : o = 60 := by
        have h' : some 60 = some o := h
        exact (Option.some.inj h').symm
      subst h60
      exact Or.inr (Or.inl (by decide)))).1

theorem ShortCutStrings_thin (B : Build) (heap : Heap) (slot : Slot) (o : HeapObject)
    (s : VisitorState) (hroots : B.V8_STATIC_ROOTS_BOOL = true)
    (hs : s.shortcut_strings_ = true) (hthin : IsThinString B heap o) :
    ShortCutStrings B heap slot o s
      = (false, heap.actual o, StoreHeapObject slot (heap.actual o) s) := by
  simp only [ShortCutStrings]
  repeat' split
  all_goals simp_all [IsThinString]

theorem ShortCutStrings_cons (B : Build) (heap : Heap) (slot : Slot) (o : HeapObject)
    (s : VisitorState) (hroots : B.V8_STATIC_ROOTS_BOOL = true)
    (hs : s.shortcut_strings_ = true) (hcons : IsConsString B heap o)
    (hcand : heap.visitor_id (heap.map o) = B.kVisitShortcutCandidate)
    (hempty : heap.second o = B.kempty_string) :
    ShortCutStrings B heap slot o s
      = (heap.InYoungGeneration (heap.first o), heap.first o,
          StoreHeapObject slot (heap.first o) s) := by
  simp only [ShortCutStrings]
  repeat' split
  all_goals simp_all [IsThinString, IsConsString]

/-- C11 (thin-string shortcut). With string shortcutting in effect and `kReadWrite`, when the
slot refers to a young thin string whose actual string is in the old generation, one
`VisitObjectViaSlot` stores the actual string into the slot and returns false, which is the
generation of the new referent; marks, worklist and live-bytes cache are unchanged, so neither
the thin string nor its target is marked, pushed or counted, and the only call added besides a
sanitizer load is the slot store. -/
theorem thin_string_shortcut (B : Build) (heap : Heap)
    (Visit : Map → HeapObject → VisitorState → Int × VisitorState)
    (marking_mode : YoungGenerationMarkingVisitorMode) (visitation_mode : ObjectVisitationMode)
    (slot : Slot) (s : VisitorState) (o : HeapObject)
    (heff : ShortcuttingInEffect B s)
    (h : (s.memory slot).GetHeapObject = some o) (hyoung : heap.InYoungGeneration o = true)
    (hthin : IsThinString B heap o)
    (hold : heap.InYoungGeneration (heap.actual o) = false) :
    VisitObjectViaSlot B heap Visit marking_mode visitation_mode SlotTreatmentMode.kReadWrite
        slot s
        = (false, StoreHeapObject slot (heap.actual o) (Loaded B heap marking_mode o s))
      ∧ (VisitObjectViaSlot B heap Visit marking_mode visitation_mode
          SlotTreatmentMode.kReadWrite slot s).2.memory slot = Tagged.strong (heap.actual o)
      ∧ (VisitObjectViaSlot B heap Visit marking_mode visitation_mode
          SlotTreatmentMode.kReadWrite slot s).1 = heap.InYoungGeneration (heap.actual o)
      ∧ MarkingUntouched s (VisitObjectViaSlot B heap Visit marking_mode visitation_mode
          SlotTreatmentMode.kReadWrite slot s).2
      ∧ (∀ x, x ≠ slot →
          (VisitObjectViaSlot B heap Visit marking_mode visitation_mode
            SlotTreatmentMode.kReadWrite slot s).2.memory x = s.memory x) := by
  obtain ⟨hB, hroots, hs⟩ := heff
  have hsc := ShortCutStrings_thin B heap slot o (Loaded B heap marking_mode o s) hroots
    (by rw [(Loaded_fields B heap marking_mode o s).2]; exact hs) hthin
  have hres : ResolveReferent B heap marking_mode SlotTreatmentMode.kReadWrite slot s
      = (none, StoreHeapObject slot (heap.actual o) (Loaded B heap marking_mode o s)) := by
    rw [ResolveReferent_young_eq B heap marking_mode _ slot s o h hyoung, hsc]
    simp [hB]
  have hV : VisitObjectViaSlot B heap Visit marking_mode visitation_mode
      SlotTreatmentMode.kReadWrite slot s
      = (false, StoreHeapObject slot (heap.actual o) (Loaded B heap marking_mode o s)) := by
    rw [VisitObjectViaSlot_of_none B heap Visit _ _ _ slot s (by rw [hres]), hres]
  have hun := ResolveReferent_untouched B heap marking_mode SlotTreatmentMode.kReadWrite slot s
  have hother := ResolveReferent_memory_other B heap marking_mode SlotTreatmentMode.kReadWrite
    slot s
  rw [hres] at hun hother
  rw [hV]
  exact ⟨rfl, StoreHeapObject_memory_self _ _ _, hold.symm, hun, hother⟩

/-- Witness of `thin_string_shortcut`: slot `3` holds the young thin string `30`, whose actual
string `40` is old; after the visit the slot holds `40`. -/
theorem thin_string_shortcut_witness :
    (VisitObjectViaSlot exampleBuild exampleHeap exampleVisit
        YoungGenerationMarkingVisitorMode.kParallel ObjectVisitationMode.kPushToWorklist
        SlotTreatmentMode.kReadWrite 3 exampleState).2.memory 3 = Tagged.strong 40 :=
  (thin_string_shortcut exampleBuild exampleHeap exampleVisit
    YoungGenerationMarkingVisitorMode.kParallel ObjectVisitationMode.kPushToWorklist 3
    exampleState 30 (by decide) (by decide) (by decide) (by decide) (by decide)).2.1

/-- C12, as the code has it (cons-string shortcut). With string shortcutting in effect and
`kReadWrite`, when the slot refers to a young cons string that is a shortcut candidate (visitor
id `kVisitShortcutCandidate`) and whose right child is the empty string, one
`VisitObjectViaSlot` stores the left child into the slot; the visit returns true exactly when
the left child is in the young generation, and then goes on with the left child: the object
passed to `TryMark` is the left child, and with `kPushToWorklist` no other object gets marked.
When the left child is old, nothing is marked, pushed or counted. -/
theorem cons_string_shortcut (B : Build) (heap : Heap)
    (Visit : Map → HeapObject → VisitorState → Int × VisitorState)
    (marking_mode : YoungGenerationMarkingVisitorMode) (visitation_mode : ObjectVisitationMode)
    (slot : Slot) (s : VisitorState) (o : HeapObject)
    (heff : ShortcuttingInEffect B s)
    (h : (s.memory slot).GetHeapObject = some o) (hyoung : heap.InYoungGeneration o = true)
    (hcons : IsConsString B heap o)
    (hcand : heap.visitor_id (heap.map o) = B.kVisitShortcutCandidate)
    (hempty : heap.second o = B.kempty_string) :
    (ResolveReferent B heap marking_mode SlotTreatmentMode.kReadWrite slot s).2
        = StoreHeapObject slot (heap.first o) (Loaded B heap marking_mode o s)
      ∧ (ResolveReferent B heap marking_mode SlotTreatmentMode.kReadWrite slot s).2.memory slot
          = Tagged.strong (heap.first o)
      ∧ (VisitObjectViaSlot B heap Visit marking_mode visitation_mode
          SlotTreatmentMode.kReadWrite slot s).1 = heap.InYoungGeneration (heap.first o)
      ∧ (heap.InYoungGeneration (heap.first o) = true →
          VisitObjectViaSlot B heap Visit marking_mode visitation_mode
              SlotTreatmentMode.kReadWrite slot s
            = ClaimAndDispatch B heap Visit marking_mode visitation_mode (heap.first o)
                (StoreHeapObject slot (heap.first o) (Loaded B heap marking_mode o s)))
      ∧ (heap.InYoungGeneration (heap.first o) = false →
          VisitObjectViaSlot B heap Visit marking_mode visitation_mode
              SlotTreatmentMode.kReadWrite slot s
              = (false, StoreHeapObject slot (heap.first o) (Loaded B heap marking_mode o s))
            ∧ MarkingUntouched s (VisitObjectViaSlot B heap Visit marking_mode visitation_mode
                SlotTreatmentMode.kReadWrite slot s).2)
      ∧ (visitation_mode = ObjectVisitationMode.kPushToWorklist →
          (VisitObjectViaSlot B heap Visit marking_mode visitation_mode
              SlotTreatmentMode.kReadWrite slot s).2.memory slot = Tagged.strong (heap.first o)
            ∧ ∀ x ∈ (VisitObjectViaSlot B heap Visit marking_mode visitation_mode
                SlotTreatmentMode.kReadWrite slot s).2.marked,
                x ∈ s.marked ∨ x = heap.first o) := by
  obtain ⟨hB, hroots, hs⟩ := heff
  have hsc := ShortCutStrings_cons B heap slot o (Loaded B heap marking_mode o s) hroots
    (by rw [(Loaded_fields B heap marking_mode o s).2]; exact hs) hcons hcand hempty
  have hres : ResolveReferent B heap marking_mode SlotTreatmentMode.kReadWrite slot s
      = (if heap.InYoungGeneration (heap.first o) = true then some (heap.first o) else none,
          StoreHeapObject slot (heap.first o) (Loaded B heap marking_mode o s)) := by
    rw [ResolveReferent_young_eq B heap marking_mode _ slot s o h hyoung, hsc]
    simp [hB]
  have hyes : heap.InYoungGeneration (heap.first o) = true →
      VisitObjectViaSlot B heap Visit marking_mode visitation_mode
          SlotTreatmentMode.kReadWrite slot s
        = ClaimAndDispatch B heap Visit marking_mode visitation_mode (heap.first o)
            (StoreHeapObject slot (heap.first o) (Loaded B heap marking_mode o s)) := by
    intro hy
    rw [VisitObjectViaSlot_of_some B heap Visit _ _ _ slot s (heap.first o)
      (by rw [hres]; simp [hy]), hres]
  have hno : heap.InYoungGeneration (heap.first o) = false →
      VisitObjectViaSlot B heap Visit marking_mode visitation_mode
          SlotTreatmentMode.kReadWrite slot s
        = (false, StoreHeapObject slot (heap.first o) (Loaded B heap marking_mode o s)) := by
    intro hn
    rw [VisitObjectViaSlot_of_none B heap Visit _ _ _ slot s (by rw [hres]; simp [hn]), hres]
  have hun := ResolveReferent_untouched B heap marking_mode SlotTreatmentMode.kReadWrite slot s
  rw [hres] at hun
  refine ⟨by rw [hres], by rw [hres]; exact StoreHeapObject_memory_self _ _ _, ?_, hyes, ?_, ?_⟩
  · rw [VisitObjectViaSlot_fst, hres]
    cases heap.InYoungGeneration (heap.first o) <;> rfl
  · intro hn
    rw [hno hn]
    exact ⟨rfl, hun⟩
  · intro hvm
    subst hvm
    cases hy : heap.InYoungGeneration (heap.first o) with
    | false =>
      rw [hno hy]
      exact ⟨StoreHeapObject_memory_self _ _ _, fun x hx => Or.inl (hun.1 ▸ hx)⟩
    | true =>
      rw [hyes hy]
      obtain ⟨c1, _, _, c4, _⟩ := ClaimAndDispatch_push_effects B heap Visit marking_mode
        (heap.first o) (StoreHeapObject slot (heap.first o) (Loaded B heap marking_mode o s))
      refine ⟨by rw [c1]; exact StoreHeapObject_memory_self _ _ _, ?_⟩
      intro x hx
      rcases c4 x hx with h1 | h1
      · exact Or.inl (hun.1 ▸ h1)
      · exact Or.inr h1

/-- Witness of `cons_string_shortcut`: slot `4` holds the young cons string `50`, a shortcut
candidate with empty right child and young left child `60`; the visit returns true. -/
theorem cons_string_shortcut_witness :
    (VisitObjectViaSlot exampleBuild exampleHeap exampleVisit
        YoungGenerationMarkingVisitorMode.kParallel ObjectVisitationMode.kPushToWorklist
        SlotTreatmentMode.kReadWrite 4 exampleState).1 = exampleHeap.InYoungGeneration 60 :=
  (cons_string_shortcut exampleBuild exampleHeap exampleVisit
    YoungGenerationMarkingVisitorMode.kParallel ObjectVisitationMode.kPushToWorklist 4
    exampleState 50 (by decide) (by decide) (by decide) (by decide) (by decide)
    (by decide)).2.2.1

/-- C12 as stated fails for a cons string that is no shortcut candidate: slot `4` refers to
the young cons string `50` whose right child is the empty string, but whose map has another
visitor id than `kVisitShortcutCandidate`; after the visit the slot still holds `50`, not the
left child `60`, and the object claimed is the cons string itself. -/
theorem cons_string_not_candidate_counterexample :
    (exampleState.memory 4).GetHeapObject = some 50
      ∧ exampleHeapPlainCons.InYoungGeneration 50 = true
      ∧ IsConsString exampleBuild exampleHeapPlainCons 50
      ∧ exampleHeapPlainCons.second 50 = exampleBuild.kempty_string
      ∧ exampleHeapPlainCons.first 50 = 60
      ∧ ShortcuttingInEffect exampleBuild exampleState
      ∧ (VisitObjectViaSlot exampleBuild exampleHeapPlainCons exampleVisit
          YoungGenerationMarkingVisitorMode.kParallel ObjectVisitationMode.kPushToWorklist
          SlotTreatmentMode.kReadWrite 4 exampleState).2.memory 4 = Tagged.strong 50
      ∧ (VisitObjectViaSlot exampleBuild exampleHeapPlainCons exampleVisit
          YoungGenerationMarkingVisitorMode.kParallel ObjectVisitationMode.kPushToWorklist
          SlotTreatmentMode.kReadWrite 4 exampleState).2.marked = [50] := by
  decide

/-- When `Parent::Visit` does not write the slot, the slot is after the visit what the first
part of the visit left in it. -/
theorem VisitObjectViaSlot_memory_slot (B : Build) (heap : Heap)
    (Visit : Map → HeapObject → VisitorState → Int × VisitorState)
    (marking_mode : YoungGenerationMarkingVisitorMode) (visitation_mode : ObjectVisitationMode)
    (slot_treatment_mode : SlotTreatmentMode) (slot : Slot) (s : VisitorState)
    (hVisit : ∀ m x t, (Visit m x t).2.memory slot = t.memory slot) :
    (VisitObjectViaSlot B heap Visit marking_mode visitation_mode slot_treatment_mode
        slot s).2.memory slot
      = (ResolveReferent B heap marking_mode slot_treatment_mode slot s).2.memory slot := by
  cases hr : (ResolveReferent B heap marking_mode slot_treatment_mode slot s).1 with
  | none => rw [VisitObjectViaSlot_of_none B heap Visit _ _ _ slot s hr]
  | some o =>
    rw [VisitObjectViaSlot_of_some B heap Visit _ _ _ slot s o hr,
      ClaimAndDispatch_memory B heap Visit marking_mode visitation_mode o _ slot hVisit]

/-- C17, as the code has it (one level of a wrapper chain). With string shortcutting in effect
and `kReadWrite`, when the slot refers to a young collapsible wrapper (a thin string, or a
shortcut-candidate cons string whose right child is the empty string), one
`VisitObjectViaSlot` makes the slot refer to the wrapper's direct target, the actual string or
the left child. This is one step along the chain: the slot refers to a non-wrapper afterwards
exactly when that direct target is not itself a collapsible wrapper. -/
theorem single_level_collapse (B : Build) (heap : Heap)
    (Visit : Map → HeapObject → VisitorState → Int × VisitorState)
    (marking_mode : YoungGenerationMarkingVisitorMode) (visitation_mode : ObjectVisitationMode)
    (slot : Slot) (s : VisitorState) (o : HeapObject)
    (heff : ShortcuttingInEffect B s)
    (h : (s.memory slot).GetHeapObject = some o) (hyoung : heap.InYoungGeneration o = true)
    (hcoll : IsCollapsible B heap o) :
    (ResolveReferent B heap marking_mode SlotTreatmentMode.kReadWrite slot s).2.memory slot
        = Tagged.strong (shortcutTarget B heap o)
      ∧ ((∀ m x t, (Visit m x t).2.memory slot = t.memory slot) →
          (VisitObjectViaSlot B heap Visit marking_mode visitation_mode
            SlotTreatmentMode.kReadWrite slot s).2.memory slot
            = Tagged.strong (shortcutTarget B heap o))
      ∧ (∀ x, ((ResolveReferent B heap marking_mode SlotTreatmentMode.kReadWrite slot
            s).2.memory slot).GetHeapObject = some x →
          (IsCollapsible B heap x ↔ IsCollapsible B heap (shortcutTarget B heap o))) := by
  obtain ⟨hB, hroots, hs⟩ := heff
  have hs1 : (Loaded B heap marking_mode o s).shortcut_strings_ = true := by
    rw [(Loaded_fields B heap marking_mode o s).2]; exact hs
  have hmem : (ResolveReferent B heap marking_mode SlotTreatmentMode.kReadWrite slot
      s).2.memory slot = Tagged.strong (shortcutTarget B heap o) := by
    rw [ResolveReferent_young_eq B heap marking_mode _ slot s o h hyoung]
    simp only [hB, and_self, if_true]
    rcases hcoll with hthin | ⟨hcons, hcand, hempty⟩
    · rw [ShortCutStrings_thin B heap slot o _ hroots hs1 hthin]
      simp [shortcutTarget, hthin]
    · rw [ShortCutStrings_cons B heap slot o _ hroots hs1 hcons hcand hempty]
      simp [shortcutTarget, hcons.2]
  refine ⟨hmem, ?_, ?_⟩
  · intro hVisit
    rw [VisitObjectViaSlot_memory_slot B heap Visit marking_mode visitation_mode _ slot s hVisit,
      hmem]
  · intro x hx
    rw [hmem] at hx
    have : shortcutTarget B heap o = x := Option.some.inj hx
    rw [this]

/-- Witness of `single_level_collapse`: in the chain heap slot `4` holds the cons string `50`
whose left child is the thin string `30`; after the first part of the visit the slot holds
`30`. -/
theorem single_level_collapse_witness :
    (ResolveReferent exampleBuild exampleHeapChain YoungGenerationMarkingVisitorMode.kParallel
        SlotTreatmentMode.kReadWrite 4 exampleState).2.memory 4
      = Tagged.strong (shortcutTarget exampleBuild exampleHeapChain 50) :=
  (single_level_collapse exampleBuild exampleHeapChain exampleVisit
    YoungGenerationMarkingVisitorMode.kParallel ObjectVisitationMode.kPushToWorklist 4
    exampleState 50 (by decide) (by decide) (by decide) (by decide)).1

/-- C17 as stated fails on a chain of two wrappers: slot `4` refers to the young cons string
`50`, a shortcut candidate with empty right child, whose left child is the young thin string
`30` with actual string `40`. After one visit the slot holds `30`, which is itself a
collapsible wrapper, and not the chain's ultimate target `40`. -/
theorem chain_collapse_counterexample :
    ShortcuttingInEffect exampleBuild exampleState
      ∧ (exampleState.memory 4).GetHeapObject = some 50
      ∧ exampleHeapChain.InYoungGeneration 50 = true
      ∧ IsCollapsible exampleBuild exampleHeapChain 50
      ∧ exampleHeapChain.first 50 = 30
      ∧ IsCollapsible exampleBuild exampleHeapChain 30
      ∧ exampleHeapChain.actual 30 = 40
      ∧ ¬ IsCollapsible exampleBuild exampleHeapChain 40
      ∧ (VisitObjectViaSlot exampleBuild exampleHeapChain exampleVisit
          YoungGenerationMarkingVisitorMode.kParallel ObjectVisitationMode.kPushToWorklist
          SlotTreatmentMode.kReadWrite 4 exampleState).2.memory 4 = Tagged.strong 30 := by
  decide

/-! ## Theorems: per-category entry points -/

theorem VisitEmbedderTracing_eq (C : Collaborators) (map : Map) (object : HeapObject)
    (s : VisitorState) :
    VisitEmbedderTracingSubClassWithEmbedderTracing C map object s
      = ((VisitJSObjectSubclass C map object s).1,
          { (VisitJSObjectSubclass C map object s).2 with
            trace := (VisitJSObjectSubclass C map object s).2.trace
              ++ wrapperCalls C map object (VisitJSObjectSubclass C map object s).1 }) := by
  unfold VisitEmbedderTracingSubClassWithEmbedderTracing wrapperCalls
  rcases VisitJSObjectSubclass C map object s with ⟨size, t⟩
  rcases hx : C.ExtractWrapper map object with ⟨valid, snap⟩
  cases hsup : C.SupportsExtractWrapper
  · simp
  · by_cases hcond : size ≠ 0 ∧ valid = true
    · simp [hcond, VisitorState.record]
    · simp [hcond, VisitorState.record]

/-- C15 (embedder wrapper forwarding). For every map and object,
`VisitEmbedderTracingSubClassWithEmbedderTracing` returns the size `VisitJSObjectSubclass`
returned, in every branch, and changes the state `VisitJSObjectSubclass` left only by the calls
it adds. `PushExtractedWrapper` is called, once and with the snapshot filled in by
`ExtractWrapper`, exactly when `SupportsExtractWrapper()` is true, `ExtractWrapper` returned
true and the size is nonzero; `ExtractWrapper` is called once when `SupportsExtractWrapper()`
is true and not at all when it is false. -/
theorem embedder_wrapper_forwarding (C : Collaborators) (map : Map) (object : HeapObject)
    (s : VisitorState) :
    (VisitEmbedderTracingSubClassWithEmbedderTracing C map object s).1
        = (VisitJSObjectSubclass C map object s).1
      ∧ (VisitEmbedderTracingSubClassWithEmbedderTracing C map object s).2
          = { (VisitJSObjectSubclass C map object s).2 with
              trace := (VisitJSObjectSubclass C map object s).2.trace
                ++ wrapperCalls C map object (VisitJSObjectSubclass C map object s).1 }
      ∧ (∀ w, (wrapperCalls C map object (VisitJSObjectSubclass C map object s).1).count
            (Event.PushExtractedWrapper w)
          = if C.SupportsExtractWrapper = true ∧ (C.ExtractWrapper map object).1 = true
                ∧ (VisitJSObjectSubclass C map object s).1 ≠ 0
                ∧ w = (C.ExtractWrapper map object).2 then 1 else 0)
      ∧ (∀ m o, (wrapperCalls C map object (VisitJSObjectSubclass C map object s).1).count
            (Event.ExtractWrapper m o)
          = if C.SupportsExtractWrapper = true ∧ m = map ∧ o = object then 1 else 0)
      ∧ (C.SupportsExtractWrapper = false →
          VisitEmbedderTracingSubClassWithEmbedderTracing C map object s
            = VisitJSObjectSubclass C map object s) := by
  have heq := VisitEmbedderTracing_eq C map object s
  refine ⟨by rw [heq], by rw [heq], ?_, ?_, ?_⟩
  · intro w
    unfold wrapperCalls
    generalize (VisitJSObjectSubclass C map object s).1 = size
    cases hsup : C.SupportsExtractWrapper
    · simp
    · by_cases hcond : size ≠ 0 ∧ (C.ExtractWrapper map object).1 = true
      · by_cases hw : w = (C.ExtractWrapper map object).2
        · simp [hcond, hw, List.count_cons]
        · have hw' : ¬ (C.ExtractWrapper map object).2 = w := fun h => hw h.symm
          simp [hcond, hw, hw', List.count_cons]
      · have hc2 : ¬ ((C.ExtractWrapper map object).1 = true ∧ size ≠ 0
            ∧ w = (C.ExtractWrapper map object).2) := fun h => hcond ⟨h.2.1, h.1⟩
        simp [hcond, hc2, List.count_cons]
  · intro m o
    unfold wrapperCalls
    generalize (VisitJSObjectSubclass C map object s).1 = size
    cases hsup : C.SupportsExtractWrapper
    · simp
    · by_cases hcond : size ≠ 0 ∧ (C.ExtractWrapper map object).1 = true
      · by_cases hmo : m = map ∧ o = object
        · obtain ⟨rfl, rfl⟩ := hmo
          simp [hcond, List.count_cons]
        · have hmo' : ¬ (map = m ∧ object = o) := fun h => hmo ⟨h.1.symm, h.2.symm⟩
          simp [hcond, List.count_cons, hmo, hmo']
      · by_cases hmo : m = map ∧ o = object
        · obtain ⟨rfl, rfl⟩ := hmo
          simp [hcond, List.count_cons]
        · have hmo' : ¬ (map = m ∧ object = o) := fun h => hmo ⟨h.1.symm, h.2.symm⟩
          simp [hcond, List.count_cons, hmo, hmo']
  · intro hsup
    rw [heq]
    simp [wrapperCalls, hsup]

/-- Witness of `embedder_wrapper_forwarding`: with the example collaborators the size of object
`60` is 48 and its snapshot `1060` is pushed once. -/
theorem embedder_wrapper_forwarding_witness :
    (VisitEmbedderTracingSubClassWithEmbedderTracing exampleCollaborators 201 60
        exampleState).1 = 48
      ∧ (wrapperCalls exampleCollaborators 201 60 48).count (Event.PushExtractedWrapper 1060)
          = 1 :=
  ⟨(embedder_wrapper_forwarding exampleCollaborators 201 60 exampleState).1,
    (embedder_wrapper_forwarding exampleCollaborators 201 60 exampleState).2.2.1 1060⟩

/-! ## Theorems: ephemeron tables -/

theorem VisitPointer_eq (B : Build) (heap : Heap)
    (Visit : Map → HeapObject → VisitorState → Int × VisitorState)
    (marking_mode : YoungGenerationMarkingVisitorMode) (host : HeapObject) (slot : Slot)
    (s : VisitorState) :
    VisitPointer B heap Visit marking_mode host slot s
      = (VisitObjectViaSlot B heap Visit marking_mode ObjectVisitationMode.kPushToWorklist
          (rangeTreatment marking_mode) slot s).2 := by
  unfold VisitPointer
  rw [VisitPointersImpl_eq_VisitAll]
  have h1 : slot + 1 - slot = 1 := Nat.add_sub_cancel_left slot 1
  simp [rangeVisits, h1, VisitAll]

theorem VisitEphemeronHashTable_eq (B : Build) (heap : Heap) (L : EphemeronHashTableLayout)
    (Visit : Map → HeapObject → VisitorState → Int × VisitorState)
    (marking_mode : YoungGenerationMarkingVisitorMode) (map : Map) (table : HeapObject)
    (s : VisitorState) :
    VisitEphemeronHashTable B heap L Visit marking_mode map table s
      = (L.SizeOf map table,
          VisitAll B heap Visit marking_mode (valueVisits marking_mode L table)
            (PushEphemeronTable table s)) := by
  unfold VisitEphemeronHashTable VisitAll valueVisits valueSlots
  simp only [List.foldl_map, VisitPointer_eq]

theorem valueVisits_push (marking_mode : YoungGenerationMarkingVisitorMode)
    (L : EphemeronHashTableLayout) (table : HeapObject) :
    ∀ c ∈ valueVisits marking_mode L table,
      c.visitation_mode = ObjectVisitationMode.kPushToWorklist := by
  intro c hc
  simp only [valueVisits, List.mem_map] at hc
  obtain ⟨_, _, rfl⟩ := hc
  rfl

theorem ShortCutStrings_origin (B : Build) (heap : Heap) (slot : Slot) (o : HeapObject)
    (s : VisitorState) :
    ((ShortCutStrings B heap slot o s).1 = true →
        (ShortCutStrings B heap slot o s).2.1 = o
          ∨ (ShortCutStrings B heap slot o s).2.1 = heap.first o)
      ∧ ∀ y, ((ShortCutStrings B heap slot o s).2.2.memory slot).GetHeapObject = some y →
          (s.memory slot).GetHeapObject = some y ∨ y = heap.actual o ∨ y = heap.first o := by
  simp only [ShortCutStrings]
  repeat' split
  all_goals
    refine ⟨by simp, ?_⟩
    intro y hy
    first
    | exact Or.inl hy
    | (simp only [StoreHeapObject_memory_self, Tagged.GetHeapObject, Option.some.injEq] at hy
       simp [hy])

/-- Where the object the visit continues with and the new content of the slot come from: the
object is the slot's referent or its left child, and the slot afterwards refers to its old
referent or to that referent's actual string or left child. -/
theorem ResolveReferent_origin (B : Build) (heap : Heap)
    (marking_mode : YoungGenerationMarkingVisitorMode) (slot_treatment_mode : SlotTreatmentMode)
    (slot : Slot) (s : VisitorState) :
    (∀ y, (ResolveReferent B heap marking_mode slot_treatment_mode slot s).1 = some y →
        ∃ o, (s.memory slot).GetHeapObject = some o ∧ (y = o ∨ y = heap.first o))
      ∧ ∀ y, ((ResolveReferent B heap marking_mode slot_treatment_mode slot s).2.memory
            slot).GetHeapObject = some y →
          ∃ o, (s.memory slot).GetHeapObject = some o
            ∧ (y = o ∨ y = heap.actual o ∨ y = heap.first o) := by
  cases hget : (s.memory slot).GetHeapObject with
  | none =>
    have hres : ResolveReferent B heap marking_mode slot_treatment_mode slot s = (none, s) := by
      simp [ResolveReferent, hget]
    rw [hres]
    exact ⟨fun y hy => absurd hy (by simp), fun y hy => by rw [hget] at hy; exact absurd hy (by simp)⟩
  | some o =>
    by_cases hyoung : heap.InYoungGeneration o = true
    · rw [ResolveReferent_young_eq B heap marking_mode _ slot s o hget hyoung]
      have hl := (Loaded_fields B heap marking_mode o s).1
      split
      · obtain ⟨h1, h2⟩ := ShortCutStrings_origin B heap slot o (Loaded B heap marking_mode o s)
        constructor
        · intro y hy
          cases hb : (ShortCutStrings B heap slot o (Loaded B heap marking_mode o s)).1 with
          | false => simp [hb] at hy
          | true =>
            simp only [hb, if_true, Option.some.injEq] at hy
            rcases h1 hb with h | h
            · exact ⟨o, rfl, Or.inl (by rw [← hy, h])⟩
            · exact ⟨o, rfl, Or.inr (by rw [← hy, h])⟩
        · intro y hy
          rcases h2 y hy with h | h
          · rw [hl, hget] at h
            exact ⟨o, rfl, Or.inl (Option.some.inj h).symm⟩
          · exact ⟨o, rfl, Or.inr h⟩
      · constructor
        · intro y hy
          exact ⟨o, rfl, Or.inl (Option.some.inj hy).symm⟩
        · intro y hy
          rw [show (some o, Loaded B heap marking_mode o s).2.memory = s.memory from hl, hget]
            at hy
          exact ⟨o, rfl, Or.inl (Option.some.inj hy).symm⟩
    · have hold : heap.InYoungGeneration o = false := by simpa using hyoung
      obtain ⟨h1, h2⟩ := ResolveReferent_old B heap marking_mode slot_treatment_mode slot s o
        hget hold
      constructor
      · intro y hy
        rw [h1] at hy
        exact absurd hy (by simp)
      · intro y hy
        rw [h2, hget] at hy
        exact ⟨o, rfl, Or.inl (Option.some.inj hy).symm⟩

theorem VisitObjectViaSlot_push_memory (B : Build) (heap : Heap)
    (Visit : Map → HeapObject → VisitorState → Int × VisitorState)
    (marking_mode : YoungGenerationMarkingVisitorMode)
    (slot_treatment_mode : SlotTreatmentMode) (slot : Slot) (s : VisitorState) :
    (VisitObjectViaSlot B heap Visit marking_mode ObjectVisitationMode.kPushToWorklist
        slot_treatment_mode slot s).2.memory
      = (ResolveReferent B heap marking_mode slot_treatment_mode slot s).2.memory := by
  cases hr : (ResolveReferent B heap marking_mode slot_treatment_mode slot s).1 with
  | none => rw [VisitObjectViaSlot_of_none B heap Visit _ _ _ slot s hr]
  | some o =>
    rw [VisitObjectViaSlot_of_some B heap Visit _ _ _ slot s o hr,
      (ClaimAndDispatch_push_effects B heap Visit marking_mode o _).1]

/-- One slot visit with `kPushToWorklist` keeps the two derivation invariants. -/
theorem Derived_step (B : Build) (heap : Heap)
    (Visit : Map → HeapObject → VisitorState → Int × VisitorState)
    (marking_mode : YoungGenerationMarkingVisitorMode)
    (slot_treatment_mode : SlotTreatmentMode) (slots : List Slot) (slot : Slot)
    (hslot : slot ∈ slots) (s t : VisitorState)
    (hmem : DerivedMemory heap s t) (hmarks : DerivedMarks heap slots s t) :
    DerivedMemory heap s
        (VisitObjectViaSlot B heap Visit marking_mode ObjectVisitationMode.kPushToWorklist
          slot_treatment_mode slot t).2
      ∧ DerivedMarks heap slots s
          (VisitObjectViaSlot B heap Visit marking_mode ObjectVisitationMode.kPushToWorklist
            slot_treatment_mode slot t).2 := by
  obtain ⟨e1, _, _, e4, _⟩ := VisitObjectViaSlot_push_effects B heap Visit marking_mode
    slot_treatment_mode slot t
  obtain ⟨o1, o2⟩ := ResolveReferent_origin B heap marking_mode slot_treatment_mode slot t
  constructor
  · intro vs y hy
    by_cases hvs : vs = slot
    · subst hvs
      rw [VisitObjectViaSlot_push_memory] at hy
      obtain ⟨o', ho', hcase⟩ := o2 y hy
      obtain ⟨o, ho, hthrough⟩ := hmem vs o' ho'
      refine ⟨o, ho, ?_⟩
      rcases hcase with h | h | h
      · rw [h]; exact hthrough
      · rw [h]; exact ThroughStrings.actual hthrough
      · rw [h]; exact ThroughStrings.first hthrough
    · rw [e1 vs hvs] at hy
      exact hmem vs y hy
  · intro y hy
    rcases e4 y hy with h | h
    · exact hmarks y h
    · obtain ⟨o', ho', hcase⟩ := o1 y h
      obtain ⟨o, ho, hthrough⟩ := hmem slot o' ho'
      refine Or.inr ⟨slot, hslot, o, ho, ?_⟩
      rcases hcase with h' | h'
      · rw [h']; exact hthrough
      · rw [h']; exact ThroughStrings.first hthrough

theorem Derived_VisitAll (B : Build) (heap : Heap)
    (Visit : Map → HeapObject → VisitorState → Int × VisitorState)
    (marking_mode : YoungGenerationMarkingVisitorMode) (slots : List Slot)
    (calls : List SlotVisit)
    (hcalls : ∀ c ∈ calls,
      c.visitation_mode = ObjectVisitationMode.kPushToWorklist ∧ c.slot ∈ slots)
    (s t : VisitorState)
    (hmem : DerivedMemory heap s t) (hmarks : DerivedMarks heap slots s t) :
    DerivedMemory heap s (VisitAll B heap Visit marking_mode calls t)
      ∧ DerivedMarks heap slots s (VisitAll B heap Visit marking_mode calls t) := by
  induction calls generalizing t with
  | nil => exact ⟨hmem, hmarks⟩
  | cons c calls ih =>
    rw [VisitAll_cons, (hcalls c (List.mem_cons_self _ _)).1]
    obtain ⟨h1, h2⟩ := Derived_step B heap Visit marking_mode c.slot_treatment_mode slots c.slot
      (hcalls c (List.mem_cons_self _ _)).2 s t hmem hmarks
    exact ih (fun x hx => hcalls x (List.mem_cons_of_mem _ hx)) _ h1 h2

theorem ThroughStrings_cases (heap : Heap) (o x : HeapObject) (h : ThroughStrings heap o x) :
    x = o ∨ (∃ y, x = heap.actual y) ∨ ∃ y, x = heap.first y := by
  cases h with
  | self => exact Or.inl rfl
  | actual h' => exact Or.inr (Or.inl ⟨_, rfl⟩)
  | first h' => exact Or.inr (Or.inr ⟨_, rfl⟩)

theorem ClaimStep_PushEphemeronTable (table : HeapObject) (s : VisitorState) :
    ClaimStep s (PushEphemeronTable table s) :=
  ClaimStep_of_same s (PushEphemeronTable table s) rfl rfl
    (by simp [PushEphemeronTable, countedObjects, Event.countedObject])

/-- C13 (ephemeron table visit). One call of `VisitEphemeronHashTable(map, table)` appends the
table to the local ephemeron list once and then applies the per-slot visit, with
`kPushToWorklist`, to the value slot of each entry of `IterateEntries`, in that order, and to
no other slot; it returns `BodyDescriptor::SizeOf(map, table)`. Besides the one registration
it makes only the calls of slot visits, so no `UpdateAllocationSite` call and no
`Parent::Visit`. An unmarked object that no value slot of the table refers to, not even
through the string fields a shortcut follows, so one referenced only from key slots, is
neither marked nor pushed by the call. -/
theorem ephemeron_table_visit (B : Build) (heap : Heap) (L : EphemeronHashTableLayout)
    (Visit : Map → HeapObject → VisitorState → Int × VisitorState)
    (marking_mode : YoungGenerationMarkingVisitorMode) (map : Map) (table : HeapObject)
    (s : VisitorState) :
    VisitEphemeronHashTable B heap L Visit marking_mode map table s
        = (L.SizeOf map table,
            VisitAll B heap Visit marking_mode (valueVisits marking_mode L table)
              (PushEphemeronTable table s))
      ∧ (valueVisits marking_mode L table).map SlotVisit.slot
          = (L.IterateEntries table).map
              (fun i => L.RawFieldOfElementAt table (L.EntryToValueIndex i))
      ∧ (∀ c ∈ valueVisits marking_mode L table,
          c.visitation_mode = ObjectVisitationMode.kPushToWorklist)
      ∧ (VisitEphemeronHashTable B heap L Visit marking_mode map table
          s).2.ephemeron_table_list_local_ = s.ephemeron_table_list_local_ ++ [table]
      ∧ (∃ evs, (VisitEphemeronHashTable B heap L Visit marking_mode map table s).2.trace
            = s.trace ++ Event.PushEphemeronTable table :: evs
          ∧ ∀ e ∈ evs, e.isSlotVisitCall = true
              ∧ (∀ m o, e ≠ Event.UpdateAllocationSite m o) ∧ ∀ m o, e ≠ Event.Visit m o)
      ∧ (∀ Visit', VisitEphemeronHashTable B heap L Visit' marking_mode map table s
          = VisitEphemeronHashTable B heap L Visit marking_mode map table s)
      ∧ (∀ x, x ∉ s.marked →
          (∀ vs ∈ valueSlots L table, ∀ o, (s.memory vs).GetHeapObject = some o →
            ¬ ThroughStrings heap o x) →
          x ∉ (VisitEphemeronHashTable B heap L Visit marking_mode map table s).2.marked
            ∧ (x ∉ s.worklist →
                x ∉ (VisitEphemeronHashTable B heap L Visit marking_mode map table
                  s).2.worklist)) := by
  have heq := VisitEphemeronHashTable_eq B heap L Visit marking_mode map table s
  have hpush := valueVisits_push marking_mode L table
  obtain ⟨heph, evs, htr, hevs⟩ := VisitAll_push_effects B heap Visit marking_mode
    (valueVisits marking_mode L table) hpush (PushEphemeronTable table s)
  refine ⟨heq, ?_, hpush, ?_, ?_, ?_, ?_⟩
  · simp [valueVisits, valueSlots, List.map_map, Function.comp_def]
  · rw [heq]
    exact heph
  · rw [heq]
    refine ⟨evs, ?_, ?_⟩
    · show (VisitAll B heap Visit marking_mode _ _).trace = _
      rw [htr]
      simp [PushEphemeronTable]
    · intro e he
      refine ⟨hevs e he, ?_, ?_⟩
      · intro m o h
        have := hevs e he
        rw [h] at this
        exact absurd this (by simp [Event.isSlotVisitCall])
      · intro m o h
        have := hevs e he
        rw [h] at this
        exact absurd this (by simp [Event.isSlotVisitCall])
  · intro Visit'
    rw [heq, VisitEphemeronHashTable_eq,
      VisitAll_push_irrelevant B heap Visit' Visit marking_mode _ hpush]
  · intro x hx hkey
    rw [heq]
    have hcalls : ∀ c ∈ valueVisits marking_mode L table,
        c.visitation_mode = ObjectVisitationMode.kPushToWorklist
          ∧ c.slot ∈ valueSlots L table := by
      intro c hc
      refine ⟨hpush c hc, ?_⟩
      simp only [valueVisits, List.mem_map] at hc
      obtain ⟨slot, hslot, rfl⟩ := hc
      exact hslot
    have hmem0 : DerivedMemory heap s (PushEphemeronTable table s) :=
      fun vs y hy => ⟨y, hy, ThroughStrings.self⟩
    have hmarks0 : DerivedMarks heap (valueSlots L table) s (PushEphemeronTable table s) :=
      fun y hy => Or.inl hy
    obtain ⟨_, hmarks⟩ := Derived_VisitAll B heap Visit marking_mode (valueSlots L table)
      (valueVisits marking_mode L table) hcalls s (PushEphemeronTable table s) hmem0 hmarks0
    have hnot : x ∉ (VisitAll B heap Visit marking_mode (valueVisits marking_mode L table)
        (PushEphemeronTable table s)).marked := by
      intro hin
      rcases hmarks x hin with h | ⟨vs, hvs, o, ho, hthrough⟩
      · exact hx h
      · exact hkey vs hvs o ho hthrough
    refine ⟨hnot, ?_⟩
    intro hwl hin
    have hstep : ClaimStep s (VisitAll B heap Visit marking_mode
        (valueVisits marking_mode L table) (PushEphemeronTable table s)) := by
      rw [VisitAll_push_irrelevant B heap Visit (fun _ _ t => (0, t)) marking_mode _ hpush]
      exact ClaimStep_trans (ClaimStep_PushEphemeronTable table s)
        (ClaimStep_VisitAll B heap _ (fun _ _ t => ClaimStep_refl t) marking_mode _ _)
    obtain ⟨_, ⟨pushed, hp, np⟩, _⟩ := hstep
    rw [hp] at hin
    rcases List.mem_append.1 hin with h | h
    · exact hwl h
    · exact hnot (np.2 x h).2

/-- In the example heap the cons string `50` is not reached through string fields from any
other object: every actual string is `40` and every left child is `60`. -/
theorem exampleHeap_not_through (o : HeapObject) (ho : o ≠ 50) :
    ¬ ThroughStrings exampleHeap o 50 := by
  intro h
  rcases ThroughStrings_cases exampleHeap o 50 h with h1 | ⟨y, h1⟩ | ⟨y, h1⟩
  · exact ho h1.symm
  · have h2 : (50 : Nat) = 40 := h1
    exact absurd h2 (by decide)
  · have h2 : (50 : Nat) = 60 := h1
    exact absurd h2 (by decide)

/-- Witness of `ephemeron_table_visit`: table `80` has the value slots `5` and `7`, which
refer to `60` and `70`; the young cons string `50` is referred to by the key slot `4` only and
stays unmarked. -/
theorem ephemeron_table_visit_witness :
    50 ∉ (VisitEphemeronHashTable exampleBuild exampleHeap exampleLayout exampleVisit
        YoungGenerationMarkingVisitorMode.kParallel 201 80 exampleState).2.marked :=
  ((ephemeron_table_visit exampleBuild exampleHeap exampleLayout exampleVisit
      YoungGenerationMarkingVisitorMode.kParallel 201 80 exampleState).2.2.2.2.2.2 50
    (by decide)
    (fun vs hvs o ho => by
      have hvs' : vs = 5 ∨ vs = 7 := by
        have : vs ∈ [5, 7] := hvs
        simpa using this
      rcases hvs' with rfl | rfl
      · have h60 : some 60 = some o := ho
        exact exampleHeap_not_through o (by rw [← Option.some.inj h60]; decide)
      · have h70 : some 70 = some o := ho
        exact exampleHeap_not_through o (by rw [← Option.some.inj h70]; decide))).1

theorem ClaimStep_VisitAll_push (B : Build) (heap : Heap)
    (Visit : Map → HeapObject → VisitorState → Int × VisitorState)
    (marking_mode : YoungGenerationMarkingVisitorMode) (calls : List SlotVisit)
    (hcalls : ∀ c ∈ calls, c.visitation_mode = ObjectVisitationMode.kPushToWorklist)
    (s : VisitorState) :
    ClaimStep s (VisitAll B heap Visit marking_mode calls s) := by
  rw [VisitAll_push_irrelevant B heap Visit (fun _ _ t => (0, t)) marking_mode _ hcalls]
  exact ClaimStep_VisitAll B heap _ (fun _ _ t => ClaimStep_refl t) marking_mode _ _

theorem VisitEphemeronHashTable_list (B : Build) (heap : Heap) (L : EphemeronHashTableLayout)
    (Visit : Map → HeapObject → VisitorState → Int × VisitorState)
    (marking_mode : YoungGenerationMarkingVisitorMode) (map : Map) (table : HeapObject)
    (s : VisitorState) :
    (VisitEphemeronHashTable B heap L Visit marking_mode map table
        s).2.ephemeron_table_list_local_ = s.ephemeron_table_list_local_ ++ [table]
      ∧ ∀ o ∈ s.marked,
          o ∈ (VisitEphemeronHashTable B heap L Visit marking_mode map table s).2.marked := by
  rw [VisitEphemeronHashTable_eq]
  have hpush := valueVisits_push marking_mode L table
  refine ⟨(VisitAll_push_effects B heap Visit marking_mode _ hpush _).1, ?_⟩
  exact (ClaimStep_VisitAll_push B heap Visit marking_mode _ hpush
    (PushEphemeronTable table s)).1

theorem VisitEphemeronHashTableTimes_count (B : Build) (heap : Heap)
    (L : EphemeronHashTableLayout)
    (Visit : Map → HeapObject → VisitorState → Int × VisitorState)
    (marking_mode : YoungGenerationMarkingVisitorMode) (map : Map) (table : HeapObject)
    (n : Nat) (s : VisitorState) :
    (VisitEphemeronHashTableTimes B heap L Visit marking_mode map table n
        s).ephemeron_table_list_local_.count table
      = s.ephemeron_table_list_local_.count table + n := by
  induction n generalizing s with
  | zero => rfl
  | succ n ih =>
    rw [VisitEphemeronHashTableTimes, ih,
      (VisitEphemeronHashTable_list B heap L Visit marking_mode map table s).1,
      List.count_append]
    simp
    omega

/-- A visit through `DispatchVisit` keeps the ephemeron invariant: a table is registered only
right after it has been claimed. -/
theorem EphemeronInvariant_VisitObjectViaSlot (B : Build) (heap : Heap)
    (L : EphemeronHashTableLayout) (marking_mode : YoungGenerationMarkingVisitorMode)
    (isTable : Map → Bool) (Other : Map → HeapObject → VisitorState → Int × VisitorState)
    (hOther : ∀ m x t, (Other m x t).2.ephemeron_table_list_local_
        = t.ephemeron_table_list_local_ ∧ ∀ o ∈ t.marked, o ∈ (Other m x t).2.marked)
    (visitation_mode : ObjectVisitationMode) (slot_treatment_mode : SlotTreatmentMode)
    (slot : Slot) (s : VisitorState) (hinv : EphemeronInvariant s) :
    EphemeronInvariant
      (VisitObjectViaSlot B heap (DispatchVisit B heap L marking_mode isTable Other)
        marking_mode visitation_mode slot_treatment_mode slot s).2 := by
  obtain ⟨h1, _, _, _, h5, _⟩ :=
    ResolveReferent_state B heap marking_mode slot_treatment_mode slot s
  have hinv1 : EphemeronInvariant
      (ResolveReferent B heap marking_mode slot_treatment_mode slot s).2 := by
    unfold EphemeronInvariant
    rw [h5, h1]
    exact hinv
  cases hr : (ResolveReferent B heap marking_mode slot_treatment_mode slot s).1 with
  | none =>
    rw [VisitObjectViaSlot_of_none B heap _ _ _ _ slot s hr]
    exact hinv1
  | some o =>
    rw [VisitObjectViaSlot_of_some B heap _ _ _ _ slot s o hr]
    generalize (ResolveReferent B heap marking_mode slot_treatment_mode slot s).2 = t at hinv1 ⊢
    have hgrow : ∀ u : VisitorState,
        u.ephemeron_table_list_local_ = t.ephemeron_table_list_local_ →
        (∀ x ∈ t.marked, x ∈ u.marked) → EphemeronInvariant u := by
      intro u hu hm
      unfold EphemeronInvariant
      rw [hu]
      exact ⟨hinv1.1, fun x hx => hm x (hinv1.2 x hx)⟩
    by_cases hm : o ∈ t.marked
    · rw [ClaimAndDispatch_marked B heap _ marking_mode visitation_mode o t hm]
      exact hgrow _ rfl (fun x hx => hx)
    · rw [ClaimAndDispatch_unmarked B heap _ marking_mode visitation_mode o t hm]
      have hcl : ∀ x ∈ t.marked, x ∈ o :: t.marked := fun x hx => List.mem_cons_of_mem _ hx
      split
      · exact hgrow _ rfl hcl
      · split
        · exact hgrow _ rfl hcl
        · split
          · -- direct visitation through the dispatch
            have hv : EphemeronInvariant
                (DispatchVisit B heap L marking_mode isTable Other (heap.map o) o
                  ((Claimed o t).record (Event.Visit (heap.map o) o))).2 := by
              unfold DispatchVisit
              split
              · obtain ⟨e1, e2⟩ := VisitEphemeronHashTable_list B heap L Other marking_mode
                  (heap.map o) o ((Claimed o t).record (Event.Visit (heap.map o) o))
                unfold EphemeronInvariant
                rw [e1]
                have hnot : o ∉ t.ephemeron_table_list_local_ := fun h => hm (hinv1.2 o h)
                refine ⟨List.nodup_append.2 ⟨hinv1.1, List.nodup_singleton o, ?_⟩, ?_⟩
                · intro x hx1 hx2
                  rw [List.mem_singleton.1 hx2] at hx1
                  exact hnot hx1
                · intro x hx
                  rcases List.mem_append.1 hx with h | h
                  · exact e2 x (List.mem_cons_of_mem _ (hinv1.2 x h))
                  · rw [List.mem_singleton.1 h]
                    exact e2 o (List.mem_cons_self _ _)
              · obtain ⟨e1, e2⟩ := hOther (heap.map o) o
                  ((Claimed o t).record (Event.Visit (heap.map o) o))
                exact hgrow _ e1 (fun x hx => e2 x (List.mem_cons_of_mem _ hx))
            split
            · exact hv
            · exact hv
          · exact hgrow _ rfl hcl

/-- C14, as the code has it (ephemeron registration). `VisitEphemeronHashTable` registers the
table on every call: after `n` calls in a row the local ephemeron list contains the table `n`
more times than before, and every call visits the value slots. The table is registered at most
once when it reaches `VisitEphemeronHashTable` only through the claim mechanism: for a visitor
whose `Parent::Visit` hands tables to `VisitEphemeronHashTable`, every sequence of
`VisitObjectViaSlot` calls that starts with no table registered twice and every registered
table marked, so in particular with an empty list, ends the same way. -/
theorem ephemeron_registration (B : Build) (heap : Heap) (L : EphemeronHashTableLayout)
    (Visit : Map → HeapObject → VisitorState → Int × VisitorState)
    (marking_mode : YoungGenerationMarkingVisitorMode) (map : Map) (table : HeapObject)
    (s : VisitorState) :
    (∀ n, (VisitEphemeronHashTableTimes B heap L Visit marking_mode map table n
          s).ephemeron_table_list_local_.count table
        = s.ephemeron_table_list_local_.count table + n)
      ∧ (∀ t, (VisitEphemeronHashTable B heap L Visit marking_mode map table t).2
          = VisitAll B heap Visit marking_mode (valueVisits marking_mode L table)
              (PushEphemeronTable table t))
      ∧ (∀ (isTable : Map → Bool)
          (Other : Map → HeapObject → VisitorState → Int × VisitorState)
          (calls : List SlotVisit),
          (∀ m x t, (Other m x t).2.ephemeron_table_list_local_
              = t.ephemeron_table_list_local_ ∧ ∀ o ∈ t.marked, o ∈ (Other m x t).2.marked) →
          EphemeronInvariant s →
          EphemeronInvariant
              (VisitAll B heap (DispatchVisit B heap L marking_mode isTable Other)
                marking_mode calls s)
            ∧ (VisitAll B heap (DispatchVisit B heap L marking_mode isTable Other)
                marking_mode calls s).ephemeron_table_list_local_.count table ≤ 1) := by
  refine ⟨fun n => VisitEphemeronHashTableTimes_count B heap L Visit marking_mode map table n s,
    fun t => by rw [VisitEphemeronHashTable_eq], ?_⟩
  intro isTable Other calls hOther hinv
  have hall : EphemeronInvariant
      (VisitAll B heap (DispatchVisit B heap L marking_mode isTable Other)
        marking_mode calls s) := by
    induction calls generalizing s with
    | nil => exact hinv
    | cons c calls ih =>
      rw [VisitAll_cons]
      exact ih _ (EphemeronInvariant_VisitObjectViaSlot B heap L marking_mode isTable Other
        hOther c.visitation_mode c.slot_treatment_mode c.slot s hinv)
  exact ⟨hall, List.nodup_iff_count_le_one.1 hall.1 table⟩

/-- Witness of `ephemeron_registration`: three calls in a row on table `80` register it three
times; and over the four example visits, with objects of map `201` dispatched as tables, no
table is registered twice. -/
theorem ephemeron_registration_witness :
    (VisitEphemeronHashTableTimes exampleBuild exampleHeap exampleLayout exampleVisit
        YoungGenerationMarkingVisitorMode.kParallel 201 80 3
        exampleState).ephemeron_table_list_local_.count 80
        = exampleState.ephemeron_table_list_local_.count 80 + 3
      ∧ (VisitAll exampleBuild exampleHeap
          (DispatchVisit exampleBuild exampleHeap exampleLayout
            YoungGenerationMarkingVisitorMode.kParallel (fun m => decide (m = 201)) exampleVisit)
          YoungGenerationMarkingVisitorMode.kParallel exampleVisits
          exampleState).ephemeron_table_list_local_.count 60 ≤ 1 :=
  ⟨(ephemeron_registration exampleBuild exampleHeap exampleLayout exampleVisit
      YoungGenerationMarkingVisitorMode.kParallel 201 80 exampleState).1 3,
    ((ephemeron_registration exampleBuild exampleHeap exampleLayout exampleVisit
      YoungGenerationMarkingVisitorMode.kParallel 201 60 exampleState).2.2
        (fun m => decide (m = 201)) exampleVisit exampleVisits
        (fun _ _ _ => ⟨rfl, fun _ h => h⟩)
        ⟨List.nodup_nil, fun x h => absurd h (List.not_mem_nil x)⟩).2⟩

/-- C14 as stated fails for the function by itself: two calls of `VisitEphemeronHashTable` on
table `80` by one visitor leave the table twice in the local ephemeron list. -/
theorem ephemeron_registered_twice_counterexample :
    (VisitEphemeronHashTableTimes exampleBuild exampleHeap exampleLayout exampleVisit
        YoungGenerationMarkingVisitorMode.kParallel 201 80 2
        exampleState).ephemeron_table_list_local_ = [80, 80] := by
  decide

end YoungGenerationMarkingVisitor
